import Mathlib

/-!
Shallow embedding of the REDCap log parser and reconciliation engine of the
AMBRA_Backups repository (files `AMBRA_Backups/REDCap_Log/redcap_log.py` and
`AMBRA_Backups/redcap_funcs.py`), together with theorems settling the spec
claims about them.  Strings are modelled as `List Char`; Python exceptions as
`Except`; the MySQL mirror as explicit lists of rows.
-/

/-- Single-quote character (ASCII 39), named so the text stays plain. -/
def sqc : Char := Char.ofNat 39

/-- Characters of a string literal. -/
def lc (s : String) : List Char := s.data

/-- Python whitespace (the ASCII characters recognised by `str.strip`, `\s` and `int`). -/
def isPySpace (c : Char) : Bool :=
  c == ' ' || c == '\t' || c == '\n' || c == '\r' || c == Char.ofNat 11 || c == Char.ofNat 12

/-- Numeric value of a digit string, most significant digit first. -/
def digitsVal (l : List Char) : Nat := l.foldl (fun a c => a * 10 + (c.toNat - 48)) 0

/-- Model of Python `int(s)`: optional surrounding whitespace, optional sign,
then a nonempty run of decimal digits. -/
def pyInt (l : List Char) : Option Int :=
  let t := ((l.dropWhile isPySpace).reverse.dropWhile isPySpace).reverse
  if t.head? = some '-' then
    (if (t.drop 1).isEmpty then none
     else if (t.drop 1).all Char.isDigit then some (-(digitsVal (t.drop 1) : Int)) else none)
  else if t.head? = some '+' then
    (if (t.drop 1).isEmpty then none
     else if (t.drop 1).all Char.isDigit then some ((digitsVal (t.drop 1) : Int)) else none)
  else
    (if t.isEmpty then none
     else if t.all Char.isDigit then some ((digitsVal t : Int)) else none)

/-- First index at which `pat` occurs as a contiguous substring of `l`
(Python `str.index` / `in`). -/
def findSub (pat : List Char) : List Char → Option Nat
  | [] => if pat.isEmpty then some 0 else none
  | x :: t =>
      if pat.isPrefixOf (x :: t) then some 0
      else (findSub pat t).map (· + 1)

/-- Substring containment test (Python `in`). -/
def isSub (pat l : List Char) : Bool := (findSub pat l).isSome

/-- Value kept in a parsed details dictionary: a raw string span, or the
integer stored under the reserved key. -/
inductive DVal where
  | s : List Char → DVal
  | i : Int → DVal
deriving DecidableEq, Repr

/-- Python dict with string keys, in insertion order. -/
abbrev Dict := List (List Char × DVal)

/-- Python dict assignment `d[k] = v`: update in place if the key is present,
else append. -/
def dictInsert (d : Dict) (k : List Char) (v : DVal) : Dict :=
  if d.any (fun p => p.1 == k) then d.map (fun p => if p.1 == k then (k, v) else p)
  else d ++ [(k, v)]

/-- Python dict lookup `d.get(k)`. -/
def dictLookup (d : Dict) (k : List Char) : Option DVal :=
  (d.find? (fun p => p.1 == k)).map Prod.snd

/-- Python exception kinds raised by the embedded code. -/
inductive PyErr where
  | attrError | valueError | exception | indexError | keyError | fuel
deriving DecidableEq, Repr

/-- Scan of `REDCapLog.extract_details` inside a single-quoted value.  The
input is the character list just after the opening quote; the result is the
span of characters belonging to the value after the opening quote, together
with the remaining input positioned at the next token (two characters past
the cursor where the scan stopped, as the source advances `left = right + 2`).
A quote immediately followed by a comma closes the value (quote kept in the
span); a quote that is the last character closes the value with the quote
dropped from the span; end of input closes the value. -/
def qscan : List Char → List Char × List Char
  | [] => ([], [])
  | [c] => if c = sqc then ([], []) else ([c], [])
  | c :: d :: rest =>
      if c = sqc then
        if d = ',' then ([sqc], rest.drop 1)
        else
          let p := qscan (d :: rest)
          (sqc :: p.1, p.2)
      else
        let p := qscan (d :: rest)
        (c :: p.1, p.2)

/-- Fuel-indexed main loop of `REDCapLog.extract_details` (the two-cursor
scan).  Each iteration consumes at least three characters, so fuel
`length + 1` never runs out. -/
def edGo : Nat → List Char → Dict → Except PyErr Dict
  | 0, _, _ => .error .fuel
  | _ + 1, [], acc => .ok acc
  | _ + 1, [_], acc => .ok acc
  | fuel + 1, c :: c2 :: t, acc =>
      let l := c :: c2 :: t
      if c = '[' then
        if l.take 12 = lc "[instance = " then
          match findSub (lc "= ") l with
          | none => .error .valueError
          | some ieq =>
              match findSub (lc "]") l with
              | none => .error .valueError
              | some ibr =>
                  match pyInt ((l.take ibr).drop (ieq + 2)) with
                  | none => .error .valueError
                  | some v =>
                      edGo fuel (l.drop (ibr + 3)) (dictInsert acc (lc "[instance]") (.i v))
        else .error .exception
      else
        match findSub (lc " = ") l with
        | none => .error .valueError
        | some ev =>
            match l.drop (ev + 3) with
            | [] => .error .indexError
            | q :: vrest =>
                if q = sqc then
                  let p := qscan vrest
                  edGo fuel p.2 (dictInsert acc (l.take ev) (.s (sqc :: p.1)))
                else
                  match findSub [','] (q :: vrest) with
                  | some j =>
                      edGo fuel ((q :: vrest).drop (j + 2))
                        (dictInsert acc (l.take ev) (.s ((q :: vrest).take j)))
                  | none => edGo fuel [] (dictInsert acc (l.take ev) (.s (q :: vrest)))

/-- `REDCapLog.extract_details`: parse a log details string into the ordered
variable-to-raw-value dictionary. -/
def extract_details (details : List Char) : Except PyErr Dict :=
  edGo (details.length + 1) details []

/-- `REDCapLog.get_instance` on an already-parsed details dictionary: the
stored instance number, unless it is the only key. -/
def get_instance (d : Dict) : Option Int :=
  match dictLookup d (lc "[instance]") with
  | some v =>
      if d.length = 1 then none
      else match v with
        | .i n => some n
        | .s _ => none
  | none => none

/-- Python `str.strip()`. -/
def pyStrip (l : List Char) : List Char :=
  ((l.dropWhile isPySpace).reverse.dropWhile isPySpace).reverse

/-- Prefix of a string before the first occurrence of `c`
(Python `s.split(c, 1)[0]`). -/
def takeBefore (c : Char) (l : List Char) : List Char :=
  l.takeWhile (fun x => x != c)

/-- Python `s.split(sep)` for a one-character separator: splits at every
occurrence, keeping empty segments. -/
def splitChar (c : Char) : List Char → List (List Char)
  | [] => [[]]
  | x :: t =>
      if x = c then [] :: splitChar c t
      else
        match splitChar c t with
        | h :: r => (x :: h) :: r
        | [] => [[x]]

/-- Join segments with single spaces (Python `" ".join`). -/
def joinSpace (ls : List (List Char)) : List Char := (ls.intersperse [' ']).flatten

/-- The action string stored by `REDCapLog.__init__`:
`action.split('(', 1)[0].strip()`. -/
def actionOfRaw (raw : List Char) : List Char := pyStrip (takeBefore '(' raw)

/-- Operation kinds recognised by the engine. -/
inductive Op where
  | CREATE | UPDATE | DELETE
deriving DecidableEq, Repr

/-- `REDCapLog.get_action` applied to the stored (already truncated) action
text: drop the final space-separated word, then test the three patterns in
source order, returning `none` when none matches. -/
def get_action (a : List Char) : Option Op :=
  let t := joinSpace ((splitChar ' ' a).dropLast)
  if isSub (lc "Update record") t then some .UPDATE
  else if isSub (lc "Delete record") t then some .DELETE
  else if isSub (lc "Create record") t then some .CREATE
  else none

/-- Classification of a raw REDCap action text as the engine sees it:
`REDCapLog.__init__` truncates at the first parenthesis and strips, then
`get_action` is applied. -/
def get_action_of_raw (raw : List Char) : Option Op := get_action (actionOfRaw raw)

/-- First maximal run of decimal digits (`re.search('[0-9]+', s)`),
used for `patient_name`. -/
def firstDigitRun : List Char → Option (List Char)
  | [] => none
  | c :: t => if c.isDigit then some (c :: t.takeWhile Char.isDigit) else firstDigitRun t

/-- Match attempt of the arm pattern at the head of the list: the literal
`Arm`, one whitespace character, a nonempty digit run, then a colon
(the regex `(?<=Arm\s)\d+(?=:)` anchored at this position). -/
def armClauseAt (l : List Char) : Option (List Char) :=
  match l with
  | 'A' :: 'r' :: 'm' :: w :: rest =>
      if isPySpace w then
        let ds := rest.takeWhile Char.isDigit
        if ds.isEmpty then none
        else if (rest.drop ds.length).head? = some ':' then some ds else none
      else none
  | _ => none

/-- Leftmost match of the arm-number pattern `(?<=Arm\s)\d+(?=:)`
(`re.search` over the whole action text). -/
def searchArmNum : List Char → Option (List Char)
  | [] => none
  | c :: t =>
      match armClauseAt (c :: t) with
      | some ds => some ds
      | none => searchArmNum t

/-- Boolean form of arm-clause presence. -/
def hasArmClause (l : List Char) : Bool := (searchArmNum l).isSome

/-- Value object built by `REDCapLog.__init__` (AMBRA_Backups version). -/
structure REDCapLogObj where
  patient_name : List Char
  action : List Char
  timestamp : List Char
  original_details : List Char
  details : Dict
  varNames : List (List Char)
  arm_num : List Char
deriving DecidableEq, Repr

/-- `REDCapLog.__init__`: extract the record id (first digit run, raising
`AttributeError` when absent), truncate and strip the action, parse the
details, and extract the arm number (raising `AttributeError` when the
action text has no `Arm <digits>:` clause). -/
def redcap_log_init (action timestamp details : List Char) :
    Except PyErr REDCapLogObj :=
  match firstDigitRun action with
  | none => .error .attrError
  | some pn =>
      let act := actionOfRaw action
      match extract_details details with
      | .error e => .error e
      | .ok d =>
          match searchArmNum action with
          | none => .error .attrError
          | some arm => .ok ⟨pn, act, timestamp, details, d, d.map Prod.fst, arm⟩

/-- Character class `[a-zA-z0-9]` of the multi-choice suffix regex in
`get_crf_name` (note the source's `A-z` range, which spans ASCII 65 to 122). -/
def mcCls (c : Char) : Bool := (65 ≤ c.toNat && c.toNat ≤ 122) || c.isDigit

/-- Test of one detail variable against one field, per the regex
`^field(\([a-zA-z0-9]*\.?[a-zA-z0-9]*\))?$` of `get_crf_name`. -/
def matchesField (field v : List Char) : Bool :=
  v == field ||
    (v.take field.length == field &&
      (match v.drop field.length with
       | '(' :: rest =>
           !rest.isEmpty && rest.getLast? == some ')' &&
             (let mid := rest.dropLast
              mid.all (fun c => mcCls c || c == '.') && mid.count '.' ≤ 1)
       | _ => false))

/-- `REDCapLog.get_crf_name`: the first instrument of the field map one of
whose fields matches one of the log's variables. -/
def get_crf_name (vars : List (List Char)) (fmap : List (List Char × List (List Char))) :
    Option (List Char) :=
  fmap.findSome? (fun p =>
    if p.2.any (fun f => vars.any (fun v => matchesField f v)) then some p.1 else none)

/-- Instrument-to-fields map type (`instru_field_map`). -/
abbrev FieldMap := List (List Char × List (List Char))

/-- Helper preserving first-appearance order of forms while grouping fields. -/
def fmapAdd (m : FieldMap) (form f : List Char) : FieldMap :=
  if m.any (fun p => p.1 == form) then
    m.map (fun p => if p.1 == form then (p.1, p.2 ++ [f]) else p)
  else m ++ [(form, [f])]

/-- `get_project_instru_field_map`: group the project metadata's
(field, form) pairs by form, skipping `record_id`, then append the synthetic
`form_complete` field to every instrument. -/
def get_project_instru_field_map (md : List (List Char × List Char)) : FieldMap :=
  let m := md.foldl (fun m fv => if fv.1 == lc "record_id" then m else fmapAdd m fv.2 fv.1) []
  m.map (fun p => (p.1, p.2 ++ [p.1 ++ lc "_complete"]))

/-- One row of an `export_records` snapshot.  The three service-owned columns
dropped by the engine before melting are kept structurally; `fields` holds
the remaining variable columns. -/
structure SnapRow where
  repeat_instance : Option Int
  fields : List (List Char × List Char)
deriving DecidableEq, Repr

/-- Result table of `export_records(records=[p], forms=[f])`;
`hasRepeatCols` says whether the repeat columns are present. -/
structure SnapTable where
  hasRepeatCols : Bool
  rows : List SnapRow
deriving DecidableEq, Repr

/-- Abstract external REDCap project: metadata, repeating-instrument
information and the point-in-time record snapshots. -/
structure ProjectModel where
  metadata : List (List Char × List Char)
  hasRepeatingFlag : Bool
  repeatingExport : List (List Char)
  records : List Char → List Char → SnapTable
  project_title : List Char

/-- `get_repeating_instru`: the field-map instruments that the project
exports as repeating, when the project has repeating instruments at all. -/
def get_repeating_instru (P : ProjectModel) (fmap : FieldMap) : List (List Char) :=
  if P.hasRepeatingFlag then
    (fmap.map Prod.fst).filter (fun n => P.repeatingExport.any (fun e => e == n))
  else []

/-- Mirror `patients` row. -/
structure PatientRow where
  id : Nat
  patient_name : List Char
  patient_id : List Char
deriving DecidableEq, Repr

/-- Mirror `CRF_RedCap` row.  The source column `instance` is a Lean keyword,
so the field is called `inst`. -/
structure CrfRow where
  id : Nat
  id_patient : Nat
  crf_name : List Char
  inst : Option Int
  deleted : Bool
  verified : Bool
deriving DecidableEq, Repr

/-- Mirror `CRF_Data_RedCap` row. -/
structure DataRow where
  id_crf : Nat
  redcap_variable : List Char
  value : List Char
deriving DecidableEq, Repr

/-- Identification of the messages `project_data_to_db` writes to
`airflow_logs` through `log_to_db`. -/
inductive EventTag where
  | noRepeatInstances | instanceNotAvailable | unresolvedVariables
deriving DecidableEq, Repr

/-- Row of the `airflow_logs` event table, reduced to the data the engine
puts in it: the level, the source log's patient and timestamp, and which
message was written. -/
structure EventRow where
  level : List Char
  src_patient : List Char
  src_timestamp : List Char
  tag : EventTag
deriving DecidableEq, Repr

/-- Timestamp as the tuple (year, month, day, hour, minute). -/
abbrev Ts5 := Nat × Nat × Nat × Nat × Nat

/-- Row of `backup_info_RedCap`. -/
structure BackupRow where
  project_name : List Char
  last_backup : Ts5
deriving DecidableEq, Repr

/-- The relational mirror state, with auto-increment counters for the two
tables whose generated ids the engine reads back. -/
structure DB where
  patients : List PatientRow
  nextPatientId : Nat
  crf : List CrfRow
  nextCrfId : Nat
  crf_data : List DataRow
  backup : List BackupRow
  events : List EventRow
deriving DecidableEq, Repr

/-- Association lookup in a snapshot row / melted frame. -/
def lookupField (fs : List (List Char × List Char)) (k : List Char) : Option (List Char) :=
  (fs.find? (fun p => p.1 == k)).map Prod.snd

/-- Record one `log_to_db` event. -/
def addEvent (db : DB) (level : List Char) (L : REDCapLogObj) (tag : EventTag) : DB :=
  { db with events := db.events ++ [⟨level, L.patient_name, L.timestamp, tag⟩] }

/-- Patient lookup by name with lazy insertion, returning the patient id
(`SELECT id FROM patients WHERE patient_name = ...` then `INSERT` if absent). -/
def upsertPatient (db : DB) (name : List Char) : Nat × DB :=
  match db.patients.find? (fun p => p.patient_name == name) with
  | some p => (p.id, db)
  | none =>
      (db.nextPatientId,
       { db with
          patients := db.patients ++ [⟨db.nextPatientId, name, name⟩],
          nextPatientId := db.nextPatientId + 1 })

/-- `UPDATE CRF_RedCap SET deleted = 1 WHERE id_patient = pid`. -/
def markPatientDeleted (db : DB) (pid : Nat) : DB :=
  { db with crf := db.crf.map (fun r => if r.id_patient = pid then { r with deleted := true } else r) }

/-- `SELECT * FROM CRF_RedCap WHERE id_patient = pid AND crf_name = crf AND
instance <matches> AND deleted = '0'`. -/
def activeCrfRows (db : DB) (pid : Nat) (crf : List Char) (inst : Option Int) : List CrfRow :=
  db.crf.filter (fun r => r.id_patient == pid && r.crf_name == crf && r.inst == inst && r.deleted == false)

/-- `UPDATE CRF_RedCap SET deleted = 1 WHERE id = rid`. -/
def setRowDeleted (db : DB) (rid : Nat) : DB :=
  { db with crf := db.crf.map (fun r => if r.id = rid then { r with deleted := true } else r) }

/-- `UPDATE CRF_RedCap SET verified = 1 WHERE id = rid` (the engine only ever
writes 1 here). -/
def setRowVerified (db : DB) (rid : Nat) : DB :=
  { db with crf := db.crf.map (fun r => if r.id = rid then { r with verified := true } else r) }

/-- `export_records_wrapper`: fetch the snapshot for (patient, form), drop
rows whose `form_complete` cell is the empty string, and when an instance is
requested, warn when the repeat columns are missing (then crash on the
subsequent column access, a pandas `KeyError`) or when the instance is not
among the available ones, then filter to the requested instance. -/
def export_records_wrapper (P : ProjectModel) (L : REDCapLogObj) (crf : List Char)
    (inst : Option Int) (db : DB) : Except PyErr (List SnapRow) × DB :=
  let tbl := P.records L.patient_name crf
  if tbl.rows.isEmpty then (.ok [], db)
  else if tbl.rows.all (fun r => (lookupField r.fields (crf ++ lc "_complete")).isNone) then
    (.error .keyError, db)
  else
    let rows1 := tbl.rows.filter (fun r => !(lookupField r.fields (crf ++ lc "_complete") == some []))
    match inst with
    | none => (.ok rows1, db)
    | some i =>
        if !tbl.hasRepeatCols then
          (.error .keyError, addEvent db (lc "WARNING") L .noRepeatInstances)
        else
          let db2 :=
            if !(rows1.any (fun r => r.repeat_instance == some i)) then
              addEvent db (lc "WARNING") L .instanceNotAvailable
            else db
          (.ok (rows1.filter (fun r => r.repeat_instance == some i)), db2)

/-- Pandas `melt` on the snapshot frame after the service columns are
dropped: one (variable, value) pair per column per row, column-major, with
the column list taken from the first row. -/
def melt (rows : List SnapRow) : List (List Char × List Char) :=
  match rows with
  | [] => []
  | r0 :: _ =>
      (r0.fields.map Prod.fst).flatMap
        (fun c => rows.map (fun r => (c, (lookupField r.fields c).getD [])))

/-- Test of the `crf_status` field of a melted snapshot against the terminal
codes: present and equal to "4" or "5". -/
def statusIs45 (melted : List (List Char × List Char)) (crf : List Char) : Bool :=
  match lookupField melted (crf ++ lc "_status") with
  | some v => v == lc "4" || v == lc "5"
  | none => false

/-- Upsert of one `CRF_Data_RedCap` row keyed by (id_crf, redcap_variable).
Modelled from the spec: the `CRF_Data_RedCap` schema is not under `src/`;
the spec's data model declares a MirrorField unique per
(crf_row_id, variable_name) with re-insertion overwriting, which is what
`df_to_db_table`'s `INSERT ... ON DUPLICATE KEY UPDATE` does on it. -/
def upsertDataRow (db : DB) (rid : Nat) (var val : List Char) : DB :=
  if db.crf_data.any (fun d => d.id_crf == rid && d.redcap_variable == var) then
    { db with crf_data := db.crf_data.map (fun d =>
        if d.id_crf == rid && d.redcap_variable == var then { d with value := val } else d) }
  else { db with crf_data := db.crf_data ++ [⟨rid, var, val⟩] }

/-- Update branch of step 6 (`crf_row` exists): possibly promote `verified`,
then upsert every melted (variable, value) pair, with the set of known
variables read once before the loop. -/
def updateBranch (db : DB) (rid : Nat) (crf : List Char)
    (melted : List (List Char × List Char)) : DB :=
  let db1 := if statusIs45 melted crf then setRowVerified db rid else db
  let dbvars := (db1.crf_data.filter (fun d => d.id_crf == rid)).map (fun d => d.redcap_variable)
  melted.foldl
    (fun db p =>
      if dbvars.any (fun v => v == p.1) then
        { db with crf_data := db.crf_data.map (fun d =>
            if d.id_crf == rid && d.redcap_variable == p.1 then { d with value := p.2 } else d) }
      else { db with crf_data := db.crf_data ++ [⟨rid, p.1, p.2⟩] })
    db1

/-- Insert branch of step 6 (no active `crf_row`): insert the row with
`deleted = 0` and `verified` from the status rule, then write every melted
pair through `df_to_db_table`. -/
def insertBranch (db : DB) (pid : Nat) (crf : List Char) (inst : Option Int)
    (melted : List (List Char × List Char)) : DB :=
  let verified := statusIs45 melted crf
  let rid := db.nextCrfId
  let db1 := { db with
                crf := db.crf ++ [⟨rid, pid, crf, inst, false, verified⟩],
                nextCrfId := rid + 1 }
  melted.foldl (fun db p => upsertDataRow db rid p.1 p.2) db1

/-- One raw log record as returned by `export_logging`. -/
structure RawLog where
  action : List Char
  timestamp : List Char
  details : List Char
deriving DecidableEq, Repr

/-- Outcome of processing one log: applied (possibly collecting the entry in
the failure list), or a fatal uncaught exception. -/
inductive StepOut where
  | ok (failed : Option REDCapLogObj)
  | fatal (e : PyErr)
deriving DecidableEq, Repr

/-- One iteration of the `project_data_to_db` loop over a single log. -/
def processLog (P : ProjectModel) (fmap : FieldMap) (repeating : List (List Char))
    (log : RawLog) (db : DB) : DB × StepOut :=
  if log.details.isEmpty then (db, .ok none)
  else
    match redcap_log_init log.action log.timestamp log.details with
    | .error e => (db, .fatal e)
    | .ok L =>
        let pd := upsertPatient db L.patient_name
        let pid := pd.1
        let db1 := pd.2
        match get_action L.action with
        | some .DELETE => (markPatientDeleted db1 pid, .ok none)
        | _ =>
            let instOpt := get_instance L.details
            match get_crf_name L.varNames fmap with
            | none => (db1, .ok (some L))
            | some crf =>
                if crf.isEmpty then (db1, .ok (some L))
                else
                  let inst :=
                    if instOpt.isNone && repeating.any (fun r => r == crf) then some 1
                    else instOpt
                  let crfRows := activeCrfRows db1 pid crf inst
                  let wr := export_records_wrapper P L crf inst db1
                  match wr.1 with
                  | .error e => (wr.2, .fatal e)
                  | .ok rows =>
                      let db2 := wr.2
                      if rows.isEmpty && crfRows.isEmpty then (db2, .ok none)
                      else if rows.isEmpty then
                        match crfRows.head? with
                        | some r => (setRowDeleted db2 r.id, .ok none)
                        | none => (db2, .ok none)
                      else
                        let melted := melt rows
                        match crfRows.head? with
                        | some r => (updateBranch db2 r.id crf melted, .ok none)
                        | none => (insertBranch db2 pid crf inst melted, .ok none)

/-- The loop of `project_data_to_db` over the log window, accumulating the
failure list and stopping at the first fatal exception (partial mutations
are kept, at-least-once style). -/
def runLogs (P : ProjectModel) (fmap : FieldMap) (rep : List (List Char)) :
    List RawLog → DB → List REDCapLogObj → DB × List REDCapLogObj × Option PyErr
  | [], db, failed => (db, failed, none)
  | log :: rest, db, failed =>
      match processLog P fmap rep log db with
      | (db1, .ok none) => runLogs P fmap rep rest db1 failed
      | (db1, .ok (some L)) => runLogs P fmap rep rest db1 (failed ++ [L])
      | (db1, .fatal e) => (db1, failed, some e)

/-- WARNING event written for one unresolved log after the loop. -/
def warnFailedEvent (L : REDCapLogObj) : EventRow :=
  ⟨lc "WARNING", L.patient_name, L.timestamp, .unresolvedVariables⟩

/-- `project_data_to_db` over an already-fetched ordered log window: build
the field map and the repeating set, replay the window, then (when no fatal
error occurred) record one WARNING per unresolved entry and set
`backup_info_RedCap.last_backup` of the project's row to the current time. -/
def project_data_to_db (P : ProjectModel) (logs : List RawLog) (now : Ts5) (db : DB) :
    DB × Option PyErr :=
  let fmap := get_project_instru_field_map P.metadata
  let rep := get_repeating_instru P fmap
  let r := runLogs P fmap rep logs db []
  match r.2.2 with
  | some e => (r.1, some e)
  | none =>
      let db1 := { r.1 with events := r.1.events ++ r.2.1.map warnFailedEvent }
      let pname := pyStrip P.project_title
      let db2 := { db1 with backup := db1.backup.map (fun b =>
                    if b.project_name == pname then (⟨b.project_name, now⟩ : BackupRow) else b) }
      (db2, none)

/-- Parse a timestamp string of the shape `YYYY-MM-DD HH:MM`
(`datetime.strptime(ts, "%Y-%m-%d %H:%M")`), validating the field ranges. -/
def parseTs (l : List Char) : Option Ts5 :=
  match l with
  | [y1, y2, y3, y4, '-', m1, m2, '-', d1, d2, ' ', h1, h2, ':', n1, n2] =>
      if [y1, y2, y3, y4, m1, m2, d1, d2, h1, h2, n1, n2].all Char.isDigit then
        let y := digitsVal [y1, y2, y3, y4]
        let m := digitsVal [m1, m2]
        let d := digitsVal [d1, d2]
        let h := digitsVal [h1, h2]
        let n := digitsVal [n1, n2]
        if 1 ≤ m && m ≤ 12 && 1 ≤ d && d ≤ 31 && h ≤ 23 && n ≤ 59 then
          some (y, m, d, h, n)
        else none
      else none
  | _ => none

/-- Lexicographic comparison of timestamp tuples, as Python compares
datetimes. -/
def ts5Le (a b : Ts5) : Bool :=
  if a.1 < b.1 then true else if b.1 < a.1 then false
  else if a.2.1 < b.2.1 then true else if b.2.1 < a.2.1 then false
  else if a.2.2.1 < b.2.2.1 then true else if b.2.2.1 < a.2.2.1 then false
  else if a.2.2.2.1 < b.2.2.2.1 then true else if b.2.2.2.1 < a.2.2.2.1 then false
  else a.2.2.2.2 ≤ b.2.2.2.2

/-- Sort key of one log inside `grab_logs` (`datetime.strptime` of its
timestamp); the default is unreachable under the parse check. -/
def logKey (l : RawLog) : Ts5 := (parseTs l.timestamp).getD (0, 0, 0, 0, 0)

/-- Comparison used for the stable sort of the merged log streams. -/
def logLe (a b : RawLog) : Bool := ts5Le (logKey a) (logKey b)

/-- Record-log branch of `grab_logs`: concatenate the add, delete and edit
streams in that order and stable-sort by parsed timestamp (Python
`list.sort` is stable; a timestamp `strptime` cannot parse raises). -/
def grab_logs_record (adds dels edits : List RawLog) : Except PyErr (List RawLog) :=
  let all := adds ++ dels ++ edits
  if all.all (fun l => (parseTs l.timestamp).isSome) then .ok (all.mergeSort logLe)
  else .error .valueError

/-- Text `get_action` actually matches against: the stored action (truncated
at the first parenthesis and stripped) with its final space-separated word
dropped. -/
def actionMatchText (raw : List Char) : List Char :=
  joinSpace ((splitChar ' ' (actionOfRaw raw)).dropLast)

/-- C4 counterexample: the action text `Delete record` contains the literal
`Delete record`, yet classification yields no operation (and no error):
`get_action` first drops the last word, leaving only `Delete`. -/
theorem C4_counterexample :
    isSub (lc "Delete record") (lc "Delete record") = true ∧
    get_action_of_raw (lc "Delete record") = none := by
  constructor
  · decide
  · decide

/-- C4 (amended): the operation is a case-sensitive substring match of
`Update record`, `Delete record`, `Create record` — in that order, first
match winning — against the action text truncated at the first parenthesis,
stripped, and with its last space-separated word removed; when none of the
three patterns occurs in that text, `get_action` silently returns no
operation instead of raising. -/
theorem C4_amended (raw : List Char) :
    (get_action_of_raw raw = some Op.UPDATE ↔
      isSub (lc "Update record") (actionMatchText raw) = true) ∧
    (get_action_of_raw raw = some Op.DELETE ↔
      (isSub (lc "Update record") (actionMatchText raw) = false ∧
       isSub (lc "Delete record") (actionMatchText raw) = true)) ∧
    (get_action_of_raw raw = some Op.CREATE ↔
      (isSub (lc "Update record") (actionMatchText raw) = false ∧
       isSub (lc "Delete record") (actionMatchText raw) = false ∧
       isSub (lc "Create record") (actionMatchText raw) = true)) ∧
    (get_action_of_raw raw = none ↔
      (isSub (lc "Update record") (actionMatchText raw) = false ∧
       isSub (lc "Delete record") (actionMatchText raw) = false ∧
       isSub (lc "Create record") (actionMatchText raw) = false)) := by
  simp only [get_action_of_raw, get_action, actionMatchText]
  cases hU : isSub (lc "Update record") (joinSpace ((splitChar ' ' (actionOfRaw raw)).dropLast)) <;>
    cases hD : isSub (lc "Delete record") (joinSpace ((splitChar ' ' (actionOfRaw raw)).dropLast)) <;>
      cases hC : isSub (lc "Create record") (joinSpace ((splitChar ' ' (actionOfRaw raw)).dropLast)) <;>
        simp [hU, hD, hC]

/-- C10: constructing the engine's log object fails for every action text
lacking a digit run or lacking an `Arm <whitespace><digits>:` clause, and a
processed log with such an action aborts the whole batch at construction
time. -/
theorem C10_arm_clause_required (action timestamp details : List Char)
    (P : ProjectModel) (fmap : FieldMap) (rep : List (List Char))
    (rest : List RawLog) (db : DB) (failed : List REDCapLogObj)
    (h : ¬ ((firstDigitRun action).isSome = true ∧ hasArmClause action = true)) :
    (∃ e, redcap_log_init action timestamp details = .error e) ∧
    (details.isEmpty = false →
      ∃ e, runLogs P fmap rep (⟨action, timestamp, details⟩ :: rest) db failed
            = (db, failed, some e)) := by
  have hinit : ∃ e, redcap_log_init action timestamp details = .error e := by
    unfold redcap_log_init
    cases hfd : firstDigitRun action with
    | none => exact ⟨.attrError, rfl⟩
    | some pn =>
        have harm : hasArmClause action = false := by
          rcases h' : hasArmClause action with _ | _
          · rfl
          · exact absurd ⟨by simp [hfd], h'⟩ h
        have hs : searchArmNum action = none := by
          unfold hasArmClause at harm
          exact Option.not_isSome_iff_eq_none.mp (by simp [harm])
        cases hed : extract_details details with
        | error e => exact ⟨e, rfl⟩
        | ok d => exact ⟨.attrError, by simp [hs]⟩
  refine ⟨hinit, fun hne => ?_⟩
  obtain ⟨e, he⟩ := hinit
  refine ⟨e, ?_⟩
  unfold runLogs processLog
  simp [hne, he]

/-- Witness for C10 at a concrete input: an update action with a record id
but no arm clause. -/
theorem C10_witness :
    (¬ (((firstDigitRun (lc "Update record 55")).isSome = true) ∧
        (hasArmClause (lc "Update record 55") = true))) ∧
    ((∃ e, redcap_log_init (lc "Update record 55") (lc "2024-01-01 10:00")
            (lc "q1 = checked") = .error e) ∧
     ((lc "q1 = checked").isEmpty = false →
       ∃ e, runLogs (⟨[], false, [], fun _ _ => ⟨false, []⟩, []⟩ : ProjectModel) [] []
              (⟨lc "Update record 55", lc "2024-01-01 10:00", lc "q1 = checked"⟩ :: []) 
              ⟨[], 1, [], 1, [], [], []⟩ []
            = (⟨[], 1, [], 1, [], [], []⟩, [], some e))) :=
  ⟨by decide,
   C10_arm_clause_required (lc "Update record 55") (lc "2024-01-01 10:00")
     (lc "q1 = checked") ⟨[], false, [], fun _ _ => ⟨false, []⟩, []⟩ [] [] []
     ⟨[], 1, [], 1, [], [], []⟩ [] (by decide)⟩

/-- One rendered assignment `var = 'value'`. -/
def renderAsg (a : List Char × List Char) : List Char :=
  a.1 ++ lc " = " ++ [sqc] ++ a.2 ++ [sqc]

/-- Detail string formed by joining rendered assignments with `, `. -/
def renderDetails : List (List Char × List Char) → List Char
  | [] => []
  | [a] => renderAsg a
  | a :: b :: t => renderAsg a ++ lc ", " ++ renderDetails (b :: t)

/-- Well-formed variable name for a rendered assignment: no space (so the
first ` = ` of the remaining input is the assignment's own separator) and
not starting with `[` (which would enter the instance-marker branch). -/
def wfVar (v : List Char) : Prop := ' ' ∉ v ∧ v.head? ≠ some '['

instance (v : List Char) : Decidable (wfVar v) := by unfold wfVar; infer_instance

/-- Value constraint of the round-trip claim: no single quote immediately
followed by a comma. -/
def goodVal : List Char → Bool
  | [] => true
  | [_] => true
  | c :: d :: t => (!(c = sqc && d = ',')) && goodVal (d :: t)

/-- Dictionary the parser actually produces on a rendered detail string:
every assignment except the last keeps both quotes in its raw span; the
last keeps only the opening quote. -/
def expectedDict : List (List Char × List Char) → Dict
  | [] => []
  | [a] => [(a.1, .s (sqc :: a.2))]
  | a :: b :: t => (a.1, .s (sqc :: a.2 ++ [sqc])) :: expectedDict (b :: t)

theorem goodVal_tail {c : Char} {x : List Char} (h : goodVal (c :: x) = true) :
    goodVal x = true := by
  cases x with
  | nil => rfl
  | cons d t => exact (Bool.and_eq_true_iff.mp h).2

theorem goodVal_head {d : Char} {t : List Char} (h : goodVal (sqc :: d :: t) = true) :
    d ≠ ',' := by
  intro hd
  subst hd
  simp [goodVal] at h

theorem qscan_cons_cons (c d : Char) (rest : List Char) :
    qscan (c :: d :: rest) =
      if c = sqc then
        if d = ',' then ([sqc], rest.drop 1)
        else (sqc :: (qscan (d :: rest)).1, (qscan (d :: rest)).2)
      else (c :: (qscan (d :: rest)).1, (qscan (d :: rest)).2) := rfl

theorem qscan_final {x : List Char} (h : goodVal x = true) :
    qscan (x ++ [sqc]) = (x, []) := by
  induction x with
  | nil => simp [qscan]
  | cons c x' ih =>
      cases x' with
      | nil =>
          by_cases hc : c = sqc <;> simp [qscan, hc]
      | cons d t =>
          have hg : goodVal (d :: t) = true := goodVal_tail h
          have ih2 := ih hg
          by_cases hc : c = sqc
          · subst hc
            have hd : d ≠ ',' := goodVal_head h
            simp only [List.cons_append] at ih2 ⊢
            rw [qscan_cons_cons, if_pos rfl, if_neg hd, ih2]
          · simp only [List.cons_append] at ih2 ⊢
            rw [qscan_cons_cons, if_neg hc, ih2]

theorem qscan_mid {x : List Char} (r : List Char) (h : goodVal x = true) :
    qscan (x ++ sqc :: ',' :: ' ' :: r) = (x ++ [sqc], r) := by
  induction x with
  | nil => simp [qscan]
  | cons c x' ih =>
      cases x' with
      | nil =>
          by_cases hc : c = sqc
          · subst hc
            simp only [List.cons_append, List.nil_append]
            rw [qscan_cons_cons, if_pos rfl, if_neg (by decide : ¬ sqc = ','),
              qscan_cons_cons, if_pos rfl, if_pos rfl]
            simp
          · simp only [List.cons_append, List.nil_append]
            rw [qscan_cons_cons, if_neg hc, qscan_cons_cons, if_pos rfl, if_pos rfl]
            simp
      | cons d t =>
          have hg : goodVal (d :: t) = true := goodVal_tail h
          have ih2 := ih hg
          by_cases hc : c = sqc
          · subst hc
            have hd : d ≠ ',' := goodVal_head h
            simp only [List.cons_append] at ih2 ⊢
            rw [qscan_cons_cons, if_pos rfl, if_neg hd, ih2]
          · simp only [List.cons_append] at ih2 ⊢
            rw [qscan_cons_cons, if_neg hc, ih2]

theorem findSub_sep {v : List Char} (rest : List Char) (hv : ' ' ∉ v) :
    findSub (lc " = ") (v ++ (lc " = " ++ rest)) = some v.length := by
  induction v with
  | nil => simp [findSub, lc, List.isPrefixOf]
  | cons c v' ih =>
      have hc : c ≠ ' ' := fun h => hv (h ▸ List.mem_cons_self c v')
      have hv' : ' ' ∉ v' := fun h => hv (List.mem_cons_of_mem c h)
      have hpre : (lc " = ").isPrefixOf (c :: (v' ++ (lc " = " ++ rest))) = false := by
        simp [lc, List.isPrefixOf]
        intro h
        exact absurd h.symm hc
      simp only [List.cons_append, findSub, List.append_eq, hpre, Bool.false_eq_true,
        if_false, ih hv', List.length_cons]
      rfl

theorem findSub_char {ch : Char} {ds : List Char} (rest : List Char)
    (h : ∀ c ∈ ds, c ≠ ch) :
    findSub [ch] (ds ++ ch :: rest) = some ds.length := by
  induction ds with
  | nil => simp [findSub, List.isPrefixOf]
  | cons c ds' ih =>
      have hc : c ≠ ch := h c (List.mem_cons_self c ds')
      have h' : ∀ c ∈ ds', c ≠ ch := fun c hm => h c (List.mem_cons_of_mem _ hm)
      have hpre : [ch].isPrefixOf (c :: (ds' ++ ch :: rest)) = false := by
        simp [List.isPrefixOf]
        exact fun hh => absurd hh.symm hc
      simp only [List.cons_append, findSub, List.append_eq, hpre, Bool.false_eq_true,
        if_false, ih h', List.length_cons]
      rfl

theorem dictInsert_append {d : Dict} {k : List Char} (v : DVal)
    (h : ∀ p ∈ d, p.1 ≠ k) :
    dictInsert d k v = d ++ [(k, v)] := by
  unfold dictInsert
  have : d.any (fun p => p.1 == k) = false := by
    rw [List.any_eq_false]
    intro p hp
    simp [h p hp]
  simp [this]

theorem drop_append_plus {α : Type} (l r : List α) (k : Nat) :
    (l ++ r).drop (l.length + k) = r.drop k := by
  induction l with
  | nil => simp
  | cons c l' ih => simp [Nat.succ_add, ih]

theorem edGo_cons_cons (fuel : Nat) (c c2 : Char) (t : List Char) (acc : Dict) :
    edGo (fuel + 1) (c :: c2 :: t) acc =
      (if c = '[' then
        (if (c :: c2 :: t).take 12 = lc "[instance = " then
          match findSub (lc "= ") (c :: c2 :: t) with
          | none => .error .valueError
          | some ieq =>
              match findSub (lc "]") (c :: c2 :: t) with
              | none => .error .valueError
              | some ibr =>
                  match pyInt (((c :: c2 :: t).take ibr).drop (ieq + 2)) with
                  | none => .error .valueError
                  | some v =>
                      edGo fuel ((c :: c2 :: t).drop (ibr + 3))
                        (dictInsert acc (lc "[instance]") (.i v))
        else .error .exception)
      else
        match findSub (lc " = ") (c :: c2 :: t) with
        | none => .error .valueError
        | some ev =>
            match (c :: c2 :: t).drop (ev + 3) with
            | [] => .error .indexError
            | q :: vrest =>
                if q = sqc then
                  edGo fuel (qscan vrest).2
                    (dictInsert acc ((c :: c2 :: t).take ev) (.s (sqc :: (qscan vrest).1)))
                else
                  match findSub [','] (q :: vrest) with
                  | some j =>
                      edGo fuel ((q :: vrest).drop (j + 2))
                        (dictInsert acc ((c :: c2 :: t).take ev) (.s ((q :: vrest).take j)))
                  | none =>
                      edGo fuel [] (dictInsert acc ((c :: c2 :: t).take ev)
                        (.s (q :: vrest)))) := rfl

theorem lc_sep_eq : lc " = " = [' ', '=', ' '] := rfl

theorem edGo_step_var (fuel : Nat) (v rest : List Char) (acc : Dict) (hv : wfVar v) :
    edGo (fuel + 1) (v ++ (lc " = " ++ (sqc :: rest))) acc =
      edGo fuel (qscan rest).2 (dictInsert acc v (.s (sqc :: (qscan rest).1))) := by
  obtain ⟨hsp, hhd⟩ := hv
  have hfind : findSub (lc " = ") (v ++ (lc " = " ++ (sqc :: rest))) = some v.length :=
    findSub_sep _ hsp
  have hdrop : (v ++ (lc " = " ++ (sqc :: rest))).drop (v.length + 3) = sqc :: rest := by
    rw [drop_append_plus]
    rfl
  have htake : (v ++ (lc " = " ++ (sqc :: rest))).take v.length = v := List.take_left v _
  cases v with
  | nil =>
      simp only [List.nil_append, List.length_nil] at hfind hdrop htake ⊢
      show edGo (fuel + 1) (' ' :: '=' :: ' ' :: sqc :: rest) acc =
        edGo fuel (qscan rest).2 (dictInsert acc [] (.s (sqc :: (qscan rest).1)))
      have hfind' : findSub (lc " = ") (' ' :: '=' :: ' ' :: sqc :: rest) = some 0 := hfind
      have hdrop' : List.drop (0 + 3) (' ' :: '=' :: ' ' :: sqc :: rest) = sqc :: rest := hdrop
      rw [edGo_cons_cons, if_neg (by decide : ¬ (' ' = '['))]
      simp [hfind', hdrop']
  | cons c v' =>
      have hc : c ≠ '[' := by
        intro h
        exact hhd (by simp [h])
      rcases hsplit : v' ++ (lc " = " ++ (sqc :: rest)) with _ | ⟨c2, t⟩
      · exact absurd hsplit (by simp [lc])
      · have hL : (c :: v') ++ (lc " = " ++ (sqc :: rest)) = c :: c2 :: t := by
          rw [List.cons_append, hsplit]
        rw [hL] at hfind hdrop htake ⊢
        rw [edGo_cons_cons, if_neg hc, hfind]
        simp only []
        rw [hdrop]
        simp only []
        simp only [if_true, htake]

theorem renderAsg_shape (a : List Char × List Char) :
    renderAsg a = a.1 ++ (lc " = " ++ (sqc :: (a.2 ++ [sqc]))) := by
  simp [renderAsg, List.append_assoc]

theorem renderDetails_cons (a b : List Char × List Char) (t : List (List Char × List Char)) :
    renderDetails (a :: b :: t) =
      a.1 ++ (lc " = " ++ (sqc :: (a.2 ++ (sqc :: ',' :: ' ' :: renderDetails (b :: t))))) := by
  show renderAsg a ++ lc ", " ++ renderDetails (b :: t) = _
  simp [renderAsg, lc, List.append_assoc]

theorem renderAsg_length (a : List Char × List Char) :
    (renderAsg a).length = a.1.length + a.2.length + 5 := by
  simp only [renderAsg, lc, List.length_append, List.length_cons, List.length_nil]
  omega

theorem renderDetails_length :
    ∀ asgs : List (List Char × List Char), asgs.length ≤ (renderDetails asgs).length
  | [] => by simp [renderDetails]
  | [a] => by
      simp [renderDetails, renderAsg_length]
  | a :: b :: t => by
      have ih := renderDetails_length (b :: t)
      simp [renderDetails, renderAsg_length, lc] at *
      omega

theorem expectedDict_length :
    ∀ asgs : List (List Char × List Char), (expectedDict asgs).length = asgs.length
  | [] => rfl
  | [a] => rfl
  | a :: b :: t => by
      simp only [expectedDict, List.length_cons, expectedDict_length (b :: t)]

theorem edGo_render :
    ∀ (asgs : List (List Char × List Char)) (acc : Dict) (fuel : Nat),
      asgs ≠ [] →
      (∀ a ∈ asgs, wfVar a.1 ∧ goodVal a.2 = true) →
      (asgs.map Prod.fst).Nodup →
      (∀ p ∈ acc, ∀ a ∈ asgs, p.1 ≠ a.1) →
      asgs.length + 1 ≤ fuel →
      edGo fuel (renderDetails asgs) acc = .ok (acc ++ expectedDict asgs)
  | [], _, _, h1, _, _, _, _ => absurd rfl h1
  | [a], acc, fuel, _, h2, _, hacc, hfuel => by
      simp only [List.length_cons, List.length_nil] at hfuel
      obtain ⟨f, rfl⟩ : ∃ f, fuel = f + 1 := ⟨fuel - 1, by omega⟩
      obtain ⟨hwf, hgv⟩ := h2 a (List.mem_singleton.mpr rfl)
      show edGo (f + 1) (renderAsg a) acc = _
      rw [renderAsg_shape, edGo_step_var f a.1 (a.2 ++ [sqc]) acc hwf, qscan_final hgv]
      obtain ⟨f', rfl⟩ : ∃ f', f = f' + 1 := ⟨f - 1, by omega⟩
      show Except.ok (dictInsert acc a.1 (.s (sqc :: a.2))) = _
      rw [dictInsert_append _ (fun p hp => hacc p hp a (List.mem_singleton.mpr rfl))]
      rfl
  | a :: b :: t, acc, fuel, _, h2, h3, hacc, hfuel => by
      simp only [List.length_cons] at hfuel
      obtain ⟨f, rfl⟩ : ∃ f, fuel = f + 1 := ⟨fuel - 1, by omega⟩
      obtain ⟨hwf, hgv⟩ := h2 a (List.mem_cons_self a _)
      rw [renderDetails_cons,
        edGo_step_var f a.1 (a.2 ++ (sqc :: ',' :: ' ' :: renderDetails (b :: t))) acc hwf,
        qscan_mid _ hgv,
        dictInsert_append _ (fun p hp => hacc p hp a (List.mem_cons_self a _))]
      have hnd : a.1 ∉ (b :: t).map Prod.fst := by
        have := h3
        simp only [List.map_cons, List.nodup_cons] at this
        exact this.1
      have hrec := edGo_render (b :: t) (acc ++ [(a.1, DVal.s (sqc :: (a.2 ++ [sqc])))]) f
        (by simp)
        (fun a' ha' => h2 a' (List.mem_cons_of_mem a ha'))
        (by
          have := h3
          simp only [List.map_cons, List.nodup_cons] at this ⊢
          exact this.2)
        (by
          intro p hp a' ha'
          rcases List.mem_append.mp hp with hin | hone
          · exact hacc p hin a' (List.mem_cons_of_mem a ha')
          · have : p = (a.1, DVal.s (sqc :: (a.2 ++ [sqc]))) := List.mem_singleton.mp hone
            subst this
            intro he
            exact hnd (by
              simp only [List.map_cons]
              rw [he]
              exact List.mem_map_of_mem Prod.fst ha')
          )
        (by
          simp only [List.length_cons] at hfuel ⊢
          omega)
      rw [hrec]
      simp [expectedDict, List.append_assoc]

/-- Decidable equality for `Except`, for evaluating concrete parser runs. -/
instance decEqExcept {e a : Type} [DecidableEq e] [DecidableEq a] :
    DecidableEq (Except e a) := fun x y =>
  match x, y with
  | .error u, .error v =>
      if h : u = v then isTrue (by rw [h]) else isFalse (by intro hh; cases hh; exact h rfl)
  | .ok u, .ok v =>
      if h : u = v then isTrue (by rw [h]) else isFalse (by intro hh; cases hh; exact h rfl)
  | .error _, .ok _ => isFalse (by intro hh; cases hh)
  | .ok _, .error _ => isFalse (by intro hh; cases hh)

/-- C1 (amended): on a detail string joining well-formed `var = 'value'`
assignments with `, ` (distinct variable names, no space in a name, no name
starting with `[`, no quote-comma inside a value), `extract_details` maps
every variable except the last to its value span with both quotes included,
and the last variable to its span with only the opening quote: the closing
quote of the final assignment, which ends at end-of-input, is dropped. -/
theorem C1_round_trip (asgs : List (List Char × List Char))
    (h1 : asgs ≠ [])
    (h2 : ∀ a ∈ asgs, wfVar a.1 ∧ goodVal a.2 = true)
    (h3 : (asgs.map Prod.fst).Nodup) :
    extract_details (renderDetails asgs) = .ok (expectedDict asgs) := by
  unfold extract_details
  have hlen := renderDetails_length asgs
  have := edGo_render asgs [] ((renderDetails asgs).length + 1) h1 h2 h3
    (by intro p hp; cases hp) (by omega)
  simpa using this

/-- C1 counterexample: on the spec's own example `q1 = 'a, b', q2 = 'c'`
the parser does not return the both-quotes mapping the claim describes —
the final value span is `'c` with the closing quote missing. -/
theorem C1_counterexample :
    extract_details (renderDetails [(lc "q1", lc "a, b"), (lc "q2", lc "c")]) ≠
      .ok [(lc "q1", .s (sqc :: (lc "a, b" ++ [sqc]))),
           (lc "q2", .s (sqc :: (lc "c" ++ [sqc])))] ∧
    extract_details (renderDetails [(lc "q1", lc "a, b"), (lc "q2", lc "c")]) =
      .ok [(lc "q1", .s (sqc :: (lc "a, b" ++ [sqc]))),
           (lc "q2", .s (sqc :: lc "c"))] := by
  constructor
  · decide
  · decide

/-- Witness instantiating the amended round-trip theorem on the spec's
example input. -/
theorem C1_round_trip_witness :
    (([(lc "q1", lc "a, b"), (lc "q2", lc "c")] : List (List Char × List Char)) ≠ [] ∧
     (∀ a ∈ ([(lc "q1", lc "a, b"), (lc "q2", lc "c")] : List (List Char × List Char)),
        wfVar a.1 ∧ goodVal a.2 = true) ∧
     (([(lc "q1", lc "a, b"), (lc "q2", lc "c")] : List (List Char × List Char)).map
        Prod.fst).Nodup) ∧
    extract_details (renderDetails [(lc "q1", lc "a, b"), (lc "q2", lc "c")]) =
      .ok (expectedDict [(lc "q1", lc "a, b"), (lc "q2", lc "c")]) :=
  ⟨⟨by decide, by decide, by decide⟩,
   C1_round_trip [(lc "q1", lc "a, b"), (lc "q2", lc "c")] (by decide) (by decide) (by decide)⟩

theorem digit_ne {c x : Char} (h : c.isDigit = true) (hx : x.isDigit = false) : c ≠ x := by
  intro he
  subst he
  rw [h] at hx
  cases hx

theorem isPySpace_digit {c : Char} (h : c.isDigit = true) : isPySpace c = false := by
  unfold isPySpace
  rw [beq_eq_false_iff_ne.mpr (digit_ne h (by decide)),
      beq_eq_false_iff_ne.mpr (digit_ne h (by decide)),
      beq_eq_false_iff_ne.mpr (digit_ne h (by decide)),
      beq_eq_false_iff_ne.mpr (digit_ne h (by decide)),
      beq_eq_false_iff_ne.mpr (digit_ne h (by decide)),
      beq_eq_false_iff_ne.mpr (digit_ne h (by decide))]
  rfl

theorem dropWhile_digits {l : List Char} (h : ∀ c ∈ l, c.isDigit = true) :
    l.dropWhile isPySpace = l := by
  cases l with
  | nil => rfl
  | cons c t =>
      have hc : isPySpace c = false := isPySpace_digit (h c (List.mem_cons_self c t))
      simp [List.dropWhile_cons, hc]

theorem pyInt_digits {ds : List Char} (h1 : ds ≠ []) (h2 : ds.all Char.isDigit = true) :
    pyInt ds = some ((digitsVal ds : Int)) := by
  have hall : ∀ c ∈ ds, c.isDigit = true := by
    intro c hc
    exact List.all_eq_true.mp h2 c hc
  have ht1 : ds.dropWhile isPySpace = ds := dropWhile_digits hall
  have ht2 : ds.reverse.dropWhile isPySpace = ds.reverse :=
    dropWhile_digits (fun c hc => hall c (List.mem_reverse.mp hc))
  unfold pyInt
  rw [ht1, ht2, List.reverse_reverse]
  obtain ⟨c, t, rfl⟩ := List.exists_cons_of_ne_nil h1
  have hc := hall c (List.mem_cons_self c t)
  rw [if_neg (by
        simp only [List.head?_cons, Option.some.injEq]
        exact digit_ne hc (by decide)),
      if_neg (by
        simp only [List.head?_cons, Option.some.injEq]
        exact digit_ne hc (by decide)),
      if_neg (by simp), if_pos h2]

theorem take_append_plus {α : Type} (l r : List α) (k : Nat) :
    (l ++ r).take (l.length + k) = l ++ r.take k := by
  induction l with
  | nil => simp
  | cons c l' ih => simp [Nat.succ_add, ih]

theorem edGo_step_instance (fuel : Nat) (ds rest : List Char) (acc : Dict)
    (h1 : ds ≠ []) (h2 : ds.all Char.isDigit = true) :
    edGo (fuel + 1) (lc "[instance = " ++ (ds ++ (']' :: rest))) acc =
      edGo fuel (rest.drop 2) (dictInsert acc (lc "[instance]") (.i (digitsVal ds))) := by
  have hall : ∀ c ∈ ds, c.isDigit = true := fun c hc => List.all_eq_true.mp h2 c hc
  have hbr0 : findSub (lc "]") (ds ++ ']' :: rest) = some ds.length :=
    findSub_char rest (fun c hc => digit_ne (hall c hc) (by decide))
  show edGo (fuel + 1)
      ('[' :: 'i' :: 'n' :: 's' :: 't' :: 'a' :: 'n' :: 'c' :: 'e' :: ' ' :: '=' :: ' ' ::
        (ds ++ (']' :: rest))) acc = _
  rw [edGo_cons_cons, if_pos rfl]
  rw [if_pos (by rfl)]
  have hfeq : findSub (lc "= ")
      ('[' :: 'i' :: 'n' :: 's' :: 't' :: 'a' :: 'n' :: 'c' :: 'e' :: ' ' :: '=' :: ' ' ::
        (ds ++ (']' :: rest))) = some 10 := by
    simp +decide [findSub, List.isPrefixOf, lc]
  rw [hfeq]
  simp only []
  have hbr : findSub (lc "]")
      ('[' :: 'i' :: 'n' :: 's' :: 't' :: 'a' :: 'n' :: 'c' :: 'e' :: ' ' :: '=' :: ' ' ::
        (ds ++ (']' :: rest))) = some (ds.length + 12) := by
    simp +decide [findSub, List.isPrefixOf, hbr0]
  rw [hbr]
  simp only []
  have htk : List.take (ds.length + 12)
      ('[' :: 'i' :: 'n' :: 's' :: 't' :: 'a' :: 'n' :: 'c' :: 'e' :: ' ' :: '=' :: ' ' ::
        (ds ++ (']' :: rest))) = lc "[instance = " ++ ds := by
    rw [show ('[' :: 'i' :: 'n' :: 's' :: 't' :: 'a' :: 'n' :: 'c' :: 'e' :: ' ' :: '=' :: ' ' ::
        (ds ++ (']' :: rest))) = lc "[instance = " ++ (ds ++ (']' :: rest)) from rfl,
      Nat.add_comm ds.length 12,
      show (12 : Nat) = (lc "[instance = ").length from rfl,
      take_append_plus, List.take_left]
  rw [htk]
  have hsl : (lc "[instance = " ++ ds).drop (10 + 2) = ds := by
    rw [show (10 + 2 : Nat) = (lc "[instance = ").length from rfl, List.drop_left]
  rw [hsl, pyInt_digits h1 h2]
  simp only []
  have hct : List.drop (ds.length + 12 + 3)
      ('[' :: 'i' :: 'n' :: 's' :: 't' :: 'a' :: 'n' :: 'c' :: 'e' :: ' ' :: '=' :: ' ' ::
        (ds ++ (']' :: rest))) = rest.drop 2 := by
    rw [show ('[' :: 'i' :: 'n' :: 's' :: 't' :: 'a' :: 'n' :: 'c' :: 'e' :: ' ' :: '=' :: ' ' ::
        (ds ++ (']' :: rest))) = lc "[instance = " ++ (ds ++ (']' :: rest)) from rfl,
      show ds.length + 12 + 3 = (lc "[instance = ").length + (ds.length + 3) from by
        simp [lc]
        omega,
      drop_append_plus, drop_append_plus]
    rfl
  rw [hct]

theorem edGo_nil (f : Nat) (acc : Dict) (h : 1 ≤ f) : edGo f [] acc = .ok acc := by
  cases f with
  | zero => cases h
  | succ f' => rfl

/-- C5: a detail string opening with the marker `[instance = N]` (N a digit
run) followed by well-formed assignments stores the integer N under the
reserved key `[instance]`, and `get_instance` then returns N; when the
marker is the whole detail string, the parse result has only the reserved
key and `get_instance` returns `None`. -/
theorem C5_instance_marker (ds : List Char) (asgs : List (List Char × List Char))
    (hd1 : ds ≠ []) (hd2 : ds.all Char.isDigit = true)
    (h1 : asgs ≠ [])
    (h2 : ∀ a ∈ asgs, wfVar a.1 ∧ goodVal a.2 = true)
    (h3 : (asgs.map Prod.fst).Nodup) :
    (extract_details (lc "[instance = " ++ ds ++ lc "], " ++ renderDetails asgs) =
        .ok ((lc "[instance]", DVal.i (digitsVal ds)) :: expectedDict asgs) ∧
      get_instance ((lc "[instance]", DVal.i (digitsVal ds)) :: expectedDict asgs) =
        some ((digitsVal ds : Int))) ∧
    (extract_details (lc "[instance = " ++ ds ++ lc "]") =
        .ok [(lc "[instance]", DVal.i (digitsVal ds))] ∧
      get_instance [(lc "[instance]", DVal.i (digitsVal ds))] = none) := by
  have hlen0 : 0 < asgs.length := List.length_pos.mpr h1
  refine ⟨⟨?_, ?_⟩, ?_, ?_⟩
  · have hshape : lc "[instance = " ++ ds ++ lc "], " ++ renderDetails asgs
        = lc "[instance = " ++ (ds ++ (']' :: (',' :: ' ' :: renderDetails asgs))) := by
      simp [lc, List.append_assoc]
    unfold extract_details
    rw [hshape, edGo_step_instance _ _ _ _ hd1 hd2]
    have hdr : (',' :: ' ' :: renderDetails asgs).drop 2 = renderDetails asgs := rfl
    rw [hdr]
    have hdi : dictInsert [] (lc "[instance]") (DVal.i (digitsVal ds)) =
        [(lc "[instance]", DVal.i (digitsVal ds))] := rfl
    rw [hdi]
    have hrl := renderDetails_length asgs
    rw [edGo_render asgs [(lc "[instance]", DVal.i (digitsVal ds))] _ h1 h2 h3
      (by
        intro p hp a ha
        have hp' : p = (lc "[instance]", DVal.i (digitsVal ds)) := List.mem_singleton.mp hp
        subst hp'
        intro he
        have hwf := (h2 a ha).1
        exact hwf.2 (by rw [← he]; rfl))
      (by
        simp only [List.length_append, List.length_cons]
        omega)]
    rfl
  · have hne : asgs.length ≠ 0 := Nat.pos_iff_ne_zero.mp hlen0
    simp [get_instance, dictLookup, List.find?, expectedDict_length, hne]
  · have hshape2 : lc "[instance = " ++ ds ++ lc "]"
        = lc "[instance = " ++ (ds ++ (']' :: ([] : List Char))) := by
      simp [lc, List.append_assoc]
    unfold extract_details
    rw [hshape2, edGo_step_instance _ _ _ _ hd1 hd2]
    rw [show (([] : List Char).drop 2) = [] from rfl]
    rw [edGo_nil _ _ (by
      simp only [List.length_append, List.length_cons]
      omega)]
    rfl
  · simp [get_instance, dictLookup, List.find?]

/-- Witness instantiating C5 at `[instance = 3], q1 = 'x'` and `[instance = 3]`. -/
theorem C5_instance_marker_witness :
    ((lc "3" ≠ []) ∧ ((lc "3").all Char.isDigit = true) ∧
     (([(lc "q1", lc "x")] : List (List Char × List Char)) ≠ []) ∧
     (∀ a ∈ ([(lc "q1", lc "x")] : List (List Char × List Char)),
        wfVar a.1 ∧ goodVal a.2 = true) ∧
     (([(lc "q1", lc "x")] : List (List Char × List Char)).map Prod.fst).Nodup) ∧
    ((extract_details (lc "[instance = " ++ lc "3" ++ lc "], " ++
          renderDetails [(lc "q1", lc "x")]) =
        .ok ((lc "[instance]", DVal.i (digitsVal (lc "3"))) ::
          expectedDict [(lc "q1", lc "x")]) ∧
      get_instance ((lc "[instance]", DVal.i (digitsVal (lc "3"))) ::
          expectedDict [(lc "q1", lc "x")]) = some ((digitsVal (lc "3") : Int))) ∧
     (extract_details (lc "[instance = " ++ lc "3" ++ lc "]") =
        .ok [(lc "[instance]", DVal.i (digitsVal (lc "3")))] ∧
      get_instance [(lc "[instance]", DVal.i (digitsVal (lc "3")))] = none)) :=
  ⟨⟨by decide, by decide, by decide, by decide, by decide⟩,
   C5_instance_marker (lc "3") [(lc "q1", lc "x")] (by decide) (by decide) (by decide)
     (by decide) (by decide)⟩

theorem upsertPatient_frame (db : DB) (n : List Char) :
    (upsertPatient db n).2.crf = db.crf ∧
    (upsertPatient db n).2.crf_data = db.crf_data ∧
    (upsertPatient db n).2.events = db.events ∧
    (upsertPatient db n).2.backup = db.backup := by
  unfold upsertPatient
  cases db.patients.find? (fun p => p.patient_name == n) <;> simp

theorem markPatientDeleted_all (db : DB) (pid : Nat) :
    ∀ r ∈ (markPatientDeleted db pid).crf, r.id_patient = pid → r.deleted = true := by
  intro r hr
  unfold markPatientDeleted at hr
  simp only [List.mem_map] at hr
  obtain ⟨r0, _, rfl⟩ := hr
  by_cases h : r0.id_patient = pid
  · simp [h]
  · simp only [h, if_false]
    exact fun hcontra => hcontra.elim

/-- C6: a log classified DELETE makes the engine soft-delete every CRF_RedCap
row of that log's patient (all instruments and instances), leave
CRF_Data_RedCap, the event log and the checkpoint untouched, and finish the
entry with no further processing (the step is exactly the patient upsert
followed by the cascade, with no failure recorded). -/
theorem C6_delete_cascade (P : ProjectModel) (fmap : FieldMap) (rep : List (List Char))
    (log : RawLog) (db : DB) (L : REDCapLogObj)
    (hne : log.details.isEmpty = false)
    (hinit : redcap_log_init log.action log.timestamp log.details = .ok L)
    (hdel : get_action L.action = some Op.DELETE) :
    processLog P fmap rep log db =
      (markPatientDeleted (upsertPatient db L.patient_name).2
        (upsertPatient db L.patient_name).1, .ok none) ∧
    (∀ r ∈ (processLog P fmap rep log db).1.crf,
        r.id_patient = (upsertPatient db L.patient_name).1 → r.deleted = true) ∧
    (processLog P fmap rep log db).1.crf_data = db.crf_data ∧
    (processLog P fmap rep log db).1.events = db.events ∧
    (processLog P fmap rep log db).1.backup = db.backup := by
  have hmain : processLog P fmap rep log db =
      (markPatientDeleted (upsertPatient db L.patient_name).2
        (upsertPatient db L.patient_name).1, .ok none) := by
    unfold processLog
    rw [hne]
    simp only [Bool.false_eq_true, if_false, hinit, hdel]
  obtain ⟨hf1, hf2, hf3, hf4⟩ := upsertPatient_frame db L.patient_name
  refine ⟨hmain, ?_, ?_, ?_, ?_⟩
  · rw [hmain]
    exact markPatientDeleted_all _ _
  · rw [hmain]
    show (markPatientDeleted _ _).crf_data = db.crf_data
    unfold markPatientDeleted
    simpa using hf2
  · rw [hmain]
    show (markPatientDeleted _ _).events = db.events
    unfold markPatientDeleted
    simpa using hf3
  · rw [hmain]
    show (markPatientDeleted _ _).backup = db.backup
    unfold markPatientDeleted
    simpa using hf4

/-- Witness for C6 on a concrete delete log against a mirror with one active
row for the patient. -/
theorem C6_delete_cascade_witness :
    (((⟨lc "Delete record 101 (Arm 1: Arm 1)", lc "2024-01-02 09:00",
        lc "record_id = " ++ [sqc] ++ lc "101" ++ [sqc]⟩ : RawLog)).details.isEmpty = false ∧
     redcap_log_init (lc "Delete record 101 (Arm 1: Arm 1)") (lc "2024-01-02 09:00")
        (lc "record_id = " ++ [sqc] ++ lc "101" ++ [sqc]) =
       .ok ⟨lc "101", lc "Delete record 101", lc "2024-01-02 09:00",
            lc "record_id = " ++ [sqc] ++ lc "101" ++ [sqc],
            [(lc "record_id", DVal.s (sqc :: lc "101"))], [lc "record_id"], lc "1"⟩ ∧
     get_action (lc "Delete record 101") = some Op.DELETE) ∧
    processLog (⟨[], false, [], fun _ _ => ⟨false, []⟩, lc "p"⟩ : ProjectModel) [] []
        ⟨lc "Delete record 101 (Arm 1: Arm 1)", lc "2024-01-02 09:00",
          lc "record_id = " ++ [sqc] ++ lc "101" ++ [sqc]⟩
        ⟨[⟨1, lc "101", lc "101"⟩], 2, [⟨1, 1, lc "f", none, false, false⟩], 2, [], [], []⟩ =
      (markPatientDeleted
        (upsertPatient ⟨[⟨1, lc "101", lc "101"⟩], 2, [⟨1, 1, lc "f", none, false, false⟩],
          2, [], [], []⟩ (lc "101")).2
        (upsertPatient ⟨[⟨1, lc "101", lc "101"⟩], 2, [⟨1, 1, lc "f", none, false, false⟩],
          2, [], [], []⟩ (lc "101")).1, .ok none) :=
  ⟨⟨by decide, by decide, by decide⟩,
   (C6_delete_cascade (⟨[], false, [], fun _ _ => ⟨false, []⟩, lc "p"⟩ : ProjectModel) [] []
      ⟨lc "Delete record 101 (Arm 1: Arm 1)", lc "2024-01-02 09:00",
        lc "record_id = " ++ [sqc] ++ lc "101" ++ [sqc]⟩
      ⟨[⟨1, lc "101", lc "101"⟩], 2, [⟨1, 1, lc "f", none, false, false⟩], 2, [], [], []⟩
      ⟨lc "101", lc "Delete record 101", lc "2024-01-02 09:00",
        lc "record_id = " ++ [sqc] ++ lc "101" ++ [sqc],
        [(lc "record_id", DVal.s (sqc :: lc "101"))], [lc "record_id"], lc "1"⟩
      (by decide) (by decide) (by decide)).1⟩

/-- C7 counterexample: an unresolved log (its only variable `q1` matches no
field of the map built from the metadata) for a patient not yet mirrored
still mutates the mirror: the patient row is inserted before instrument
resolution, so the mutation count is not zero. -/
theorem C7_counterexample :
    (processLog ⟨[(lc "q9", lc "formx")], false, [], fun _ _ => ⟨false, []⟩, lc "p"⟩
        (get_project_instru_field_map [(lc "q9", lc "formx")]) []
        ⟨lc "Update record 7 (Arm 1: Arm 1)", lc "2024-01-02 09:00", lc "q1 = checked"⟩
        ⟨[], 1, [], 1, [], [], []⟩).2 =
      .ok (some ⟨lc "7", lc "Update record 7", lc "2024-01-02 09:00", lc "q1 = checked",
        [(lc "q1", DVal.s (lc "checked"))], [lc "q1"], lc "1"⟩) ∧
    (processLog ⟨[(lc "q9", lc "formx")], false, [], fun _ _ => ⟨false, []⟩, lc "p"⟩
        (get_project_instru_field_map [(lc "q9", lc "formx")]) []
        ⟨lc "Update record 7 (Arm 1: Arm 1)", lc "2024-01-02 09:00", lc "q1 = checked"⟩
        ⟨[], 1, [], 1, [], [], []⟩).1.patients = [⟨1, lc "7", lc "7"⟩] ∧
    ([⟨1, lc "7", lc "7"⟩] : List PatientRow) ≠ ([] : List PatientRow) := by
  refine ⟨by decide, by decide, by decide⟩

/-- C7 (amended): an entry none of whose variables matches any field of any
instrument is accumulated in the failure list, mutates no CRF_RedCap row, no
CRF_Data_RedCap value and no event (though the patient row is still lazily
upserted first), processing continues with the rest of the batch, and after
a batch that ends without fatal error one WARNING event is recorded for the
entry. -/
theorem C7_unresolved (P : ProjectModel) (fmap : FieldMap) (rep : List (List Char))
    (log : RawLog) (db : DB) (L : REDCapLogObj) (rest : List RawLog)
    (failed : List REDCapLogObj)
    (hne : log.details.isEmpty = false)
    (hinit : redcap_log_init log.action log.timestamp log.details = .ok L)
    (hnd : get_action L.action ≠ some Op.DELETE)
    (hunres : ∀ p ∈ fmap, ∀ f ∈ p.2, ∀ v ∈ L.varNames, matchesField f v = false) :
    processLog P fmap rep log db = ((upsertPatient db L.patient_name).2, .ok (some L)) ∧
    (processLog P fmap rep log db).1.crf = db.crf ∧
    (processLog P fmap rep log db).1.crf_data = db.crf_data ∧
    (processLog P fmap rep log db).1.events = db.events ∧
    runLogs P fmap rep (log :: rest) db failed =
      runLogs P fmap rep rest (upsertPatient db L.patient_name).2 (failed ++ [L]) ∧
    (∀ (logs : List RawLog) (now : Ts5) (db0 : DB),
        fmap = get_project_instru_field_map P.metadata →
        rep = get_repeating_instru P fmap →
        (runLogs P fmap rep logs db0 []).2.2 = none →
        L ∈ (runLogs P fmap rep logs db0 []).2.1 →
        warnFailedEvent L ∈ (project_data_to_db P logs now db0).1.events) := by
  have hcrf : get_crf_name L.varNames fmap = none := by
    unfold get_crf_name
    rw [List.findSome?_eq_none_iff]
    intro p hp
    have : p.2.any (fun f => L.varNames.any (fun v => matchesField f v)) = false := by
      rw [List.any_eq_false]
      intro f hf
      simp only [Bool.not_eq_true, List.any_eq_false]
      intro v hv
      exact hunres p hp f hf v hv
    simp [this]
  have hmain : processLog P fmap rep log db =
      ((upsertPatient db L.patient_name).2, .ok (some L)) := by
    unfold processLog
    rw [hne]
    simp only [Bool.false_eq_true, if_false, hinit]
    rcases hact : get_action L.action with _ | op
    · simp only [hcrf]
    · cases op with
      | CREATE => simp only [hcrf]
      | UPDATE => simp only [hcrf]
      | DELETE => exact absurd hact hnd
  obtain ⟨hf1, hf2, hf3, _⟩ := upsertPatient_frame db L.patient_name
  refine ⟨hmain, by rw [hmain]; exact hf1, by rw [hmain]; exact hf2,
    by rw [hmain]; exact hf3, ?_, ?_⟩
  · show (match processLog P fmap rep log db with
      | (db1, .ok none) => runLogs P fmap rep rest db1 failed
      | (db1, .ok (some L')) => runLogs P fmap rep rest db1 (failed ++ [L'])
      | (db1, .fatal _) => (db1, failed, some _)) = _
    rw [hmain]
  · intro logs now db0 hfm hrep hok hmem
    subst hrep
    subst hfm
    simp only [project_data_to_db]
    rw [hok]
    simp only [List.mem_append, List.mem_map]
    refine Or.inr ⟨L, hmem, rfl⟩

/-- Witness for C7 on a concrete unresolved update log. -/
theorem C7_unresolved_witness :
    (((⟨lc "Update record 7 (Arm 1: Arm 1)", lc "2024-01-02 09:00",
         lc "q1 = checked"⟩ : RawLog)).details.isEmpty = false ∧
     redcap_log_init (lc "Update record 7 (Arm 1: Arm 1)") (lc "2024-01-02 09:00")
        (lc "q1 = checked") =
       .ok ⟨lc "7", lc "Update record 7", lc "2024-01-02 09:00", lc "q1 = checked",
            [(lc "q1", DVal.s (lc "checked"))], [lc "q1"], lc "1"⟩ ∧
     get_action (lc "Update record 7") ≠ some Op.DELETE ∧
     (∀ p ∈ get_project_instru_field_map [(lc "q9", lc "formx")], ∀ f ∈ p.2,
        ∀ v ∈ ([lc "q1"] : List (List Char)), matchesField f v = false)) ∧
    processLog ⟨[(lc "q9", lc "formx")], false, [], fun _ _ => ⟨false, []⟩, lc "p"⟩
        (get_project_instru_field_map [(lc "q9", lc "formx")]) []
        ⟨lc "Update record 7 (Arm 1: Arm 1)", lc "2024-01-02 09:00", lc "q1 = checked"⟩
        ⟨[], 1, [], 1, [], [], []⟩ =
      ((upsertPatient ⟨[], 1, [], 1, [], [], []⟩ (lc "7")).2,
       .ok (some ⟨lc "7", lc "Update record 7", lc "2024-01-02 09:00", lc "q1 = checked",
            [(lc "q1", DVal.s (lc "checked"))], [lc "q1"], lc "1"⟩)) :=
  ⟨⟨by decide, by decide, by decide, by decide⟩,
   (C7_unresolved ⟨[(lc "q9", lc "formx")], false, [], fun _ _ => ⟨false, []⟩, lc "p"⟩
      (get_project_instru_field_map [(lc "q9", lc "formx")]) []
      ⟨lc "Update record 7 (Arm 1: Arm 1)", lc "2024-01-02 09:00", lc "q1 = checked"⟩
      ⟨[], 1, [], 1, [], [], []⟩
      ⟨lc "7", lc "Update record 7", lc "2024-01-02 09:00", lc "q1 = checked",
        [(lc "q1", DVal.s (lc "checked"))], [lc "q1"], lc "1"⟩ [] []
      (by decide) (by decide) (by decide) (by decide)).1⟩

theorem addEvent_backup (db : DB) (lvl : List Char) (L : REDCapLogObj) (tag : EventTag) :
    (addEvent db lvl L tag).backup = db.backup := rfl

theorem wrapper_backup (P : ProjectModel) (L : REDCapLogObj) (crf : List Char)
    (inst : Option Int) (db : DB) :
    (export_records_wrapper P L crf inst db).2.backup = db.backup := by
  simp only [export_records_wrapper]
  repeat' split
  all_goals rfl

theorem upsertDataRow_backup (db : DB) (rid : Nat) (var val : List Char) :
    (upsertDataRow db rid var val).backup = db.backup := by
  unfold upsertDataRow
  split <;> rfl

theorem updateBranch_backup (db : DB) (rid : Nat) (crf : List Char)
    (melted : List (List Char × List Char)) :
    (updateBranch db rid crf melted).backup = db.backup := by
  have hfold : ∀ (m : List (List Char × List Char)) (vars : List (List Char)) (db1 : DB),
      (m.foldl (fun db p =>
        if vars.any (fun v => v == p.1) then
          { db with crf_data := db.crf_data.map (fun d =>
              if d.id_crf == rid && d.redcap_variable == p.1 then { d with value := p.2 } else d) }
        else { db with crf_data := db.crf_data ++ [⟨rid, p.1, p.2⟩] }) db1).backup
        = db1.backup := by
    intro m
    induction m with
    | nil => intro vars db1; rfl
    | cons p m ih =>
        intro vars db1
        simp only [List.foldl_cons]
        rw [ih]
        split <;> rfl
  simp only [updateBranch]
  rw [hfold]
  split <;> rfl

theorem insertBranch_backup (db : DB) (pid : Nat) (crf : List Char) (inst : Option Int)
    (melted : List (List Char × List Char)) :
    (insertBranch db pid crf inst melted).backup = db.backup := by
  have hfold : ∀ (m : List (List Char × List Char)) (rid : Nat) (db1 : DB),
      (m.foldl (fun db p => upsertDataRow db rid p.1 p.2) db1).backup = db1.backup := by
    intro m
    induction m with
    | nil => intro rid db1; rfl
    | cons p m ih =>
        intro rid db1
        simp only [List.foldl_cons]
        rw [ih, upsertDataRow_backup]
  simp only [insertBranch]
  rw [hfold]

theorem upsertPatient_backup (db : DB) (n : List Char) :
    (upsertPatient db n).2.backup = db.backup :=
  (upsertPatient_frame db n).2.2.2

theorem setRowDeleted_backup (db : DB) (rid : Nat) :
    (setRowDeleted db rid).backup = db.backup := rfl

theorem markPatientDeleted_backup (db : DB) (pid : Nat) :
    (markPatientDeleted db pid).backup = db.backup := rfl

theorem processLog_backup (P : ProjectModel) (fmap : FieldMap) (rep : List (List Char))
    (log : RawLog) (db : DB) :
    (processLog P fmap rep log db).1.backup = db.backup := by
  unfold processLog
  repeat' split
  all_goals try rfl
  all_goals simp only [markPatientDeleted_backup, setRowDeleted_backup,
    updateBranch_backup, insertBranch_backup, wrapper_backup, upsertPatient_backup]
  all_goals repeat' split
  all_goals simp only [markPatientDeleted_backup, setRowDeleted_backup,
    updateBranch_backup, insertBranch_backup, wrapper_backup, upsertPatient_backup]

theorem runLogs_backup (P : ProjectModel) (fmap : FieldMap) (rep : List (List Char)) :
    ∀ (logs : List RawLog) (db : DB) (failed : List REDCapLogObj),
      (runLogs P fmap rep logs db failed).1.backup = db.backup
  | [], _, _ => rfl
  | log :: rest, db, failed => by
      have hp := processLog_backup P fmap rep log db
      unfold runLogs
      rcases hstep : processLog P fmap rep log db with ⟨db1, out⟩
      rw [hstep] at hp
      cases out with
      | ok f =>
          cases f with
          | none => rw [runLogs_backup P fmap rep rest db1 failed]; exact hp
          | some L => rw [runLogs_backup P fmap rep rest db1 (failed ++ [L])]; exact hp
      | fatal e => exact hp

/-- Latest parsed timestamp among a log window. -/
def latestTs (logs : List RawLog) : Option Ts5 :=
  logs.foldl
    (fun acc l =>
      match parseTs l.timestamp, acc with
      | some t, some m => some (if ts5Le m t then t else m)
      | some t, none => some t
      | none, a => a)
    none

/-- C8 counterexample: a fatal-error-free run over a window whose latest
timestamp is 2024-01-01 00:00 stores the current wall-clock time
2024-01-01 00:05 in the checkpoint, not the latest processed timestamp. -/
theorem C8_counterexample :
    (project_data_to_db ⟨[], false, [], fun _ _ => ⟨false, []⟩, lc "p"⟩
        [⟨lc "Update record 7 (Arm 1: Arm 1)", lc "2024-01-01 00:00", []⟩]
        (2024, 1, 1, 0, 5)
        ⟨[], 1, [], 1, [], [⟨lc "p", (2000, 1, 1, 0, 0)⟩], []⟩).2 = none ∧
    (project_data_to_db ⟨[], false, [], fun _ _ => ⟨false, []⟩, lc "p"⟩
        [⟨lc "Update record 7 (Arm 1: Arm 1)", lc "2024-01-01 00:00", []⟩]
        (2024, 1, 1, 0, 5)
        ⟨[], 1, [], 1, [], [⟨lc "p", (2000, 1, 1, 0, 0)⟩], []⟩).1.backup =
      [⟨lc "p", (2024, 1, 1, 0, 5)⟩] ∧
    latestTs [⟨lc "Update record 7 (Arm 1: Arm 1)", lc "2024-01-01 00:00", []⟩] =
      some (2024, 1, 1, 0, 0) ∧
    ((2024, 1, 1, 0, 5) : Ts5) ≠ ((2024, 1, 1, 0, 0) : Ts5) :=
  ⟨by decide, by decide, by decide, by decide⟩

/-- C8 (amended): when the run completes without a fatal error, the stored
checkpoint of the project's backup row is set to the current wall-clock time
at completion (not the latest processed log timestamp); when the run stops
with a fatal error, `backup_info_RedCap` is left unchanged, so the next run
retries the same window. -/
theorem C8_checkpoint (P : ProjectModel) (logs : List RawLog) (now : Ts5) (db : DB) :
    ((project_data_to_db P logs now db).2 = none →
      (project_data_to_db P logs now db).1.backup =
        db.backup.map (fun b =>
          if b.project_name == pyStrip P.project_title then
            (⟨b.project_name, now⟩ : BackupRow)
          else b)) ∧
    (∀ e, (project_data_to_db P logs now db).2 = some e →
      (project_data_to_db P logs now db).1.backup = db.backup) := by
  have hrb := runLogs_backup P (get_project_instru_field_map P.metadata)
    (get_repeating_instru P (get_project_instru_field_map P.metadata)) logs db []
  simp only [project_data_to_db]
  rcases hres : (runLogs P (get_project_instru_field_map P.metadata)
      (get_repeating_instru P (get_project_instru_field_map P.metadata)) logs db []).2.2 with
    _ | e
  · constructor
    · intro
      simp only [hrb]
    · intro e he
      cases he
  · constructor
    · intro h
      cases h
    · intro e' _
      exact hrb

/-- Witness for C8: a concrete fatal-error-free run updates the project's
checkpoint row to `now`. -/
theorem C8_checkpoint_witness :
    (project_data_to_db ⟨[], false, [], fun _ _ => ⟨false, []⟩, lc "p"⟩ []
        (2024, 1, 1, 0, 5) ⟨[], 1, [], 1, [], [⟨lc "p", (2000, 1, 1, 0, 0)⟩], []⟩).2 = none ∧
    (project_data_to_db ⟨[], false, [], fun _ _ => ⟨false, []⟩, lc "p"⟩ []
        (2024, 1, 1, 0, 5) ⟨[], 1, [], 1, [], [⟨lc "p", (2000, 1, 1, 0, 0)⟩], []⟩).1.backup =
      ([⟨lc "p", (2000, 1, 1, 0, 0)⟩] : List BackupRow).map (fun b =>
        if b.project_name == pyStrip (lc "p") then
          (⟨b.project_name, (2024, 1, 1, 0, 5)⟩ : BackupRow)
        else b) :=
  ⟨by decide,
   (C8_checkpoint ⟨[], false, [], fun _ _ => ⟨false, []⟩, lc "p"⟩ []
      (2024, 1, 1, 0, 5) ⟨[], 1, [], 1, [], [⟨lc "p", (2000, 1, 1, 0, 0)⟩], []⟩).1
     (by decide)⟩

theorem upsertDataRow_crf (db : DB) (rid : Nat) (var val : List Char) :
    (upsertDataRow db rid var val).crf = db.crf := by
  unfold upsertDataRow
  split <;> rfl

theorem insertBranch_crf (db : DB) (pid : Nat) (crf : List Char) (inst : Option Int)
    (melted : List (List Char × List Char)) :
    (insertBranch db pid crf inst melted).crf =
      db.crf ++ [⟨db.nextCrfId, pid, crf, inst, false, statusIs45 melted crf⟩] := by
  have hfold : ∀ (m : List (List Char × List Char)) (rid : Nat) (db1 : DB),
      (m.foldl (fun db p => upsertDataRow db rid p.1 p.2) db1).crf = db1.crf := by
    intro m
    induction m with
    | nil => intro rid db1; rfl
    | cons p m ih =>
        intro rid db1
        simp only [List.foldl_cons]
        rw [ih, upsertDataRow_crf]
  simp only [insertBranch]
  rw [hfold]

theorem updateBranch_crf (db : DB) (rid : Nat) (crf : List Char)
    (melted : List (List Char × List Char)) :
    (updateBranch db rid crf melted).crf =
      (if statusIs45 melted crf then setRowVerified db rid else db).crf := by
  have hfold : ∀ (m : List (List Char × List Char)) (vars : List (List Char)) (db1 : DB),
      (m.foldl (fun db p =>
        if vars.any (fun v => v == p.1) then
          { db with crf_data := db.crf_data.map (fun d =>
              if d.id_crf == rid && d.redcap_variable == p.1 then { d with value := p.2 } else d) }
        else { db with crf_data := db.crf_data ++ [⟨rid, p.1, p.2⟩] }) db1).crf
        = db1.crf := by
    intro m
    induction m with
    | nil => intro vars db1; rfl
    | cons p m ih =>
        intro vars db1
        simp only [List.foldl_cons]
        rw [ih]
        split <;> rfl
  simp only [updateBranch]
  rw [hfold]

theorem processLog_resolved (P : ProjectModel) (fmap : FieldMap) (rep : List (List Char))
    (log : RawLog) (db : DB) (L : REDCapLogObj) (crf : List Char)
    (hne : log.details.isEmpty = false)
    (hinit : redcap_log_init log.action log.timestamp log.details = .ok L)
    (hnd : get_action L.action ≠ some Op.DELETE)
    (hcrf : get_crf_name L.varNames fmap = some crf)
    (hcne : crf.isEmpty = false) :
    processLog P fmap rep log db =
      (match (export_records_wrapper P L crf
          (if (get_instance L.details).isNone && rep.any (fun r => r == crf) then some 1
           else get_instance L.details) (upsertPatient db L.patient_name).2).1 with
       | .error e =>
           ((export_records_wrapper P L crf
              (if (get_instance L.details).isNone && rep.any (fun r => r == crf) then some 1
               else get_instance L.details) (upsertPatient db L.patient_name).2).2, .fatal e)
       | .ok rows =>
           if rows.isEmpty &&
              (activeCrfRows (upsertPatient db L.patient_name).2
                (upsertPatient db L.patient_name).1 crf
                (if (get_instance L.details).isNone && rep.any (fun r => r == crf) then some 1
                 else get_instance L.details)).isEmpty then
             ((export_records_wrapper P L crf
                (if (get_instance L.details).isNone && rep.any (fun r => r == crf) then some 1
                 else get_instance L.details) (upsertPatient db L.patient_name).2).2, .ok none)
           else if rows.isEmpty then
             match (activeCrfRows (upsertPatient db L.patient_name).2
                (upsertPatient db L.patient_name).1 crf
                (if (get_instance L.details).isNone && rep.any (fun r => r == crf) then some 1
                 else get_instance L.details)).head? with
             | some r =>
                 (setRowDeleted ((export_records_wrapper P L crf
                    (if (get_instance L.details).isNone && rep.any (fun r => r == crf) then some 1
                     else get_instance L.details) (upsertPatient db L.patient_name).2).2) r.id,
                  .ok none)
             | none =>
                 ((export_records_wrapper P L crf
                    (if (get_instance L.details).isNone && rep.any (fun r => r == crf) then some 1
                     else get_instance L.details) (upsertPatient db L.patient_name).2).2, .ok none)
           else
             match (activeCrfRows (upsertPatient db L.patient_name).2
                (upsertPatient db L.patient_name).1 crf
                (if (get_instance L.details).isNone && rep.any (fun r => r == crf) then some 1
                 else get_instance L.details)).head? with
             | some r =>
                 (updateBranch ((export_records_wrapper P L crf
                    (if (get_instance L.details).isNone && rep.any (fun r => r == crf) then some 1
                     else get_instance L.details) (upsertPatient db L.patient_name).2).2) r.id crf
                    (melt rows), .ok none)
             | none =>
                 (insertBranch ((export_records_wrapper P L crf
                    (if (get_instance L.details).isNone && rep.any (fun r => r == crf) then some 1
                     else get_instance L.details) (upsertPatient db L.patient_name).2).2)
                    (upsertPatient db L.patient_name).1 crf
                    (if (get_instance L.details).isNone && rep.any (fun r => r == crf) then some 1
                     else get_instance L.details) (melt rows), .ok none)) := by
  unfold processLog
  rw [hne]
  simp only [Bool.false_eq_true, if_false, hinit]
  rcases hact : get_action L.action with _ | op
  · rw [hcrf]
    simp only [hcne, Bool.false_eq_true, if_false]
  · cases op with
    | CREATE =>
        rw [hcrf]
        simp only [hcne, Bool.false_eq_true, if_false]
    | UPDATE =>
        rw [hcrf]
        simp only [hcne, Bool.false_eq_true, if_false]
    | DELETE => exact absurd hact hnd

/-- C3 counterexample: an already-verified mirror row updated from a
snapshot whose status is "2" keeps `verified = 1` — the engine never lowers
the flag, so a status-2 snapshot does not leave `verified` false on the
update branch. -/
theorem C3_counterexample :
    (processLog ⟨[(lc "q9", lc "formx")], false, [],
        (fun _ _ => ⟨true, [⟨none, [(lc "formx_status", lc "2"),
          (lc "formx_complete", lc "2"), (lc "q9", lc "checked")]⟩]⟩), lc "p"⟩
        (get_project_instru_field_map [(lc "q9", lc "formx")]) []
        ⟨lc "Update record 7 (Arm 1: Arm 1)", lc "2024-01-02 09:00", lc "q9 = checked"⟩
        ⟨[⟨1, lc "7", lc "7"⟩], 2, [⟨5, 1, lc "formx", none, false, true⟩], 6, [], [], []⟩).2 =
      .ok none ∧
    (processLog ⟨[(lc "q9", lc "formx")], false, [],
        (fun _ _ => ⟨true, [⟨none, [(lc "formx_status", lc "2"),
          (lc "formx_complete", lc "2"), (lc "q9", lc "checked")]⟩]⟩), lc "p"⟩
        (get_project_instru_field_map [(lc "q9", lc "formx")]) []
        ⟨lc "Update record 7 (Arm 1: Arm 1)", lc "2024-01-02 09:00", lc "q9 = checked"⟩
        ⟨[⟨1, lc "7", lc "7"⟩], 2, [⟨5, 1, lc "formx", none, false, true⟩], 6, [], [], []⟩).1.crf =
      [⟨5, 1, lc "formx", none, false, true⟩] ∧
    lookupField [(lc "formx_status", lc "2"), (lc "formx_complete", lc "2"),
        (lc "q9", lc "checked")] (lc "formx" ++ lc "_status") = some (lc "2") :=
  ⟨by decide, by decide, by decide⟩

/-- C3 (amended): for a resolved entry whose snapshot is non-empty, on the
insert branch (no active row) the new row's `verified` equals the status
rule (true exactly when `crf_status` is present with value "4" or "5", so a
status-2 snapshot yields `verified = 0`); on the update branch the engine
only promotes: when the status is "4" or "5" the row's `verified` is set to
1, and otherwise — including a present status "2" — `verified` is left at
its previous value, never lowered. -/
theorem C3_verified_rule (P : ProjectModel) (fmap : FieldMap) (rep : List (List Char))
    (log : RawLog) (db : DB) (L : REDCapLogObj) (crf : List Char) (inst : Option Int)
    (rows : List SnapRow)
    (hne : log.details.isEmpty = false)
    (hinit : redcap_log_init log.action log.timestamp log.details = .ok L)
    (hnd : get_action L.action ≠ some Op.DELETE)
    (hcrf : get_crf_name L.varNames fmap = some crf)
    (hcne : crf.isEmpty = false)
    (hinst : inst = (if (get_instance L.details).isNone && rep.any (fun r => r == crf)
                     then some 1 else get_instance L.details))
    (hwr : (export_records_wrapper P L crf inst (upsertPatient db L.patient_name).2).1 =
             .ok rows)
    (hrows : rows.isEmpty = false) :
    (activeCrfRows (upsertPatient db L.patient_name).2 (upsertPatient db L.patient_name).1
        crf inst = [] →
      (processLog P fmap rep log db).1.crf =
        (export_records_wrapper P L crf inst (upsertPatient db L.patient_name).2).2.crf ++
          [⟨(export_records_wrapper P L crf inst (upsertPatient db L.patient_name).2).2.nextCrfId,
            (upsertPatient db L.patient_name).1, crf, inst, false,
            statusIs45 (melt rows) crf⟩]) ∧
    (∀ r rs, activeCrfRows (upsertPatient db L.patient_name).2
        (upsertPatient db L.patient_name).1 crf inst = r :: rs →
      (processLog P fmap rep log db).1.crf =
        (if statusIs45 (melt rows) crf then
          setRowVerified (export_records_wrapper P L crf inst
            (upsertPatient db L.patient_name).2).2 r.id
         else (export_records_wrapper P L crf inst (upsertPatient db L.patient_name).2).2).crf) ∧
    (∀ (m : List (List Char × List Char)) (c : List Char),
      (lookupField m (c ++ lc "_status") = some (lc "4") ∨
       lookupField m (c ++ lc "_status") = some (lc "5")) → statusIs45 m c = true) ∧
    (∀ (m : List (List Char × List Char)) (c : List Char),
      lookupField m (c ++ lc "_status") = some (lc "2") → statusIs45 m c = false) := by
  have hstep := processLog_resolved P fmap rep log db L crf hne hinit hnd hcrf hcne
  rw [← hinst] at hstep
  rw [hstep, hwr]
  refine ⟨?_, ?_, ?_, ?_⟩
  · intro hempty
    rw [hempty]
    simp only [hrows, List.isEmpty_nil, Bool.false_and, Bool.false_eq_true, if_false,
      List.head?_nil]
    simp only [insertBranch_crf]
  · intro r rs hcons
    rw [hcons]
    simp only [hrows, List.isEmpty_cons, Bool.false_and, Bool.false_eq_true, if_false,
      List.head?_cons]
    simp only [updateBranch_crf]
  · intro m c hlk
    unfold statusIs45
    rcases hlk with h | h <;> rw [h] <;> decide
  · intro m c hlk
    unfold statusIs45
    rw [hlk]
    decide

/-- Witness for C3: a resolved update log against a snapshot with status "5"
and no existing row — the inserted row carries the status-rule verified
flag. -/
theorem C3_verified_rule_witness :
    ((⟨lc "Update record 7 (Arm 1: Arm 1)", lc "2024-01-02 09:00",
        lc "q9 = checked"⟩ : RawLog).details.isEmpty = false ∧
     redcap_log_init (lc "Update record 7 (Arm 1: Arm 1)") (lc "2024-01-02 09:00")
        (lc "q9 = checked") =
       .ok ⟨lc "7", lc "Update record 7", lc "2024-01-02 09:00", lc "q9 = checked",
            [(lc "q9", DVal.s (lc "checked"))], [lc "q9"], lc "1"⟩ ∧
     get_action (lc "Update record 7") ≠ some Op.DELETE ∧
     get_crf_name [lc "q9"] (get_project_instru_field_map [(lc "q9", lc "formx")]) =
       some (lc "formx") ∧
     (lc "formx").isEmpty = false ∧
     ((none : Option Int) =
       if (get_instance [(lc "q9", DVal.s (lc "checked"))]).isNone &&
          ([] : List (List Char)).any (fun r => r == lc "formx") then some 1
       else get_instance [(lc "q9", DVal.s (lc "checked"))]) ∧
     (export_records_wrapper
        ⟨[(lc "q9", lc "formx")], false, [],
          (fun _ _ => ⟨true, [⟨none, [(lc "formx_status", lc "5"),
            (lc "formx_complete", lc "2"), (lc "q9", lc "checked")]⟩]⟩), lc "p"⟩
        ⟨lc "7", lc "Update record 7", lc "2024-01-02 09:00", lc "q9 = checked",
          [(lc "q9", DVal.s (lc "checked"))], [lc "q9"], lc "1"⟩
        (lc "formx") none
        (upsertPatient ⟨[⟨1, lc "7", lc "7"⟩], 2, [], 1, [], [], []⟩ (lc "7")).2).1 =
       .ok [⟨none, [(lc "formx_status", lc "5"), (lc "formx_complete", lc "2"),
            (lc "q9", lc "checked")]⟩] ∧
     ([(⟨none, [(lc "formx_status", lc "5"), (lc "formx_complete", lc "2"),
         (lc "q9", lc "checked")]⟩ : SnapRow)]).isEmpty = false) ∧
    (activeCrfRows (upsertPatient ⟨[⟨1, lc "7", lc "7"⟩], 2, [], 1, [], [], []⟩ (lc "7")).2
        (upsertPatient ⟨[⟨1, lc "7", lc "7"⟩], 2, [], 1, [], [], []⟩ (lc "7")).1
        (lc "formx") none = [] →
      (processLog
        ⟨[(lc "q9", lc "formx")], false, [],
          (fun _ _ => ⟨true, [⟨none, [(lc "formx_status", lc "5"),
            (lc "formx_complete", lc "2"), (lc "q9", lc "checked")]⟩]⟩), lc "p"⟩
        (get_project_instru_field_map [(lc "q9", lc "formx")]) []
        ⟨lc "Update record 7 (Arm 1: Arm 1)", lc "2024-01-02 09:00", lc "q9 = checked"⟩
        ⟨[⟨1, lc "7", lc "7"⟩], 2, [], 1, [], [], []⟩).1.crf =
        (export_records_wrapper
          ⟨[(lc "q9", lc "formx")], false, [],
            (fun _ _ => ⟨true, [⟨none, [(lc "formx_status", lc "5"),
              (lc "formx_complete", lc "2"), (lc "q9", lc "checked")]⟩]⟩), lc "p"⟩
          ⟨lc "7", lc "Update record 7", lc "2024-01-02 09:00", lc "q9 = checked",
            [(lc "q9", DVal.s (lc "checked"))], [lc "q9"], lc "1"⟩
          (lc "formx") none
          (upsertPatient ⟨[⟨1, lc "7", lc "7"⟩], 2, [], 1, [], [], []⟩ (lc "7")).2).2.crf ++
          [⟨(export_records_wrapper
              ⟨[(lc "q9", lc "formx")], false, [],
                (fun _ _ => ⟨true, [⟨none, [(lc "formx_status", lc "5"),
                  (lc "formx_complete", lc "2"), (lc "q9", lc "checked")]⟩]⟩), lc "p"⟩
              ⟨lc "7", lc "Update record 7", lc "2024-01-02 09:00", lc "q9 = checked",
                [(lc "q9", DVal.s (lc "checked"))], [lc "q9"], lc "1"⟩
              (lc "formx") none
              (upsertPatient ⟨[⟨1, lc "7", lc "7"⟩], 2, [], 1, [], [], []⟩ (lc "7")).2).2.nextCrfId,
            (upsertPatient ⟨[⟨1, lc "7", lc "7"⟩], 2, [], 1, [], [], []⟩ (lc "7")).1,
            lc "formx", none, false,
            statusIs45 (melt [⟨none, [(lc "formx_status", lc "5"),
              (lc "formx_complete", lc "2"), (lc "q9", lc "checked")]⟩]) (lc "formx")⟩]) :=
  ⟨⟨by decide, by decide, by decide, by decide, by decide, by decide, by decide, by decide⟩,
   (C3_verified_rule
      ⟨[(lc "q9", lc "formx")], false, [],
        (fun _ _ => ⟨true, [⟨none, [(lc "formx_status", lc "5"),
          (lc "formx_complete", lc "2"), (lc "q9", lc "checked")]⟩]⟩), lc "p"⟩
      (get_project_instru_field_map [(lc "q9", lc "formx")]) []
      ⟨lc "Update record 7 (Arm 1: Arm 1)", lc "2024-01-02 09:00", lc "q9 = checked"⟩
      ⟨[⟨1, lc "7", lc "7"⟩], 2, [], 1, [], [], []⟩
      ⟨lc "7", lc "Update record 7", lc "2024-01-02 09:00", lc "q9 = checked",
        [(lc "q9", DVal.s (lc "checked"))], [lc "q9"], lc "1"⟩
      (lc "formx") none
      [⟨none, [(lc "formx_status", lc "5"), (lc "formx_complete", lc "2"),
        (lc "q9", lc "checked")]⟩]
      (by decide) (by decide) (by decide) (by decide) (by decide) (by decide) (by decide)
      (by decide)).1⟩

theorem ts5Le_iff (a b : Ts5) :
    ts5Le a b = true ↔
      (a.1 < b.1 ∨ (a.1 = b.1 ∧ (a.2.1 < b.2.1 ∨ (a.2.1 = b.2.1 ∧
        (a.2.2.1 < b.2.2.1 ∨ (a.2.2.1 = b.2.2.1 ∧ (a.2.2.2.1 < b.2.2.2.1 ∨
          (a.2.2.2.1 = b.2.2.2.1 ∧ a.2.2.2.2 ≤ b.2.2.2.2)))))))) := by
  unfold ts5Le
  split_ifs <;> simp <;> omega

theorem ts5Le_trans {a b c : Ts5} (h1 : ts5Le a b = true) (h2 : ts5Le b c = true) :
    ts5Le a c = true := by
  rw [ts5Le_iff] at h1 h2 ⊢
  omega

theorem ts5Le_total (a b : Ts5) : ts5Le a b || ts5Le b a := by
  by_cases h : ts5Le a b = true
  · simp [h]
  · have h' := h
    rw [ts5Le_iff] at h'
    have : ts5Le b a = true := by
      rw [ts5Le_iff]
      omega
    simp [this]

theorem ts5Le_refl (a : Ts5) : ts5Le a a = true := by
  rw [ts5Le_iff]
  omega

theorem logLe_trans : ∀ (a b c : RawLog), logLe a b → logLe b c → logLe a c :=
  fun _ _ _ h1 h2 => ts5Le_trans h1 h2

theorem logLe_total : ∀ (a b : RawLog), logLe a b || logLe b a :=
  fun a b => ts5Le_total (logKey a) (logKey b)

/-- C9: with every timestamp in `YYYY-MM-DD HH:MM` shape, the record-log
branch of `grab_logs` returns the concatenation add ++ delete ++ edit,
stable-sorted ascending by parsed timestamp: the output is a permutation of
the concatenation, is pairwise ordered by timestamp, and for every
timestamp value the entries carrying it appear exactly in their
concatenation order (adds, then deletes, then edits). -/
theorem C9_stable_merge (adds dels edits : List RawLog)
    (h : ∀ l ∈ adds ++ dels ++ edits, (parseTs l.timestamp).isSome = true) :
    grab_logs_record adds dels edits =
      .ok ((adds ++ dels ++ edits).mergeSort logLe) ∧
    ((adds ++ dels ++ edits).mergeSort logLe).Perm (adds ++ dels ++ edits) ∧
    ((adds ++ dels ++ edits).mergeSort logLe).Pairwise (fun a b => logLe a b = true) ∧
    (∀ t : Ts5, ((adds ++ dels ++ edits).mergeSort logLe).filter
        (fun l => logKey l == t) =
      (adds ++ dels ++ edits).filter (fun l => logKey l == t)) := by
  have hall : (adds ++ dels ++ edits).all (fun l => (parseTs l.timestamp).isSome) = true :=
    List.all_eq_true.mpr h
  refine ⟨?_, ?_, ?_, ?_⟩
  · unfold grab_logs_record
    simp only [hall, if_true]
  · exact List.mergeSort_perm _ _
  · exact List.sorted_mergeSort logLe_trans logLe_total _
  · intro t
    set all := adds ++ dels ++ edits with hdef
    set p : RawLog → Bool := fun l => logKey l == t with hp
    have hc_sub : List.Sublist (all.filter p) all := List.filter_sublist all
    have hc_pair : (all.filter p).Pairwise (fun a b => logLe a b = true) := by
      have hkey : ∀ x ∈ all.filter p, logKey x = t := by
        intro x hx
        have := List.of_mem_filter hx
        simpa [hp] using this
      refine List.pairwise_of_forall_mem_list ?_
      intro a ha b hb
      show logLe a b = true
      unfold logLe
      rw [hkey a ha, hkey b hb]
      exact ts5Le_refl t
    have hc_in_sorted : List.Sublist (all.filter p) (all.mergeSort logLe) :=
      List.sublist_mergeSort logLe_trans logLe_total hc_pair hc_sub
    have hperm : List.Perm ((all.mergeSort logLe).filter p) (all.filter p) :=
      (List.mergeSort_perm all logLe).filter p
    have hsub2 : List.Sublist ((all.filter p).filter p) ((all.mergeSort logLe).filter p) :=
      hc_in_sorted.filter p
    have hfp : (all.filter p).filter p = all.filter p := by
      rw [List.filter_filter]
      simp
    rw [hfp] at hsub2
    exact (hsub2.eq_of_length (hperm.length_eq.symm)).symm

/-- Witness for C9 on three one-element streams with a timestamp tie between
the add and the delete entries. -/
theorem C9_stable_merge_witness :
    (∀ l ∈ [(⟨lc "a", lc "2024-01-01 10:00", []⟩ : RawLog)] ++ [(⟨lc "d", lc "2024-01-01 10:00", []⟩ : RawLog)] ++ [(⟨lc "e", lc "2024-01-01 09:00", []⟩ : RawLog)], (parseTs l.timestamp).isSome = true) ∧
    (grab_logs_record [(⟨lc "a", lc "2024-01-01 10:00", []⟩ : RawLog)] [(⟨lc "d", lc "2024-01-01 10:00", []⟩ : RawLog)] [(⟨lc "e", lc "2024-01-01 09:00", []⟩ : RawLog)] = .ok (([(⟨lc "a", lc "2024-01-01 10:00", []⟩ : RawLog)] ++ [(⟨lc "d", lc "2024-01-01 10:00", []⟩ : RawLog)] ++ [(⟨lc "e", lc "2024-01-01 09:00", []⟩ : RawLog)]).mergeSort logLe) ∧
     (([(⟨lc "a", lc "2024-01-01 10:00", []⟩ : RawLog)] ++ [(⟨lc "d", lc "2024-01-01 10:00", []⟩ : RawLog)] ++ [(⟨lc "e", lc "2024-01-01 09:00", []⟩ : RawLog)]).mergeSort logLe).Perm ([(⟨lc "a", lc "2024-01-01 10:00", []⟩ : RawLog)] ++ [(⟨lc "d", lc "2024-01-01 10:00", []⟩ : RawLog)] ++ [(⟨lc "e", lc "2024-01-01 09:00", []⟩ : RawLog)]) ∧
     (([(⟨lc "a", lc "2024-01-01 10:00", []⟩ : RawLog)] ++ [(⟨lc "d", lc "2024-01-01 10:00", []⟩ : RawLog)] ++ [(⟨lc "e", lc "2024-01-01 09:00", []⟩ : RawLog)]).mergeSort logLe).Pairwise (fun a b => logLe a b = true) ∧
     (∀ t : Ts5, (([(⟨lc "a", lc "2024-01-01 10:00", []⟩ : RawLog)] ++ [(⟨lc "d", lc "2024-01-01 10:00", []⟩ : RawLog)] ++ [(⟨lc "e", lc "2024-01-01 09:00", []⟩ : RawLog)]).mergeSort logLe).filter (fun l => logKey l == t) =
       ([(⟨lc "a", lc "2024-01-01 10:00", []⟩ : RawLog)] ++ [(⟨lc "d", lc "2024-01-01 10:00", []⟩ : RawLog)] ++ [(⟨lc "e", lc "2024-01-01 09:00", []⟩ : RawLog)]).filter (fun l => logKey l == t))) :=
  ⟨by decide,
   C9_stable_merge [(⟨lc "a", lc "2024-01-01 10:00", []⟩ : RawLog)] [(⟨lc "d", lc "2024-01-01 10:00", []⟩ : RawLog)] [(⟨lc "e", lc "2024-01-01 09:00", []⟩ : RawLog)] (by decide)⟩

/-- Mirror components of the state: the tables the idempotence claim is
about, plus the id counters that drive inserts. -/
def mir (db : DB) : List PatientRow × Nat × List CrfRow × Nat × List DataRow :=
  (db.patients, db.nextPatientId, db.crf, db.nextCrfId, db.crf_data)

/-- Snapshot well-formedness: repeat columns present, at most one row per
(record, form) snapshot, the form-complete column present in every row, and
no duplicate columns. -/
def SnapWF (P : ProjectModel) : Prop :=
  ∀ name crf, (P.records name crf).hasRepeatCols = true ∧
    (P.records name crf).rows.length ≤ 1 ∧
    ∀ r ∈ (P.records name crf).rows,
      (lookupField r.fields (crf ++ lc "_complete")).isSome = true ∧
      (r.fields.map Prod.fst).Nodup

/-- Pure row set returned by `export_records_wrapper` (it depends only on
the project snapshot, the addressed record/form and the instance). -/
def wrapperRows (P : ProjectModel) (name crf : List Char) (inst : Option Int) :
    List SnapRow :=
  let rows1 := (P.records name crf).rows.filter
    (fun r => !(lookupField r.fields (crf ++ lc "_complete") == some []))
  match inst with
  | none => rows1
  | some i => rows1.filter (fun r => r.repeat_instance == some i)

/-- Instance addressed by a parsed log, after the repeating-form default. -/
def instOf (L : REDCapLogObj) (rep : List (List Char)) (crf : List Char) : Option Int :=
  if (get_instance L.details).isNone && rep.any (fun r => r == crf) then some 1
  else get_instance L.details

/-- Values stored for one (crf row, variable) pair. -/
def dataVals (db : DB) (rid : Nat) (v : List Char) : List (List Char) :=
  (db.crf_data.filter (fun d => d.id_crf == rid && d.redcap_variable == v)).map
    (fun d => d.value)

/-- Mirror invariants granted by the schema's unique keys and the
auto-increment counters. -/
def DBInv (db : DB) : Prop :=
  (db.patients.map (fun p => p.patient_name)).Nodup ∧
  (db.patients.map (fun p => p.id)).Nodup ∧
  (∀ p ∈ db.patients, p.id < db.nextPatientId) ∧
  (db.crf.map (fun r => r.id)).Nodup ∧
  (∀ r ∈ db.crf, r.id < db.nextCrfId) ∧
  (∀ pid crf inst, (activeCrfRows db pid crf inst).length ≤ 1) ∧
  (∀ rid v, (dataVals db rid v).length ≤ 1) ∧
  (∀ d ∈ db.crf_data, d.id_crf < db.nextCrfId)

/-- Patient id found for a record name. -/
def patientIdOf (db : DB) (name : List Char) : Option Nat :=
  (db.patients.find? (fun p => p.patient_name == name)).map (fun p => p.id)

/-- Converged triple: the mirror already reflects the snapshot rows for the
addressed (patient, form, instance). -/
def TripleConv (db : DB) (pid : Nat) (crf : List Char) (inst : Option Int)
    (rows : List SnapRow) : Prop :=
  match rows with
  | [] => activeCrfRows db pid crf inst = []
  | _ :: _ => ∃ row, activeCrfRows db pid crf inst = [row] ∧
      (statusIs45 (melt rows) crf = true → row.verified = true) ∧
      ∀ pr ∈ melt rows, dataVals db row.id pr.1 = [pr.2]

/-- Readiness of one log with respect to a state: processing it will not
change the mirror. -/
def LogReady (P : ProjectModel) (fmap : FieldMap) (rep : List (List Char))
    (log : RawLog) (db : DB) : Prop :=
  log.details.isEmpty = true ∨
  ∃ L, redcap_log_init log.action log.timestamp log.details = .ok L ∧
    get_action L.action ≠ some Op.DELETE ∧
    patientIdOf db L.patient_name ≠ none ∧
    (∀ crf, get_crf_name L.varNames fmap = some crf → crf.isEmpty = false →
      ∀ pid, patientIdOf db L.patient_name = some pid →
        TripleConv db pid crf (instOf L rep crf)
          (wrapperRows P L.patient_name crf (instOf L rep crf)))

/-- Processability of one log: it is skipped or constructs into a
non-DELETE entry (the no-DELETE premise of the amended idempotence claim). -/
def GoodLog (log : RawLog) : Prop :=
  log.details.isEmpty = true ∨
  ∃ L, redcap_log_init log.action log.timestamp log.details = .ok L ∧
    get_action L.action ≠ some Op.DELETE

theorem addEvent_mir (db : DB) (lvl : List Char) (L : REDCapLogObj) (tag : EventTag) :
    mir (addEvent db lvl L tag) = mir db := rfl

theorem wrapper_ok {P : ProjectModel} (hP : SnapWF P) (L : REDCapLogObj)
    (crf : List Char) (inst : Option Int) (db : DB) :
    (export_records_wrapper P L crf inst db).1 =
      .ok (wrapperRows P L.patient_name crf inst) ∧
    mir (export_records_wrapper P L crf inst db).2 = mir db := by
  obtain ⟨hrc, hlen, hfields⟩ := hP L.patient_name crf
  simp only [export_records_wrapper, wrapperRows]
  by_cases h0 : (P.records L.patient_name crf).rows.isEmpty
  · have hnil : (P.records L.patient_name crf).rows = [] := by
      simpa [List.isEmpty_iff] using h0
    rw [hnil]
    cases inst <;> simp
  · have hex : ∃ r, r ∈ (P.records L.patient_name crf).rows := by
      rcases hr : (P.records L.patient_name crf).rows with _ | ⟨r, t⟩
      · rw [hr] at h0
        exact absurd rfl h0
      · exact ⟨r, by simp [hr]⟩
    obtain ⟨r, hr⟩ := hex
    have hall : ((P.records L.patient_name crf).rows.all
        (fun r => (lookupField r.fields (crf ++ lc "_complete")).isNone)) = false := by
      rw [List.all_eq_false]
      refine ⟨r, hr, ?_⟩
      have h1 := (hfields r hr).1
      intro hcon
      rw [Option.isNone_iff_eq_none] at hcon
      rw [hcon] at h1
      simp at h1
    rw [if_neg (by simp [h0]), if_neg (by simp [hall])]
    cases inst with
    | none => exact ⟨rfl, rfl⟩
    | some i =>
        simp only [hrc, Bool.not_true, Bool.false_eq_true, if_false]
        refine ⟨trivial, ?_⟩
        split <;> rfl

theorem wrapperRows_len {P : ProjectModel} (hP : SnapWF P) (name crf : List Char)
    (inst : Option Int) : (wrapperRows P name crf inst).length ≤ 1 := by
  have hlen := (hP name crf).2.1
  unfold wrapperRows
  cases inst with
  | none => exact le_trans (List.length_filter_le _ _) hlen
  | some i =>
      exact le_trans (List.length_filter_le _ _)
        (le_trans (List.length_filter_le _ _) hlen)

theorem wrapperRows_mem {P : ProjectModel} {name crf : List Char} {inst : Option Int}
    {r : SnapRow} (h : r ∈ wrapperRows P name crf inst) :
    r ∈ (P.records name crf).rows := by
  unfold wrapperRows at h
  cases inst with
  | none => exact List.mem_of_mem_filter h
  | some i => exact List.mem_of_mem_filter (List.mem_of_mem_filter h)

theorem lookupField_self {fs : List (List Char × List Char)}
    (hnd : (fs.map Prod.fst).Nodup) {p : List Char × List Char} (hp : p ∈ fs) :
    lookupField fs p.1 = some p.2 := by
  induction fs with
  | nil => cases hp
  | cons q t ih =>
      simp only [List.map_cons, List.nodup_cons] at hnd
      rcases List.mem_cons.mp hp with rfl | hpt
      · simp [lookupField, List.find?]
      · have hq : (q.1 == p.1) = false := by
          rw [beq_eq_false_iff_ne]
          intro he
          exact hnd.1 (he ▸ List.mem_map_of_mem Prod.fst hpt)
        simp only [lookupField, List.find?, hq]
        exact ih hnd.2 hpt

theorem melt_single {r : SnapRow} (hnd : (r.fields.map Prod.fst).Nodup) :
    melt [r] = r.fields := by
  show (r.fields.map Prod.fst).flatMap
      (fun c => [r].map (fun rr => (c, (lookupField rr.fields c).getD []))) = r.fields
  have : ∀ (fs : List (List Char × List Char)),
      (∀ p ∈ fs, lookupField r.fields p.1 = some p.2) →
      (fs.map Prod.fst).flatMap
        (fun c => [r].map (fun rr => (c, (lookupField rr.fields c).getD []))) = fs := by
    intro fs
    induction fs with
    | nil => intro _; rfl
    | cons p t ih =>
        intro hfs
        simp only [List.map_cons, List.flatMap_cons, List.map_cons, List.map_nil] at ih ⊢
        rw [hfs p (List.mem_cons_self p t)]
        simp only [Option.getD_some]
        rw [ih (fun q hq => hfs q (List.mem_cons_of_mem p hq))]
        simp
  exact this r.fields (fun p hp => lookupField_self hnd hp)

theorem upsertPatient_present {db : DB} {name : List Char} {pid : Nat}
    (h : patientIdOf db name = some pid) : upsertPatient db name = (pid, db) := by
  unfold patientIdOf at h
  unfold upsertPatient
  rcases hf : db.patients.find? (fun p => p.patient_name == name) with _ | q
  · rw [hf] at h
    cases h
  · rw [hf] at h
    rw [hf]
    have hq : q.id = pid := by simpa using h
    subst hq
    rfl

theorem crfRow_eta {r : CrfRow} (h : r.verified = true) :
    ({ r with verified := true } : CrfRow) = r := by
  cases r
  simp_all

theorem dataRow_eta {d : DataRow} {val : List Char} (h : d.value = val) :
    ({ d with value := val } : DataRow) = d := by
  cases d
  simp_all

theorem setRowVerified_id {db : DB} {rid : Nat}
    (h : ∀ r ∈ db.crf, r.id = rid → r.verified = true) :
    setRowVerified db rid = db := by
  unfold setRowVerified
  have hmap : db.crf.map (fun r => if r.id = rid then { r with verified := true } else r)
      = db.crf := by
    have := List.map_congr_left (l := db.crf)
      (f := fun r => if r.id = rid then ({ r with verified := true } : CrfRow) else r)
      (g := id)
      (fun r hr => by
        by_cases hid : r.id = rid
        · simp only [id]
          rw [if_pos hid]
          exact crfRow_eta (h r hr hid)
        · simp [hid])
    simpa using this
  rw [hmap]

theorem foldl_fixed {α β : Type} (f : β → α → β) (b : β) (l : List α)
    (h : ∀ x ∈ l, f b x = b) : l.foldl f b = b := by
  induction l with
  | nil => rfl
  | cons x t ih =>
      simp only [List.foldl_cons, h x (List.mem_cons_self x t)]
      exact ih (fun y hy => h y (List.mem_cons_of_mem x hy))

theorem dataVals_mem {db : DB} {rid : Nat} {v : List Char} {d : DataRow}
    (hd : d ∈ db.crf_data) (hid : d.id_crf = rid) (hv : d.redcap_variable = v)
    {val : List Char} (hvals : dataVals db rid v = [val]) : d.value = val := by
  unfold dataVals at hvals
  have hmem : d ∈ db.crf_data.filter (fun d => d.id_crf == rid && d.redcap_variable == v) := by
    rw [List.mem_filter]
    exact ⟨hd, by simp [hid, hv]⟩
  rcases hflt : db.crf_data.filter (fun d => d.id_crf == rid && d.redcap_variable == v) with
    _ | ⟨d0, t⟩
  · rw [hflt] at hmem
    cases hmem
  · rw [hflt] at hmem hvals
    cases t with
    | cons d1 t2 => simp at hvals
    | nil =>
        have hdd : d = d0 := List.mem_singleton.mp hmem
        rw [hdd]
        simpa using congrArg List.head? hvals

theorem dataVals_var_mem {db : DB} {rid : Nat} {v val : List Char}
    (hvals : dataVals db rid v = [val]) :
    ((db.crf_data.filter (fun d => d.id_crf == rid)).map
      (fun d => d.redcap_variable)).any (fun w => w == v) = true := by
  unfold dataVals at hvals
  rcases hflt : db.crf_data.filter (fun d => d.id_crf == rid && d.redcap_variable == v) with
    _ | ⟨d0, t⟩
  · rw [hflt] at hvals
    cases hvals
  · have hd0 : d0 ∈ db.crf_data.filter (fun d => d.id_crf == rid && d.redcap_variable == v) := by
      rw [hflt]
      exact List.mem_cons_self d0 t
    rw [List.mem_filter] at hd0
    have hcond := hd0.2
    simp only [Bool.and_eq_true, beq_iff_eq] at hcond
    rw [List.any_eq_true]
    refine ⟨d0.redcap_variable, ?_, by simp [hcond.2]⟩
    refine List.mem_map_of_mem _ ?_
    rw [List.mem_filter]
    exact ⟨hd0.1, by simp [hcond.1]⟩

theorem updateBranch_id {db : DB} {rid : Nat} {crf : List Char}
    {melted : List (List Char × List Char)}
    (hvals : ∀ pr ∈ melted, dataVals db rid pr.1 = [pr.2])
    (hver : statusIs45 melted crf = true → ∀ r ∈ db.crf, r.id = rid → r.verified = true) :
    updateBranch db rid crf melted = db := by
  unfold updateBranch
  have hdb1 : (if statusIs45 melted crf then setRowVerified db rid else db) = db := by
    by_cases hs : statusIs45 melted crf = true
    · rw [if_pos hs]
      exact setRowVerified_id (hver hs)
    · rw [if_neg (by simp [hs])]
  rw [hdb1]
  refine foldl_fixed _ _ _ ?_
  intro pr hpr
  have hv := hvals pr hpr
  rw [if_pos (dataVals_var_mem hv)]
  have hmap : db.crf_data.map (fun d =>
      if d.id_crf == rid && d.redcap_variable == pr.1 then { d with value := pr.2 } else d)
      = db.crf_data := by
    have := List.map_congr_left (l := db.crf_data)
      (f := fun d => if d.id_crf == rid && d.redcap_variable == pr.1 then
        ({ d with value := pr.2 } : DataRow) else d)
      (g := id)
      (fun d hd => by
        by_cases hc : (d.id_crf == rid && d.redcap_variable == pr.1) = true
        · simp only [hc, if_true, id]
          simp only [Bool.and_eq_true, beq_iff_eq] at hc
          exact dataRow_eta (dataVals_mem hd hc.1 hc.2 hv)
        · simp [hc])
    simpa using this
  rw [hmap]

/-- Values stored at one (crf row, variable) key in a raw data-row list. -/
def dvl (l : List DataRow) (rid : Nat) (v : List Char) : List (List Char) :=
  (l.filter (fun d => d.id_crf == rid && d.redcap_variable == v)).map (fun d => d.value)

theorem dataVals_dvl (db : DB) (rid : Nat) (v : List Char) :
    dataVals db rid v = dvl db.crf_data rid v := rfl

theorem dvl_map_self (l : List DataRow) (rid : Nat) (w val : List Char) :
    dvl (l.map (fun d => if d.id_crf == rid && d.redcap_variable == w then
        { d with value := val } else d)) rid w
      = (dvl l rid w).map (fun _ => val) := by
  induction l with
  | nil => rfl
  | cons d t ih =>
      simp only [List.map_cons]
      by_cases hc : (d.id_crf == rid && d.redcap_variable == w) = true
      · simp only [dvl, List.filter_cons] at ih ⊢
        rw [if_pos hc]
        have hc2 : (({ d with value := val } : DataRow).id_crf == rid &&
            ({ d with value := val } : DataRow).redcap_variable == w) = true := hc
        rw [if_pos hc2, if_pos hc]
        simp only [List.map_cons]
        rw [ih]
      · simp only [dvl, List.filter_cons] at ih ⊢
        rw [if_neg hc, if_neg hc, if_neg hc]
        exact ih

theorem dvl_map_other (l : List DataRow) (rid : Nat) (w val : List Char)
    (rid2 : Nat) (v : List Char) (h : ¬(rid2 = rid ∧ v = w)) :
    dvl (l.map (fun d => if d.id_crf == rid && d.redcap_variable == w then
        { d with value := val } else d)) rid2 v
      = dvl l rid2 v := by
  induction l with
  | nil => rfl
  | cons d t ih =>
      simp only [List.map_cons]
      by_cases hc : (d.id_crf == rid && d.redcap_variable == w) = true
      · have hc2 : (d.id_crf == rid2 && d.redcap_variable == v) = false := by
          simp only [Bool.and_eq_true, beq_iff_eq] at hc
          rw [Bool.and_eq_false_iff]
          by_cases h1 : d.id_crf = rid2
          · right
            rw [beq_eq_false_iff_ne]
            intro h2
            exact h ⟨by rw [← h1, hc.1], by rw [← h2, hc.2]⟩
          · left
            rw [beq_eq_false_iff_ne]
            exact h1
        simp only [dvl, List.filter_cons] at ih ⊢
        rw [if_pos hc]
        have hc3 : (({ d with value := val } : DataRow).id_crf == rid2 &&
            ({ d with value := val } : DataRow).redcap_variable == v) = false := hc2
        rw [hc3]
        simp only [Bool.false_eq_true, if_false]
        exact ih
      · simp only [dvl, List.filter_cons] at ih ⊢
        rw [if_neg hc]
        split
        · simp only [List.map_cons]
          rw [ih]
        · exact ih

theorem dvl_append (l : List DataRow) (rid : Nat) (w val : List Char)
    (rid2 : Nat) (v : List Char) :
    dvl (l ++ [⟨rid, w, val⟩]) rid2 v
      = dvl l rid2 v ++ (if rid2 = rid ∧ v = w then [val] else []) := by
  simp only [dvl, List.filter_append, List.map_append]
  congr 1
  by_cases h : rid2 = rid ∧ v = w
  · rw [if_pos h]
    simp [List.filter, h.1, h.2]
  · rw [if_neg h]
    have hc : ((⟨rid, w, val⟩ : DataRow).id_crf == rid2 &&
        (⟨rid, w, val⟩ : DataRow).redcap_variable == v) = false := by
      rw [Bool.and_eq_false_iff]
      by_cases h1 : rid2 = rid
      · right
        rw [beq_eq_false_iff_ne]
        intro h2
        exact h ⟨h1, h2.symm⟩
      · left
        rw [beq_eq_false_iff_ne]
        intro h2
        exact h1 h2.symm
    simp [List.filter, hc]

theorem find?_append_some {α : Type} {p : α → Bool} {l l2 : List α} {a : α}
    (h : l.find? p = some a) : (l ++ l2).find? p = some a := by
  induction l with
  | nil => cases h
  | cons x t ih =>
      simp only [List.find?] at h ⊢
      rcases hx : p x with _ | _
      · rw [hx] at h
        simp only [List.cons_append, List.find?, hx]
        exact ih h
      · rw [hx] at h
        simp only [List.cons_append, List.find?, hx]
        exact h

theorem find?_append_none {α : Type} {p : α → Bool} {l l2 : List α}
    (h : l.find? p = none) : (l ++ l2).find? p = l2.find? p := by
  induction l with
  | nil => rfl
  | cons x t ih =>
      simp only [List.find?] at h ⊢
      rcases hx : p x with _ | _
      · rw [hx] at h
        simp only [List.cons_append, List.find?, hx]
        exact ih h
      · rw [hx] at h
        cases h

theorem map_nodup_inj {α β : Type} {f : α → β} {l : List α} (h : (l.map f).Nodup)
    {x y : α} (hx : x ∈ l) (hy : y ∈ l) (hf : f x = f y) : x = y := by
  induction l with
  | nil => cases hx
  | cons z t ih =>
      simp only [List.map_cons, List.nodup_cons] at h
      rcases List.mem_cons.mp hx with rfl | hxt
      · rcases List.mem_cons.mp hy with rfl | hyt
        · rfl
        · exact absurd (hf ▸ List.mem_map_of_mem f hyt) h.1
      · rcases List.mem_cons.mp hy with rfl | hyt
        · exact absurd (hf ▸ List.mem_map_of_mem f hxt) h.1
        · exact ih h.2 hxt hyt


theorem upsertPatient_eq_found {db : DB} {n : List Char} {p : PatientRow}
    (hf : db.patients.find? (fun p => p.patient_name == n) = some p) :
    upsertPatient db n = (p.id, db) := by
  unfold upsertPatient
  rw [hf]

theorem upsertPatient_eq_new {db : DB} {n : List Char}
    (hf : db.patients.find? (fun p => p.patient_name == n) = none) :
    upsertPatient db n = (db.nextPatientId,
      { db with patients := db.patients ++ [⟨db.nextPatientId, n, n⟩],
                nextPatientId := db.nextPatientId + 1 }) := by
  unfold upsertPatient
  rw [hf]

theorem active_mem {db : DB} {pid : Nat} {crf : List Char} {inst : Option Int} {r : CrfRow}
    (h : r ∈ activeCrfRows db pid crf inst) :
    r ∈ db.crf ∧ r.id_patient = pid ∧ r.crf_name = crf ∧ r.inst = inst ∧ r.deleted = false := by
  unfold activeCrfRows at h
  rw [List.mem_filter] at h
  obtain ⟨hm, hc⟩ := h
  simp only [Bool.and_eq_true, beq_iff_eq] at hc
  exact ⟨hm, hc.1.1.1, hc.1.1.2, hc.1.2, hc.2⟩

theorem filter_map_pred {α : Type} (g : α → α) (p q : α → Bool) (l : List α)
    (h : ∀ a, p (g a) = q a) : (l.map g).filter p = (l.filter q).map g := by
  induction l with
  | nil => rfl
  | cons a t ih =>
      simp only [List.map_cons, List.filter_cons, h a]
      split
      · simp only [List.map_cons]
        rw [ih]
      · exact ih

theorem activeCrfRows_setRowVerified (db : DB) (rid pid : Nat) (crf : List Char)
    (inst : Option Int) :
    activeCrfRows (setRowVerified db rid) pid crf inst =
      (activeCrfRows db pid crf inst).map
        (fun r => if r.id = rid then { r with verified := true } else r) := by
  unfold activeCrfRows setRowVerified
  exact filter_map_pred _ _ _ _ (fun r => by by_cases hid : r.id = rid <;> simp [hid])

theorem activeCrfRows_setRowDeleted (db : DB) (rid pid : Nat) (crf : List Char)
    (inst : Option Int) :
    activeCrfRows (setRowDeleted db rid) pid crf inst =
      (activeCrfRows db pid crf inst).filter (fun r => !(r.id == rid)) := by
  unfold activeCrfRows setRowDeleted
  have h1 := filter_map_pred
    (fun r => if r.id = rid then ({ r with deleted := true } : CrfRow) else r)
    (fun r => r.id_patient == pid && r.crf_name == crf && r.inst == inst && r.deleted == false)
    (fun r => (r.id_patient == pid && r.crf_name == crf && r.inst == inst && r.deleted == false)
      && !(r.id == rid))
    db.crf
    (fun r => by by_cases hid : r.id = rid <;> simp [hid])
  show (db.crf.map _).filter _ = _
  rw [h1]
  have h2 : (db.crf.filter (fun r =>
      (r.id_patient == pid && r.crf_name == crf && r.inst == inst && r.deleted == false)
      && !(r.id == rid))).map
        (fun r => if r.id = rid then ({ r with deleted := true } : CrfRow) else r)
      = db.crf.filter (fun r =>
      (r.id_patient == pid && r.crf_name == crf && r.inst == inst && r.deleted == false)
      && !(r.id == rid)) := by
    have := List.map_congr_left (l := db.crf.filter (fun r =>
        (r.id_patient == pid && r.crf_name == crf && r.inst == inst && r.deleted == false)
        && !(r.id == rid)))
      (f := fun r => if r.id = rid then ({ r with deleted := true } : CrfRow) else r)
      (g := id)
      (fun r hr => by
        rw [List.mem_filter] at hr
        have hid : (r.id == rid) = false := by
          rcases hb : (r.id == rid) with _ | _
          · rfl
          · rw [hb] at hr
            simp at hr
        have hne : ¬(r.id = rid) := by simpa using hid
        simp [hne])
    simpa using this
  rw [h2, List.filter_filter]
  exact List.filter_congr (fun a _ => Bool.and_comm _ _)

theorem activeCrfRows_eq_of_crf {db1 db2 : DB} (h : db1.crf = db2.crf)
    (pid : Nat) (crf : List Char) (inst : Option Int) :
    activeCrfRows db1 pid crf inst = activeCrfRows db2 pid crf inst := by
  unfold activeCrfRows
  rw [h]

theorem filter_append_single {α : Type} (p : α → Bool) (l : List α) (a : α) :
    (l ++ [a]).filter p = l.filter p ++ (if p a then [a] else []) := by
  rw [List.filter_append]
  congr 1
  simp [List.filter_cons]

theorem active_singleton {db : DB} {pid : Nat} {crf : List Char} {inst : Option Int}
    {r : CrfRow} (hlen : (activeCrfRows db pid crf inst).length ≤ 1)
    (hh : (activeCrfRows db pid crf inst).head? = some r) :
    activeCrfRows db pid crf inst = [r] := by
  rcases ha : activeCrfRows db pid crf inst with _ | ⟨a, t⟩
  · rw [ha] at hh
    cases hh
  · rw [ha] at hh hlen
    simp only [List.head?] at hh
    cases hh
    simp only [List.length_cons] at hlen
    have ht : t = [] := by
      cases t with
      | nil => rfl
      | cons b t2 => simp at hlen
    rw [ht]

theorem patientIdOf_upsert_self (db : DB) (n : List Char) :
    patientIdOf (upsertPatient db n).2 n = some (upsertPatient db n).1 := by
  rcases hf : db.patients.find? (fun p => p.patient_name == n) with _ | p
  · rw [upsertPatient_eq_new hf]
    unfold patientIdOf
    show ((db.patients ++ [(⟨db.nextPatientId, n, n⟩ : PatientRow)]).find?
      (fun p => p.patient_name == n)).map (fun p => p.id) = some db.nextPatientId
    rw [find?_append_none hf]
    simp [List.find?]
  · rw [upsertPatient_eq_found hf]
    unfold patientIdOf
    rw [hf]
    rfl

theorem patientIdOf_upsert_mono {db : DB} {n2 : List Char} {q : Nat}
    (h : patientIdOf db n2 = some q) (n : List Char) :
    patientIdOf (upsertPatient db n).2 n2 = some q := by
  rcases hf : db.patients.find? (fun p => p.patient_name == n) with _ | p
  · rw [upsertPatient_eq_new hf]
    unfold patientIdOf at h ⊢
    rcases hf2 : db.patients.find? (fun p => p.patient_name == n2) with _ | p2
    · rw [hf2] at h
      cases h
    · rw [hf2] at h
      show ((db.patients ++ [(⟨db.nextPatientId, n, n⟩ : PatientRow)]).find?
        (fun p => p.patient_name == n2)).map (fun p => p.id) = some q
      rw [find?_append_some hf2]
      exact h
  · rw [upsertPatient_eq_found hf]
    exact h

theorem patientIdOf_inj {db : DB} (hnd : (db.patients.map (fun p => p.id)).Nodup)
    {n1 n2 : List Char} {pid : Nat}
    (h1 : patientIdOf db n1 = some pid) (h2 : patientIdOf db n2 = some pid) : n1 = n2 := by
  unfold patientIdOf at h1 h2
  rcases hf1 : db.patients.find? (fun p => p.patient_name == n1) with _ | p1
  · rw [hf1] at h1
    cases h1
  rcases hf2 : db.patients.find? (fun p => p.patient_name == n2) with _ | p2
  · rw [hf2] at h2
    cases h2
  rw [hf1] at h1
  rw [hf2] at h2
  have hid1 : p1.id = pid := by simpa using h1
  have hid2 : p2.id = pid := by simpa using h2
  have hm1 := List.mem_of_find?_eq_some hf1
  have hm2 := List.mem_of_find?_eq_some hf2
  have hpp : p1 = p2 := map_nodup_inj hnd hm1 hm2 (by rw [hid1, hid2])
  have he1 : p1.patient_name = n1 := by
    have := List.find?_some hf1
    simpa using this
  have he2 : p2.patient_name = n2 := by
    have := List.find?_some hf2
    simpa using this
  rw [← he1, ← he2, hpp]

theorem upsertPatient_inv {db : DB} (h : DBInv db) (n : List Char) :
    DBInv (upsertPatient db n).2 := by
  obtain ⟨h1, h2, h3, h4, h5, h6, h7, h8⟩ := h
  rcases hf : db.patients.find? (fun p => p.patient_name == n) with _ | p
  · rw [upsertPatient_eq_new hf]
    have hnmem : ∀ p ∈ db.patients, p.patient_name ≠ n := by
      intro p hp he
      have := List.find?_eq_none.mp hf p hp
      simp [he] at this
    refine ⟨?_, ?_, ?_, h4, ?_, h6, h7, h8⟩
    · show (List.map (fun p => p.patient_name)
        (db.patients ++ [(⟨db.nextPatientId, n, n⟩ : PatientRow)])).Nodup
      rw [List.map_append, List.nodup_append]
      refine ⟨h1, List.nodup_singleton _, ?_⟩
      intro x hx hy
      simp only [List.map_cons, List.map_nil, List.mem_singleton] at hy
      rw [List.mem_map] at hx
      obtain ⟨p, hp, rfl⟩ := hx
      exact hnmem p hp hy
    · show (List.map (fun p => p.id)
        (db.patients ++ [(⟨db.nextPatientId, n, n⟩ : PatientRow)])).Nodup
      rw [List.map_append, List.nodup_append]
      refine ⟨h2, List.nodup_singleton _, ?_⟩
      intro x hx hy
      simp only [List.map_cons, List.map_nil, List.mem_singleton] at hy
      rw [List.mem_map] at hx
      obtain ⟨p, hp, rfl⟩ := hx
      exact absurd (hy ▸ h3 p hp) (lt_irrefl _)
    · intro p hp
      rcases List.mem_append.mp hp with hl | hr
      · exact Nat.lt_trans (h3 p hl) (Nat.lt_succ_self _)
      · rw [List.mem_singleton.mp hr]
        exact Nat.lt_succ_self _
    · exact h5
  · rw [upsertPatient_eq_found hf]
    exact ⟨h1, h2, h3, h4, h5, h6, h7, h8⟩

theorem dvl_ne_nil_iff (l : List DataRow) (rid : Nat) (w : List Char) :
    dvl l rid w ≠ [] ↔ ∃ d ∈ l, d.id_crf = rid ∧ d.redcap_variable = w := by
  constructor
  · intro h
    rcases hft : l.filter (fun d => d.id_crf == rid && d.redcap_variable == w) with _ | ⟨d0, t⟩
    · exfalso
      apply h
      unfold dvl
      rw [hft]
      rfl
    · have hd0 : d0 ∈ l.filter (fun d => d.id_crf == rid && d.redcap_variable == w) := by
        rw [hft]
        exact List.mem_cons_self d0 t
      rw [List.mem_filter] at hd0
      have hc := hd0.2
      simp only [Bool.and_eq_true, beq_iff_eq] at hc
      exact ⟨d0, hd0.1, hc.1, hc.2⟩
  · intro h hcon
    obtain ⟨d, hd, h1, h2⟩ := h
    have hmem : d ∈ l.filter (fun d => d.id_crf == rid && d.redcap_variable == w) := by
      rw [List.mem_filter]
      exact ⟨hd, by simp [h1, h2]⟩
    unfold dvl at hcon
    rcases hft : l.filter (fun d => d.id_crf == rid && d.redcap_variable == w) with _ | ⟨d0, t⟩
    · rw [hft] at hmem
      cases hmem
    · rw [hft] at hcon
      cases hcon

theorem dbvars_any_iff (l : List DataRow) (rid : Nat) (w : List Char) :
    (((l.filter (fun d => d.id_crf == rid)).map (fun d => d.redcap_variable)).any
      (fun v => v == w) = true) ↔ dvl l rid w ≠ [] := by
  rw [dvl_ne_nil_iff, List.any_eq_true]
  constructor
  · intro h
    obtain ⟨x, hx, hxw⟩ := h
    rw [List.mem_map] at hx
    obtain ⟨d, hd, rfl⟩ := hx
    rw [List.mem_filter] at hd
    refine ⟨d, hd.1, by simpa using hd.2, by simpa using hxw⟩
  · intro h
    obtain ⟨d, hd, h1, h2⟩ := h
    refine ⟨d.redcap_variable, ?_, by simp [h2]⟩
    refine List.mem_map_of_mem _ ?_
    rw [List.mem_filter]
    exact ⟨hd, by simp [h1]⟩

theorem crfdata_any_iff (l : List DataRow) (rid : Nat) (w : List Char) :
    (l.any (fun d => d.id_crf == rid && d.redcap_variable == w) = true) ↔
      dvl l rid w ≠ [] := by
  rw [dvl_ne_nil_iff, List.any_eq_true]
  constructor
  · intro h
    obtain ⟨d, hd, hc⟩ := h
    simp only [Bool.and_eq_true, beq_iff_eq] at hc
    exact ⟨d, hd, hc.1, hc.2⟩
  · intro h
    obtain ⟨d, hd, h1, h2⟩ := h
    exact ⟨d, hd, by simp [h1, h2]⟩

/-- The per-pair body of the update branch loop, with the pre-loop variable
set and the row id explicit. -/
def ubStep (rid : Nat) (dbvars : List (List Char)) (db : DB)
    (p : List Char × List Char) : DB :=
  if dbvars.any (fun v => v == p.1) then
    { db with crf_data := db.crf_data.map (fun d =>
        if d.id_crf == rid && d.redcap_variable == p.1 then { d with value := p.2 } else d) }
  else { db with crf_data := db.crf_data ++ [⟨rid, p.1, p.2⟩] }

theorem updateBranch_eq (db : DB) (rid : Nat) (crf : List Char)
    (melted : List (List Char × List Char)) :
    updateBranch db rid crf melted =
      melted.foldl
        (ubStep rid ((((if statusIs45 melted crf then setRowVerified db rid
            else db)).crf_data.filter (fun d => d.id_crf == rid)).map
          (fun d => d.redcap_variable)))
        (if statusIs45 melted crf then setRowVerified db rid else db) := by
  simp only [updateBranch, ubStep]
  rfl

theorem ubStep_rest (rid : Nat) (vars : List (List Char)) (s : DB)
    (p : List Char × List Char) :
    (ubStep rid vars s p).patients = s.patients ∧
    (ubStep rid vars s p).nextPatientId = s.nextPatientId ∧
    (ubStep rid vars s p).crf = s.crf ∧
    (ubStep rid vars s p).nextCrfId = s.nextCrfId ∧
    (ubStep rid vars s p).backup = s.backup := by
  unfold ubStep
  split <;> exact ⟨rfl, rfl, rfl, rfl, rfl⟩

theorem ubStep_dv_self (rid : Nat) (vars : List (List Char)) (s : DB)
    (q : List Char × List Char)
    (h1 : vars.any (fun v => v == q.1) = true → ∃ x, dataVals s rid q.1 = [x])
    (h2 : vars.any (fun v => v == q.1) = false → dataVals s rid q.1 = []) :
    dataVals (ubStep rid vars s q) rid q.1 = [q.2] := by
  unfold ubStep
  rcases hc : vars.any (fun v => v == q.1) with _ | _
  · simp only [Bool.false_eq_true, if_false]
    rw [dataVals_dvl]
    show dvl (s.crf_data ++ [⟨rid, q.1, q.2⟩]) rid q.1 = [q.2]
    rw [dvl_append]
    rw [← dataVals_dvl, h2 hc]
    simp
  · rw [if_pos rfl]
    rw [dataVals_dvl]
    show dvl (s.crf_data.map (fun d =>
      if d.id_crf == rid && d.redcap_variable == q.1 then { d with value := q.2 } else d))
      rid q.1 = [q.2]
    rw [dvl_map_self, ← dataVals_dvl]
    obtain ⟨x, hx⟩ := h1 hc
    rw [hx]
    rfl

theorem ubStep_dv_other (rid : Nat) (vars : List (List Char)) (s : DB)
    (p : List Char × List Char) (rid2 : Nat) (v : List Char)
    (h : ¬(rid2 = rid ∧ v = p.1)) :
    dataVals (ubStep rid vars s p) rid2 v = dataVals s rid2 v := by
  unfold ubStep
  split
  · rw [dataVals_dvl]
    show dvl (s.crf_data.map (fun d =>
      if d.id_crf == rid && d.redcap_variable == p.1 then { d with value := p.2 } else d))
      rid2 v = _
    rw [dvl_map_other _ _ _ _ _ _ h, ← dataVals_dvl]
  · rw [dataVals_dvl]
    show dvl (s.crf_data ++ [⟨rid, p.1, p.2⟩]) rid2 v = _
    rw [dvl_append, if_neg h, List.append_nil, ← dataVals_dvl]

theorem ubStep_crf_data_mem (rid : Nat) (vars : List (List Char)) (s : DB)
    (p : List Char × List Char) {d : DataRow}
    (h : d ∈ (ubStep rid vars s p).crf_data) : d.id_crf = rid ∨ d ∈ s.crf_data := by
  unfold ubStep at h
  split at h
  · simp only [List.mem_map] at h
    obtain ⟨d0, hd0, rfl⟩ := h
    by_cases hc : (d0.id_crf == rid && d0.redcap_variable == p.1) = true
    · rw [if_pos hc]
      left
      simp only [Bool.and_eq_true, beq_iff_eq] at hc
      exact hc.1
    · rw [if_neg hc]
      right
      exact hd0
  · rcases List.mem_append.mp h with hl | hr
    · right
      exact hl
    · left
      rw [List.mem_singleton.mp hr]

theorem upsertDataRow_rest (s : DB) (rid : Nat) (w val : List Char) :
    (upsertDataRow s rid w val).patients = s.patients ∧
    (upsertDataRow s rid w val).nextPatientId = s.nextPatientId ∧
    (upsertDataRow s rid w val).crf = s.crf ∧
    (upsertDataRow s rid w val).nextCrfId = s.nextCrfId ∧
    (upsertDataRow s rid w val).backup = s.backup := by
  unfold upsertDataRow
  split <;> exact ⟨rfl, rfl, rfl, rfl, rfl⟩

theorem upsertDataRow_dv_other (s : DB) (rid : Nat) (w val : List Char)
    (rid2 : Nat) (v : List Char) (h : ¬(rid2 = rid ∧ v = w)) :
    dataVals (upsertDataRow s rid w val) rid2 v = dataVals s rid2 v := by
  unfold upsertDataRow
  split
  · rw [dataVals_dvl]
    show dvl (s.crf_data.map (fun d =>
      if d.id_crf == rid && d.redcap_variable == w then { d with value := val } else d))
      rid2 v = _
    rw [dvl_map_other _ _ _ _ _ _ h, ← dataVals_dvl]
  · rw [dataVals_dvl]
    show dvl (s.crf_data ++ [⟨rid, w, val⟩]) rid2 v = _
    rw [dvl_append, if_neg h, List.append_nil, ← dataVals_dvl]

theorem upsertDataRow_dv_new (s : DB) (rid : Nat) (w val : List Char)
    (h : dataVals s rid w = []) :
    dataVals (upsertDataRow s rid w val) rid w = [val] := by
  unfold upsertDataRow
  have hany : (s.crf_data.any (fun d => d.id_crf == rid && d.redcap_variable == w)) = false := by
    rcases hb : s.crf_data.any (fun d => d.id_crf == rid && d.redcap_variable == w) with _ | _
    · rfl
    · exact absurd ((crfdata_any_iff _ _ _).mp hb) (by rw [← dataVals_dvl, h]; simp)
  rw [hany]
  simp only [Bool.false_eq_true, if_false]
  rw [dataVals_dvl]
  show dvl (s.crf_data ++ [⟨rid, w, val⟩]) rid w = [val]
  rw [dvl_append]
  rw [← dataVals_dvl, h]
  simp

theorem upsertDataRow_crf_data_mem (s : DB) (rid : Nat) (w val : List Char) {d : DataRow}
    (h : d ∈ (upsertDataRow s rid w val).crf_data) : d.id_crf = rid ∨ d ∈ s.crf_data := by
  unfold upsertDataRow at h
  split at h
  · simp only [List.mem_map] at h
    obtain ⟨d0, hd0, rfl⟩ := h
    by_cases hc : (d0.id_crf == rid && d0.redcap_variable == w) = true
    · rw [if_pos hc]
      left
      simp only [Bool.and_eq_true, beq_iff_eq] at hc
      exact hc.1
    · rw [if_neg hc]
      right
      exact hd0
  · rcases List.mem_append.mp h with hl | hr
    · right
      exact hl
    · left
      rw [List.mem_singleton.mp hr]

theorem insertBranch_eq (db : DB) (pid : Nat) (crf : List Char) (inst : Option Int)
    (melted : List (List Char × List Char)) :
    insertBranch db pid crf inst melted =
      melted.foldl (fun s p => upsertDataRow s db.nextCrfId p.1 p.2)
        { db with crf := db.crf ++ [⟨db.nextCrfId, pid, crf, inst, false, statusIs45 melted crf⟩], nextCrfId := db.nextCrfId + 1 } := by
  simp only [insertBranch]

theorem ubFold_rest (rid : Nat) (vars : List (List Char)) :
    ∀ (m : List (List Char × List Char)) (s : DB),
      (m.foldl (ubStep rid vars) s).patients = s.patients ∧
      (m.foldl (ubStep rid vars) s).nextPatientId = s.nextPatientId ∧
      (m.foldl (ubStep rid vars) s).crf = s.crf ∧
      (m.foldl (ubStep rid vars) s).nextCrfId = s.nextCrfId ∧
      (m.foldl (ubStep rid vars) s).backup = s.backup := by
  intro m
  induction m with
  | nil => intro s; exact ⟨rfl, rfl, rfl, rfl, rfl⟩
  | cons q t ih =>
      intro s
      simp only [List.foldl_cons]
      obtain ⟨a1, a2, a3, a4, a5⟩ := ih (ubStep rid vars s q)
      obtain ⟨b1, b2, b3, b4, b5⟩ := ubStep_rest rid vars s q
      exact ⟨a1.trans b1, a2.trans b2, a3.trans b3, a4.trans b4, a5.trans b5⟩

theorem ibFold_rest (rid : Nat) :
    ∀ (m : List (List Char × List Char)) (s : DB),
      (m.foldl (fun s p => upsertDataRow s rid p.1 p.2) s).patients = s.patients ∧
      (m.foldl (fun s p => upsertDataRow s rid p.1 p.2) s).nextPatientId = s.nextPatientId ∧
      (m.foldl (fun s p => upsertDataRow s rid p.1 p.2) s).crf = s.crf ∧
      (m.foldl (fun s p => upsertDataRow s rid p.1 p.2) s).nextCrfId = s.nextCrfId ∧
      (m.foldl (fun s p => upsertDataRow s rid p.1 p.2) s).backup = s.backup := by
  intro m
  induction m with
  | nil => intro s; exact ⟨rfl, rfl, rfl, rfl, rfl⟩
  | cons q t ih =>
      intro s
      simp only [List.foldl_cons]
      obtain ⟨a1, a2, a3, a4, a5⟩ := ih (upsertDataRow s rid q.1 q.2)
      obtain ⟨b1, b2, b3, b4, b5⟩ := upsertDataRow_rest s rid q.1 q.2
      exact ⟨a1.trans b1, a2.trans b2, a3.trans b3, a4.trans b4, a5.trans b5⟩

theorem ubFold_spec (rid : Nat) (vars : List (List Char)) :
    ∀ (m : List (List Char × List Char)) (s : DB),
      (m.map Prod.fst).Nodup →
      (∀ q ∈ m, (vars.any (fun v => v == q.1) = true → ∃ x, dataVals s rid q.1 = [x]) ∧
        (vars.any (fun v => v == q.1) = false → dataVals s rid q.1 = [])) →
      (∀ q ∈ m, dataVals (m.foldl (ubStep rid vars) s) rid q.1 = [q.2]) ∧
      (∀ rid2 v, (rid2 ≠ rid ∨ ∀ q ∈ m, v ≠ q.1) →
        dataVals (m.foldl (ubStep rid vars) s) rid2 v = dataVals s rid2 v) := by
  intro m
  induction m with
  | nil =>
      intro s _ _
      exact ⟨fun q hq => absurd hq (List.not_mem_nil q), fun rid2 v _ => rfl⟩
  | cons q t ih =>
      intro s hnd hready
      simp only [List.map_cons, List.nodup_cons] at hnd
      have hq1 := hready q (List.mem_cons_self q t)
      have hne1 : ∀ q' ∈ t, q'.1 ≠ q.1 := by
        intro q' hq' he
        exact hnd.1 (he ▸ List.mem_map_of_mem Prod.fst hq')
      have hreadyt : ∀ q' ∈ t,
          (vars.any (fun v => v == q'.1) = true →
            ∃ x, dataVals (ubStep rid vars s q) rid q'.1 = [x]) ∧
          (vars.any (fun v => v == q'.1) = false →
            dataVals (ubStep rid vars s q) rid q'.1 = []) := by
        intro q' hq'
        rw [ubStep_dv_other rid vars s q rid q'.1
          (fun hcon => hne1 q' hq' hcon.2)]
        exact hready q' (List.mem_cons_of_mem q hq')
      have IH := ih (ubStep rid vars s q) hnd.2 hreadyt
      constructor
      · intro q' hq'
        simp only [List.foldl_cons]
        rcases List.mem_cons.mp hq' with rfl | hq't
        · rw [IH.2 rid q'.1 (Or.inr (fun q'' hq'' he => hne1 q'' hq'' he.symm))]
          exact ubStep_dv_self rid vars s q' hq1.1 hq1.2
        · exact IH.1 q' hq't
      · intro rid2 v hcond
        simp only [List.foldl_cons]
        have hcond' : rid2 ≠ rid ∨ ∀ q' ∈ t, v ≠ q'.1 := by
          rcases hcond with hl | hr
          · exact Or.inl hl
          · exact Or.inr (fun q' hq' => hr q' (List.mem_cons_of_mem q hq'))
        rw [IH.2 rid2 v hcond']
        refine ubStep_dv_other rid vars s q rid2 v ?_
        rintro ⟨rfl, rfl⟩
        rcases hcond with hl | hr
        · exact hl rfl
        · exact hr q (List.mem_cons_self q t) rfl

theorem ibFold_spec (rid : Nat) :
    ∀ (m : List (List Char × List Char)) (s : DB),
      (m.map Prod.fst).Nodup →
      (∀ q ∈ m, dataVals s rid q.1 = []) →
      (∀ q ∈ m, dataVals (m.foldl (fun s p => upsertDataRow s rid p.1 p.2) s) rid q.1
        = [q.2]) ∧
      (∀ rid2 v, (rid2 ≠ rid ∨ ∀ q ∈ m, v ≠ q.1) →
        dataVals (m.foldl (fun s p => upsertDataRow s rid p.1 p.2) s) rid2 v
          = dataVals s rid2 v) := by
  intro m
  induction m with
  | nil =>
      intro s _ _
      exact ⟨fun q hq => absurd hq (List.not_mem_nil q), fun rid2 v _ => rfl⟩
  | cons q t ih =>
      intro s hnd hready
      simp only [List.map_cons, List.nodup_cons] at hnd
      have hq1 := hready q (List.mem_cons_self q t)
      have hne1 : ∀ q' ∈ t, q'.1 ≠ q.1 := by
        intro q' hq' he
        exact hnd.1 (he ▸ List.mem_map_of_mem Prod.fst hq')
      have hreadyt : ∀ q' ∈ t, dataVals (upsertDataRow s rid q.1 q.2) rid q'.1 = [] := by
        intro q' hq'
        rw [upsertDataRow_dv_other s rid q.1 q.2 rid q'.1
          (fun hcon => hne1 q' hq' hcon.2)]
        exact hready q' (List.mem_cons_of_mem q hq')
      have IH := ih (upsertDataRow s rid q.1 q.2) hnd.2 hreadyt
      constructor
      · intro q' hq'
        simp only [List.foldl_cons]
        rcases List.mem_cons.mp hq' with rfl | hq't
        · rw [IH.2 rid q'.1 (Or.inr (fun q'' hq'' he => hne1 q'' hq'' he.symm))]
          exact upsertDataRow_dv_new s rid q'.1 q'.2 hq1
        · exact IH.1 q' hq't
      · intro rid2 v hcond
        simp only [List.foldl_cons]
        have hcond' : rid2 ≠ rid ∨ ∀ q' ∈ t, v ≠ q'.1 := by
          rcases hcond with hl | hr
          · exact Or.inl hl
          · exact Or.inr (fun q' hq' => hr q' (List.mem_cons_of_mem q hq'))
        rw [IH.2 rid2 v hcond']
        refine upsertDataRow_dv_other s rid q.1 q.2 rid2 v ?_
        rintro ⟨rfl, rfl⟩
        rcases hcond with hl | hr
        · exact hl rfl
        · exact hr q (List.mem_cons_self q t) rfl

theorem ubFold_mem (rid : Nat) (vars : List (List Char)) :
    ∀ (m : List (List Char × List Char)) (s : DB) (d : DataRow),
      d ∈ (m.foldl (ubStep rid vars) s).crf_data → d.id_crf = rid ∨ d ∈ s.crf_data := by
  intro m
  induction m with
  | nil => intro s d h; exact Or.inr h
  | cons q t ih =>
      intro s d h
      simp only [List.foldl_cons] at h
      rcases ih (ubStep rid vars s q) d h with hl | hr
      · exact Or.inl hl
      · exact ubStep_crf_data_mem rid vars s q hr

theorem ibFold_mem (rid : Nat) :
    ∀ (m : List (List Char × List Char)) (s : DB) (d : DataRow),
      d ∈ (m.foldl (fun s p => upsertDataRow s rid p.1 p.2) s).crf_data →
        d.id_crf = rid ∨ d ∈ s.crf_data := by
  intro m
  induction m with
  | nil => intro s d h; exact Or.inr h
  | cons q t ih =>
      intro s d h
      simp only [List.foldl_cons] at h
      rcases ih (upsertDataRow s rid q.1 q.2) d h with hl | hr
      · exact Or.inl hl
      · exact upsertDataRow_crf_data_mem s rid q.1 q.2 hr

theorem processLog_skip {P : ProjectModel} {fmap : FieldMap} {rep : List (List Char)}
    {log : RawLog} (db : DB) (h : log.details.isEmpty = true) :
    processLog P fmap rep log db = (db, .ok none) := by
  unfold processLog
  rw [h]
  rfl

theorem processLog_unresolved_none {P : ProjectModel} {fmap : FieldMap}
    {rep : List (List Char)} {log : RawLog} (db : DB) {L : REDCapLogObj}
    (hne : log.details.isEmpty = false)
    (hinit : redcap_log_init log.action log.timestamp log.details = .ok L)
    (hnd : get_action L.action ≠ some Op.DELETE)
    (hcrf : get_crf_name L.varNames fmap = none) :
    processLog P fmap rep log db = ((upsertPatient db L.patient_name).2, .ok (some L)) := by
  unfold processLog
  rw [hne]
  simp only [Bool.false_eq_true, if_false, hinit]
  rcases hact : get_action L.action with _ | op
  · rw [hcrf]
  · cases op with
    | CREATE => rw [hcrf]
    | UPDATE => rw [hcrf]
    | DELETE => exact absurd hact hnd

theorem processLog_unresolved_empty {P : ProjectModel} {fmap : FieldMap}
    {rep : List (List Char)} {log : RawLog} (db : DB) {L : REDCapLogObj} {crf : List Char}
    (hne : log.details.isEmpty = false)
    (hinit : redcap_log_init log.action log.timestamp log.details = .ok L)
    (hnd : get_action L.action ≠ some Op.DELETE)
    (hcrf : get_crf_name L.varNames fmap = some crf) (hce : crf.isEmpty = true) :
    processLog P fmap rep log db = ((upsertPatient db L.patient_name).2, .ok (some L)) := by
  unfold processLog
  rw [hne]
  simp only [Bool.false_eq_true, if_false, hinit]
  rcases hact : get_action L.action with _ | op
  · rw [hcrf]
    simp only [hce, if_true]
  · cases op with
    | CREATE =>
        rw [hcrf]
        simp only [hce, if_true]
    | UPDATE =>
        rw [hcrf]
        simp only [hce, if_true]
    | DELETE => exact absurd hact hnd

theorem wrapper_shape (P : ProjectModel) (L : REDCapLogObj) (crf : List Char)
    (inst : Option Int) (db : DB) :
    ∃ E, (export_records_wrapper P L crf inst db).2 = { db with events := E } := by
  simp only [export_records_wrapper]
  repeat' split
  all_goals exact ⟨_, rfl⟩

theorem mir_eq_components {a b : DB} (h : mir a = mir b) :
    a.patients = b.patients ∧ a.nextPatientId = b.nextPatientId ∧ a.crf = b.crf ∧
    a.nextCrfId = b.nextCrfId ∧ a.crf_data = b.crf_data := by
  unfold mir at h
  simp only [Prod.mk.injEq] at h
  exact ⟨h.1, h.2.1, h.2.2.1, h.2.2.2.1, h.2.2.2.2⟩

theorem DBInv_of_mir {a b : DB} (h : mir a = mir b) (hb : DBInv b) : DBInv a := by
  obtain ⟨e1, e2, e3, e4, e5⟩ := mir_eq_components h
  obtain ⟨h1, h2, h3, h4, h5, h6, h7, h8⟩ := hb
  refine ⟨?_, ?_, ?_, ?_, ?_, ?_, ?_, ?_⟩
  · rw [e1]; exact h1
  · rw [e1]; exact h2
  · rw [e1, e2]; exact h3
  · rw [e3]; exact h4
  · rw [e3, e4]; exact h5
  · intro pid crf inst
    unfold activeCrfRows
    rw [e3]
    exact h6 pid crf inst
  · intro rid v
    rw [dataVals_dvl, e5, ← dataVals_dvl]
    exact h7 rid v
  · rw [e4, e5]; exact h8

theorem TripleConv_congr {a b : DB} (hcrf : a.crf = b.crf) (hcd : a.crf_data = b.crf_data)
    {pid : Nat} {crf : List Char} {inst : Option Int} {rows : List SnapRow}
    (h : TripleConv b pid crf inst rows) : TripleConv a pid crf inst rows := by
  unfold TripleConv at h ⊢
  have hav : activeCrfRows a pid crf inst = activeCrfRows b pid crf inst := by
    unfold activeCrfRows
    rw [hcrf]
  cases rows with
  | nil => rw [hav]; exact h
  | cons r0 t =>
      obtain ⟨row, ha, hv, hd⟩ := h
      refine ⟨row, by rw [hav]; exact ha, hv, ?_⟩
      intro pr hpr
      rw [dataVals_dvl, hcd, ← dataVals_dvl]
      exact hd pr hpr

theorem patientIdOf_congr {a b : DB} (hp : a.patients = b.patients) (n : List Char) :
    patientIdOf a n = patientIdOf b n := by
  unfold patientIdOf
  rw [hp]

theorem LogReady_of_mir {P : ProjectModel} {fmap : FieldMap} {rep : List (List Char)}
    {log : RawLog} {a b : DB} (h : mir a = mir b)
    (hb : LogReady P fmap rep log b) : LogReady P fmap rep log a := by
  obtain ⟨e1, _, e3, _, e5⟩ := mir_eq_components h
  rcases hb with hemp | ⟨L, hinit, hnd, hpid, hcond⟩
  · exact Or.inl hemp
  · refine Or.inr ⟨L, hinit, hnd, ?_, ?_⟩
    · rw [patientIdOf_congr e1]
      exact hpid
    · intro crf hcrf hcne pid hp
      refine TripleConv_congr e3 e5 ?_
      refine hcond crf hcrf hcne pid ?_
      rw [← patientIdOf_congr e1]
      exact hp

theorem LogReady_step {P : ProjectModel} {fmap : FieldMap} {rep : List (List Char)}
    {log2 : RawLog} {dbA dbB : DB} (hpat : dbB.patients = dbA.patients)
    (hTC : ∀ n pid crf2 inst2, patientIdOf dbA n = some pid →
        TripleConv dbA pid crf2 inst2 (wrapperRows P n crf2 inst2) →
        TripleConv dbB pid crf2 inst2 (wrapperRows P n crf2 inst2))
    (h : LogReady P fmap rep log2 dbA) : LogReady P fmap rep log2 dbB := by
  rcases h with hemp | ⟨L, hinit, hnd, hpid, hcond⟩
  · exact Or.inl hemp
  · refine Or.inr ⟨L, hinit, hnd, ?_, ?_⟩
    · rw [patientIdOf_congr hpat]
      exact hpid
    · intro crf hcrf hcne pid hp
      rw [patientIdOf_congr hpat] at hp
      exact hTC L.patient_name pid crf (instOf L rep crf) hp (hcond crf hcrf hcne pid hp)

theorem LogReady_upsert {P : ProjectModel} {fmap : FieldMap} {rep : List (List Char)}
    {log2 : RawLog} {db : DB} (n : List Char)
    (h : LogReady P fmap rep log2 db) : LogReady P fmap rep log2 (upsertPatient db n).2 := by
  rcases h with hemp | ⟨L, hinit, hnd, hpid, hcond⟩
  · exact Or.inl hemp
  · refine Or.inr ⟨L, hinit, hnd, ?_, ?_⟩
    · rcases hq : patientIdOf db L.patient_name with _ | q
      · exact absurd hq hpid
      · rw [patientIdOf_upsert_mono hq n]
        exact Option.noConfusion
    · intro crf hcrf hcne pid hp
      rcases hq : patientIdOf db L.patient_name with _ | q
      · exact absurd hq hpid
      · have hp2 := patientIdOf_upsert_mono hq n
        rw [hp2] at hp
        have hpq : pid = q := (Option.some_inj.mp hp).symm
        subst hpq
        obtain ⟨hc1, hc2, _, _⟩ := upsertPatient_frame db n
        exact TripleConv_congr hc1 hc2 (hcond crf hcrf hcne pid hq)

theorem list_singleton_of {α : Type} {l : List α} (h1 : l ≠ []) (h2 : l.length ≤ 1) :
    ∃ x, l = [x] := by
  cases l with
  | nil => exact absurd rfl h1
  | cons a t =>
      cases t with
      | nil => exact ⟨a, rfl⟩
      | cons b t2 => simp at h2

theorem dataVals_fresh {db : DB} {k : Nat} (h : ∀ d ∈ db.crf_data, d.id_crf < k)
    (v : List Char) : dataVals db k v = [] := by
  unfold dataVals
  have hf : db.crf_data.filter (fun d => d.id_crf == k && d.redcap_variable == v) = [] := by
    rw [List.filter_eq_nil_iff]
    intro d hd
    simp only [Bool.and_eq_true, beq_iff_eq, not_and]
    intro hk
    exact absurd (hk ▸ h d hd) (lt_irrefl _)
  rw [hf]
  rfl

theorem crf_map_ids (g : CrfRow → CrfRow) (h : ∀ r, (g r).id = r.id) (l : List CrfRow) :
    (l.map g).map (fun r => r.id) = l.map (fun r => r.id) := by
  rw [List.map_map]
  exact List.map_congr_left (fun r _ => h r)

theorem setRowVerified_inv {db : DB} (h : DBInv db) (rid : Nat) :
    DBInv (setRowVerified db rid) := by
  obtain ⟨h1, h2, h3, h4, h5, h6, h7, h8⟩ := h
  refine ⟨h1, h2, h3, ?_, ?_, ?_, h7, h8⟩
  · show ((db.crf.map (fun r => if r.id = rid then { r with verified := true } else r)).map
      (fun r => r.id)).Nodup
    rw [crf_map_ids _ (fun r => by by_cases hid : r.id = rid <;> simp [hid])]
    exact h4
  · intro r hr
    show r.id < db.nextCrfId
    simp only [setRowVerified, List.mem_map] at hr
    obtain ⟨r0, hr0, rfl⟩ := hr
    have : (if r0.id = rid then ({ r0 with verified := true } : CrfRow) else r0).id = r0.id := by
      by_cases hid : r0.id = rid <;> simp [hid]
    rw [this]
    exact h5 r0 hr0
  · intro pid crf inst
    rw [activeCrfRows_setRowVerified, List.length_map]
    exact h6 pid crf inst

theorem setRowDeleted_inv {db : DB} (h : DBInv db) (rid : Nat) :
    DBInv (setRowDeleted db rid) := by
  obtain ⟨h1, h2, h3, h4, h5, h6, h7, h8⟩ := h
  refine ⟨h1, h2, h3, ?_, ?_, ?_, h7, h8⟩
  · show ((db.crf.map (fun r => if r.id = rid then { r with deleted := true } else r)).map
      (fun r => r.id)).Nodup
    rw [crf_map_ids _ (fun r => by by_cases hid : r.id = rid <;> simp [hid])]
    exact h4
  · intro r hr
    show r.id < db.nextCrfId
    simp only [setRowDeleted, List.mem_map] at hr
    obtain ⟨r0, hr0, rfl⟩ := hr
    have : (if r0.id = rid then ({ r0 with deleted := true } : CrfRow) else r0).id = r0.id := by
      by_cases hid : r0.id = rid <;> simp [hid]
    rw [this]
    exact h5 r0 hr0
  · intro pid crf inst
    rw [activeCrfRows_setRowDeleted]
    exact le_trans (List.length_filter_le _ _) (h6 pid crf inst)

theorem updateBranch_dataVals {db : DB} {rid : Nat} {crf : List Char}
    {melted : List (List Char × List Char)} (hnd : (melted.map Prod.fst).Nodup)
    (hlen : ∀ v, (dataVals db rid v).length ≤ 1) :
    (∀ q ∈ melted, dataVals (updateBranch db rid crf melted) rid q.1 = [q.2]) ∧
    (∀ rid2 v, (rid2 ≠ rid ∨ ∀ q ∈ melted, v ≠ q.1) →
      dataVals (updateBranch db rid crf melted) rid2 v = dataVals db rid2 v) := by
  rw [updateBranch_eq]
  have hdv : ∀ r v, dataVals
      (if statusIs45 melted crf then setRowVerified db rid else db) r v = dataVals db r v := by
    intro r v
    split <;> rfl
  have hready : ∀ q ∈ melted,
      (((((if statusIs45 melted crf then setRowVerified db rid
          else db)).crf_data.filter (fun d => d.id_crf == rid)).map
        (fun d => d.redcap_variable)).any (fun v => v == q.1) = true →
        ∃ x, dataVals (if statusIs45 melted crf then setRowVerified db rid else db)
          rid q.1 = [x]) ∧
      (((((if statusIs45 melted crf then setRowVerified db rid
          else db)).crf_data.filter (fun d => d.id_crf == rid)).map
        (fun d => d.redcap_variable)).any (fun v => v == q.1) = false →
        dataVals (if statusIs45 melted crf then setRowVerified db rid else db)
          rid q.1 = []) := by
    intro q _
    constructor
    · intro hany
      have hne := (dbvars_any_iff _ rid q.1).mp hany
      rw [← dataVals_dvl] at hne
      refine list_singleton_of hne ?_
      rw [hdv]
      exact hlen q.1
    · intro hany
      by_contra hcon
      rw [dataVals_dvl] at hcon
      have := (dbvars_any_iff _ rid q.1).mpr hcon
      rw [hany] at this
      cases this
  obtain ⟨hs1, hs2⟩ := ubFold_spec rid _ melted _ hnd hready
  exact ⟨hs1, fun rid2 v hc => (hs2 rid2 v hc).trans (hdv rid2 v)⟩

theorem updateBranch_inv {db : DB} {rid : Nat} {crf : List Char}
    {melted : List (List Char × List Char)} (hnd : (melted.map Prod.fst).Nodup)
    (h : DBInv db) (hrid : rid < db.nextCrfId) :
    DBInv (updateBranch db rid crf melted) := by
  have hinv1 : DBInv (if statusIs45 melted crf then setRowVerified db rid else db) := by
    split
    · exact setRowVerified_inv h rid
    · exact h
  obtain ⟨g1, g2, g3, g4, g5, g6, g7, g8⟩ := hinv1
  have heq := updateBranch_eq db rid crf melted
  obtain ⟨r1, r2, r3, r4, r5⟩ := ubFold_rest rid
    ((((if statusIs45 melted crf then setRowVerified db rid
        else db)).crf_data.filter (fun d => d.id_crf == rid)).map
      (fun d => d.redcap_variable)) melted
    (if statusIs45 melted crf then setRowVerified db rid else db)
  have hspec := @updateBranch_dataVals db rid crf melted hnd (fun v => h.2.2.2.2.2.2.1 rid v)
  refine ⟨?_, ?_, ?_, ?_, ?_, ?_, ?_, ?_⟩
  · rw [heq, r1]; exact g1
  · rw [heq, r1]; exact g2
  · rw [heq]
    intro p hp
    rw [r1] at hp
    rw [r2]
    exact g3 p hp
  · rw [heq, r3]; exact g4
  · rw [heq]
    intro r hr
    rw [r3] at hr
    rw [r4]
    exact g5 r hr
  · intro pid2 c2 i2
    rw [heq, activeCrfRows_eq_of_crf r3]
    exact g6 pid2 c2 i2
  · intro rid2 v
    by_cases hr2 : rid2 = rid
    · subst hr2
      by_cases hex : ∃ q ∈ melted, q.1 = v
      · obtain ⟨q, hq, hqv⟩ := hex
        rw [← hqv, hspec.1 q hq]
        exact le_refl 1
      · have hall : ∀ q ∈ melted, v ≠ q.1 := by
          intro q hq he
          exact hex ⟨q, hq, he.symm⟩
        rw [hspec.2 rid2 v (Or.inr hall)]
        exact h.2.2.2.2.2.2.1 rid2 v
    · rw [hspec.2 rid2 v (Or.inl hr2)]
      exact h.2.2.2.2.2.2.1 rid2 v
  · intro d hd
    rw [heq] at hd
    rcases ubFold_mem _ _ melted _ d hd with hl | hrr
    · rw [heq, r4]
      show d.id_crf < (if statusIs45 melted crf then setRowVerified db rid else db).nextCrfId
      have : (if statusIs45 melted crf then setRowVerified db rid else db).nextCrfId
          = db.nextCrfId := by split <;> rfl
      rw [this, hl]
      exact hrid
    · rw [heq, r4]
      exact g8 d hrr

theorem insertBranch_rest (db : DB) (pid : Nat) (crf : List Char) (inst : Option Int)
    (melted : List (List Char × List Char)) :
    (insertBranch db pid crf inst melted).patients = db.patients ∧
    (insertBranch db pid crf inst melted).nextPatientId = db.nextPatientId ∧
    (insertBranch db pid crf inst melted).nextCrfId = db.nextCrfId + 1 ∧
    (insertBranch db pid crf inst melted).backup = db.backup := by
  rw [insertBranch_eq]
  obtain ⟨r1, r2, r3, r4, r5⟩ := ibFold_rest db.nextCrfId melted
    { db with crf := db.crf ++ [⟨db.nextCrfId, pid, crf, inst, false, statusIs45 melted crf⟩], nextCrfId := db.nextCrfId + 1 }
  exact ⟨r1, r2, r4, r5⟩

theorem insertBranch_dataVals {db : DB} {pid : Nat} {crf : List Char} {inst : Option Int}
    {melted : List (List Char × List Char)} (hnd : (melted.map Prod.fst).Nodup)
    (hfresh : ∀ d ∈ db.crf_data, d.id_crf < db.nextCrfId) :
    (∀ q ∈ melted, dataVals (insertBranch db pid crf inst melted) db.nextCrfId q.1 = [q.2]) ∧
    (∀ rid2 v, (rid2 ≠ db.nextCrfId ∨ ∀ q ∈ melted, v ≠ q.1) →
      dataVals (insertBranch db pid crf inst melted) rid2 v = dataVals db rid2 v) := by
  rw [insertBranch_eq]
  have hready : ∀ q ∈ melted, dataVals
      { db with crf := db.crf ++ [⟨db.nextCrfId, pid, crf, inst, false, statusIs45 melted crf⟩], nextCrfId := db.nextCrfId + 1 }
      db.nextCrfId q.1 = [] := fun q _ => dataVals_fresh hfresh q.1
  obtain ⟨hs1, hs2⟩ := ibFold_spec db.nextCrfId melted
    { db with crf := db.crf ++ [⟨db.nextCrfId, pid, crf, inst, false, statusIs45 melted crf⟩], nextCrfId := db.nextCrfId + 1 }
    hnd hready
  exact ⟨hs1, fun rid2 v hc => hs2 rid2 v hc⟩

theorem insertBranch_inv {db : DB} {pid : Nat} {crf : List Char} {inst : Option Int}
    {melted : List (List Char × List Char)} (hnd : (melted.map Prod.fst).Nodup)
    (h : DBInv db) (hactive : activeCrfRows db pid crf inst = []) :
    DBInv (insertBranch db pid crf inst melted) := by
  obtain ⟨h1, h2, h3, h4, h5, h6, h7, h8⟩ := h
  obtain ⟨r1, r2, r3, r4⟩ := insertBranch_rest db pid crf inst melted
  have hcrf := insertBranch_crf db pid crf inst melted
  have hspec := @insertBranch_dataVals db pid crf inst melted hnd h8
  refine ⟨?_, ?_, ?_, ?_, ?_, ?_, ?_, ?_⟩
  · rw [r1]; exact h1
  · rw [r1]; exact h2
  · intro p hp
    rw [r1] at hp
    rw [r2]
    exact h3 p hp
  · rw [hcrf, List.map_append, List.nodup_append]
    refine ⟨h4, List.nodup_singleton _, ?_⟩
    intro x hx hy
    simp only [List.map_cons, List.map_nil, List.mem_singleton] at hy
    rw [List.mem_map] at hx
    obtain ⟨r, hr, rfl⟩ := hx
    exact absurd (hy ▸ h5 r hr) (lt_irrefl _)
  · intro r hr
    rw [hcrf] at hr
    rw [r3]
    rcases List.mem_append.mp hr with hl | hnew
    · exact Nat.lt_trans (h5 r hl) (Nat.lt_succ_self _)
    · rw [List.mem_singleton.mp hnew]
      exact Nat.lt_succ_self _
  · intro pid2 c2 i2
    have hae : activeCrfRows (insertBranch db pid crf inst melted) pid2 c2 i2 =
        (db.crf ++ [(⟨db.nextCrfId, pid, crf, inst, false, statusIs45 melted crf⟩ : CrfRow)]).filter
          (fun r => r.id_patient == pid2 && r.crf_name == c2 && r.inst == i2 && r.deleted == false) := by
      unfold activeCrfRows
      rw [hcrf]
    rw [hae, filter_append_single]
    rcases hpred : ((⟨db.nextCrfId, pid, crf, inst, false, statusIs45 melted crf⟩ : CrfRow).id_patient == pid2 &&
        (⟨db.nextCrfId, pid, crf, inst, false, statusIs45 melted crf⟩ : CrfRow).crf_name == c2 &&
        (⟨db.nextCrfId, pid, crf, inst, false, statusIs45 melted crf⟩ : CrfRow).inst == i2 &&
        (⟨db.nextCrfId, pid, crf, inst, false, statusIs45 melted crf⟩ : CrfRow).deleted == false) with _ | _
    · simp only [Bool.false_eq_true, if_false, List.append_nil]
      exact h6 pid2 c2 i2
    · rw [if_pos rfl]
      simp only [Bool.and_eq_true, beq_iff_eq] at hpred
      obtain ⟨⟨⟨hp1, hp2⟩, hp3⟩, _⟩ := hpred
      have hzero : db.crf.filter
          (fun r => r.id_patient == pid2 && r.crf_name == c2 && r.inst == i2 && r.deleted == false) = [] := by
        rw [← hp1, ← hp2, ← hp3]
        exact hactive
      rw [hzero]
      simp
  · intro rid2 v
    by_cases hr2 : rid2 = db.nextCrfId
    · subst hr2
      by_cases hex : ∃ q ∈ melted, q.1 = v
      · obtain ⟨q, hq, hqv⟩ := hex
        rw [← hqv, hspec.1 q hq]
        exact le_refl 1
      · have hall : ∀ q ∈ melted, v ≠ q.1 := by
          intro q hq he
          exact hex ⟨q, hq, he.symm⟩
        rw [hspec.2 db.nextCrfId v (Or.inr hall)]
        exact h7 db.nextCrfId v
    · rw [hspec.2 rid2 v (Or.inl hr2)]
      exact h7 rid2 v
  · intro d hd
    rw [insertBranch_eq] at hd
    rw [r3]
    rcases ibFold_mem db.nextCrfId melted _ d hd with hl | hrr
    · rw [hl]
      exact Nat.lt_succ_self _
    · exact Nat.lt_trans (h8 d hrr) (Nat.lt_succ_self _)

theorem active_addr_unique {db : DB} (hnd : (db.crf.map (fun r => r.id)).Nodup)
    {pid : Nat} {c : List Char} {i : Option Int} {pid2 : Nat} {c2 : List Char} {i2 : Option Int}
    {r r0 : CrfRow} (hr : r ∈ activeCrfRows db pid c i)
    (hr0 : r0 ∈ activeCrfRows db pid2 c2 i2) (hid : r0.id = r.id) :
    pid2 = pid ∧ c2 = c ∧ i2 = i := by
  have he : r0 = r := map_nodup_inj hnd (active_mem hr0).1 (active_mem hr).1 hid
  obtain ⟨_, a1, a2, a3, _⟩ := active_mem hr
  obtain ⟨_, b1, b2, b3, _⟩ := active_mem hr0
  subst he
  exact ⟨b1 ▸ a1 ▸ rfl, b2 ▸ a2 ▸ rfl, b3 ▸ a3 ▸ rfl⟩

theorem TripleConv_setRowDeleted {db : DB} {rid pid : Nat} {c : List Char} {i : Option Int}
    {rows : List SnapRow} (hne : ∀ r0 ∈ activeCrfRows db pid c i, r0.id ≠ rid)
    (h : TripleConv db pid c i rows) : TripleConv (setRowDeleted db rid) pid c i rows := by
  have hact : activeCrfRows (setRowDeleted db rid) pid c i = activeCrfRows db pid c i := by
    rw [activeCrfRows_setRowDeleted]
    apply List.filter_eq_self.mpr
    intro r hr
    simp [hne r hr]
  unfold TripleConv at h ⊢
  cases rows with
  | nil =>
      rw [hact]
      exact h
  | cons r0 t =>
      obtain ⟨row, ha, hv, hd⟩ := h
      exact ⟨row, by rw [hact]; exact ha, hv, fun pr hpr => hd pr hpr⟩

theorem TripleConv_updateBranch {db : DB} {rid : Nat} {crf0 : List Char}
    {melted : List (List Char × List Char)} {pid : Nat} {c : List Char} {i : Option Int}
    {rows : List SnapRow} (hnd : (melted.map Prod.fst).Nodup)
    (hlen : ∀ v, (dataVals db rid v).length ≤ 1)
    (hne : ∀ r0 ∈ activeCrfRows db pid c i, r0.id ≠ rid)
    (h : TripleConv db pid c i rows) :
    TripleConv (updateBranch db rid crf0 melted) pid c i rows := by
  have hspec := @updateBranch_dataVals db rid crf0 melted hnd hlen
  have hact : activeCrfRows (updateBranch db rid crf0 melted) pid c i
      = activeCrfRows db pid c i := by
    rw [activeCrfRows_eq_of_crf (updateBranch_crf db rid crf0 melted)]
    split
    · rw [activeCrfRows_setRowVerified]
      have := List.map_congr_left (l := activeCrfRows db pid c i)
        (f := fun r => if r.id = rid then ({ r with verified := true } : CrfRow) else r)
        (g := id)
        (fun r hr => by simp [hne r hr])
      simpa using this
    · rfl
  unfold TripleConv at h ⊢
  cases rows with
  | nil =>
      rw [hact]
      exact h
  | cons r0 t =>
      obtain ⟨row, ha, hv, hd⟩ := h
      have hrowmem : row ∈ activeCrfRows db pid c i := by
        rw [ha]
        exact List.mem_singleton_self row
      refine ⟨row, by rw [hact]; exact ha, hv, ?_⟩
      intro pr hpr
      rw [hspec.2 row.id pr.1 (Or.inl (hne row hrowmem))]
      exact hd pr hpr

theorem TripleConv_insertBranch {db : DB} {pid0 : Nat} {crf0 : List Char} {inst0 : Option Int}
    {melted : List (List Char × List Char)} {pid : Nat} {c : List Char} {i : Option Int}
    {rows : List SnapRow} (hnd : (melted.map Prod.fst).Nodup)
    (hfresh : ∀ d ∈ db.crf_data, d.id_crf < db.nextCrfId)
    (hrows : ∀ r ∈ db.crf, r.id < db.nextCrfId)
    (hnaddr : ¬(pid0 = pid ∧ crf0 = c ∧ inst0 = i))
    (h : TripleConv db pid c i rows) :
    TripleConv (insertBranch db pid0 crf0 inst0 melted) pid c i rows := by
  have hspec := @insertBranch_dataVals db pid0 crf0 inst0 melted hnd hfresh
  have hact : activeCrfRows (insertBranch db pid0 crf0 inst0 melted) pid c i
      = activeCrfRows db pid c i := by
    have hae : activeCrfRows (insertBranch db pid0 crf0 inst0 melted) pid c i =
        (db.crf ++ [(⟨db.nextCrfId, pid0, crf0, inst0, false, statusIs45 melted crf0⟩ : CrfRow)]).filter
          (fun r => r.id_patient == pid && r.crf_name == c && r.inst == i && r.deleted == false) := by
      unfold activeCrfRows
      rw [insertBranch_crf]
    rw [hae, filter_append_single]
    rcases hb : ((⟨db.nextCrfId, pid0, crf0, inst0, false, statusIs45 melted crf0⟩ : CrfRow).id_patient == pid &&
        (⟨db.nextCrfId, pid0, crf0, inst0, false, statusIs45 melted crf0⟩ : CrfRow).crf_name == c &&
        (⟨db.nextCrfId, pid0, crf0, inst0, false, statusIs45 melted crf0⟩ : CrfRow).inst == i &&
        (⟨db.nextCrfId, pid0, crf0, inst0, false, statusIs45 melted crf0⟩ : CrfRow).deleted == false) with _ | _
    · simp only [Bool.false_eq_true, if_false, List.append_nil]
      rfl
    · simp only [Bool.and_eq_true, beq_iff_eq] at hb
      exact absurd ⟨hb.1.1.1, hb.1.1.2, hb.1.2⟩ hnaddr
  unfold TripleConv at h ⊢
  cases rows with
  | nil =>
      rw [hact]
      exact h
  | cons r0 t =>
      obtain ⟨row, ha, hv, hd⟩ := h
      have hrowmem : row ∈ activeCrfRows db pid c i := by
        rw [ha]
        exact List.mem_singleton_self row
      have hlt : row.id < db.nextCrfId := hrows row (active_mem hrowmem).1
      refine ⟨row, by rw [hact]; exact ha, hv, ?_⟩
      intro pr hpr
      rw [hspec.2 row.id pr.1 (Or.inl (Nat.ne_of_lt hlt))]
      exact hd pr hpr

theorem active_after_delete {db : DB} {pid : Nat} {c : List Char} {i : Option Int}
    {r : CrfRow} (ha : activeCrfRows db pid c i = [r]) :
    activeCrfRows (setRowDeleted db r.id) pid c i = [] := by
  rw [activeCrfRows_setRowDeleted, ha]
  simp

theorem TripleConv_update_self {db : DB} {r : CrfRow} {pid : Nat} {c : List Char}
    {i : Option Int} {r0 : SnapRow} {t : List SnapRow}
    (ha : activeCrfRows db pid c i = [r])
    (hnd : ((melt (r0 :: t)).map Prod.fst).Nodup)
    (hlen : ∀ v, (dataVals db r.id v).length ≤ 1) :
    TripleConv (updateBranch db r.id c (melt (r0 :: t))) pid c i (r0 :: t) := by
  have hspec := @updateBranch_dataVals db r.id c (melt (r0 :: t)) hnd hlen
  unfold TripleConv
  by_cases hs : statusIs45 (melt (r0 :: t)) c = true
  · refine ⟨{ r with verified := true }, ?_, fun _ => rfl, ?_⟩
    · rw [activeCrfRows_eq_of_crf (updateBranch_crf db r.id c (melt (r0 :: t)))]
      have hc : (if statusIs45 (melt (r0 :: t)) c then setRowVerified db r.id else db)
          = setRowVerified db r.id := by rw [if_pos hs]
      rw [activeCrfRows_eq_of_crf (congrArg DB.crf hc), activeCrfRows_setRowVerified, ha]
      simp
    · intro pr hpr
      exact hspec.1 pr hpr
  · refine ⟨r, ?_, fun hcon => absurd hcon hs, ?_⟩
    · rw [activeCrfRows_eq_of_crf (updateBranch_crf db r.id c (melt (r0 :: t)))]
      have hc : (if statusIs45 (melt (r0 :: t)) c then setRowVerified db r.id else db)
          = db := by rw [if_neg hs]
      rw [activeCrfRows_eq_of_crf (congrArg DB.crf hc)]
      exact ha
    · intro pr hpr
      exact hspec.1 pr hpr

theorem TripleConv_insert_self {db : DB} {pid : Nat} {c : List Char} {i : Option Int}
    {r0 : SnapRow} {t : List SnapRow}
    (hactive : activeCrfRows db pid c i = [])
    (hnd : ((melt (r0 :: t)).map Prod.fst).Nodup)
    (hfresh : ∀ d ∈ db.crf_data, d.id_crf < db.nextCrfId) :
    TripleConv (insertBranch db pid c i (melt (r0 :: t))) pid c i (r0 :: t) := by
  have hspec := @insertBranch_dataVals db pid c i (melt (r0 :: t)) hnd hfresh
  unfold TripleConv
  refine ⟨⟨db.nextCrfId, pid, c, i, false, statusIs45 (melt (r0 :: t)) c⟩, ?_, ?_, ?_⟩
  · have hae : activeCrfRows (insertBranch db pid c i (melt (r0 :: t))) pid c i =
        (db.crf ++ [(⟨db.nextCrfId, pid, c, i, false, statusIs45 (melt (r0 :: t)) c⟩ : CrfRow)]).filter
          (fun r => r.id_patient == pid && r.crf_name == c && r.inst == i && r.deleted == false) := by
      unfold activeCrfRows
      rw [insertBranch_crf]
    rw [hae, filter_append_single]
    have hz : db.crf.filter
        (fun r => r.id_patient == pid && r.crf_name == c && r.inst == i && r.deleted == false) = [] :=
      hactive
    rw [hz, if_pos (by simp)]
    rfl
  · intro hcon
    exact hcon
  · intro pr hpr
    exact hspec.1 pr hpr

theorem processLog_resolved2 {P : ProjectModel} {fmap : FieldMap} {rep : List (List Char)}
    {log : RawLog} (db : DB) {L : REDCapLogObj} {crf : List Char} (hP : SnapWF P)
    (hne : log.details.isEmpty = false)
    (hinit : redcap_log_init log.action log.timestamp log.details = .ok L)
    (hnd : get_action L.action ≠ some Op.DELETE)
    (hcrf : get_crf_name L.varNames fmap = some crf)
    (hcne : crf.isEmpty = false) :
    processLog P fmap rep log db =
      (if (wrapperRows P L.patient_name crf
            (if (get_instance L.details).isNone && rep.any (fun r => r == crf) then some 1
             else get_instance L.details)).isEmpty &&
          (activeCrfRows (upsertPatient db L.patient_name).2
            (upsertPatient db L.patient_name).1 crf
            (if (get_instance L.details).isNone && rep.any (fun r => r == crf) then some 1
             else get_instance L.details)).isEmpty then
        ((export_records_wrapper P L crf
            (if (get_instance L.details).isNone && rep.any (fun r => r == crf) then some 1
             else get_instance L.details) (upsertPatient db L.patient_name).2).2, .ok none)
       else if (wrapperRows P L.patient_name crf
            (if (get_instance L.details).isNone && rep.any (fun r => r == crf) then some 1
             else get_instance L.details)).isEmpty then
         match (activeCrfRows (upsertPatient db L.patient_name).2
            (upsertPatient db L.patient_name).1 crf
            (if (get_instance L.details).isNone && rep.any (fun r => r == crf) then some 1
             else get_instance L.details)).head? with
         | some r =>
             (setRowDeleted ((export_records_wrapper P L crf
                (if (get_instance L.details).isNone && rep.any (fun r => r == crf) then some 1
                 else get_instance L.details) (upsertPatient db L.patient_name).2).2) r.id,
              .ok none)
         | none =>
             ((export_records_wrapper P L crf
                (if (get_instance L.details).isNone && rep.any (fun r => r == crf) then some 1
                 else get_instance L.details) (upsertPatient db L.patient_name).2).2, .ok none)
       else
         match (activeCrfRows (upsertPatient db L.patient_name).2
            (upsertPatient db L.patient_name).1 crf
            (if (get_instance L.details).isNone && rep.any (fun r => r == crf) then some 1
             else get_instance L.details)).head? with
         | some r =>
             (updateBranch ((export_records_wrapper P L crf
                (if (get_instance L.details).isNone && rep.any (fun r => r == crf) then some 1
                 else get_instance L.details) (upsertPatient db L.patient_name).2).2) r.id crf
                (melt (wrapperRows P L.patient_name crf
                  (if (get_instance L.details).isNone && rep.any (fun r => r == crf) then some 1
                   else get_instance L.details))), .ok none)
         | none =>
             (insertBranch ((export_records_wrapper P L crf
                (if (get_instance L.details).isNone && rep.any (fun r => r == crf) then some 1
                 else get_instance L.details) (upsertPatient db L.patient_name).2).2)
                (upsertPatient db L.patient_name).1 crf
                (if (get_instance L.details).isNone && rep.any (fun r => r == crf) then some 1
                 else get_instance L.details)
                (melt (wrapperRows P L.patient_name crf
                  (if (get_instance L.details).isNone && rep.any (fun r => r == crf) then some 1
                   else get_instance L.details))), .ok none)) := by
  rw [processLog_resolved P fmap rep log db L crf hne hinit hnd hcrf hcne,
    (wrapper_ok hP L crf
      (if (get_instance L.details).isNone && rep.any (fun r => r == crf) then some 1
       else get_instance L.details) (upsertPatient db L.patient_name).2).1]

theorem updateBranch_rest (db : DB) (rid : Nat) (crf : List Char)
    (melted : List (List Char × List Char)) :
    (updateBranch db rid crf melted).patients = db.patients ∧
    (updateBranch db rid crf melted).nextPatientId = db.nextPatientId ∧
    (updateBranch db rid crf melted).nextCrfId = db.nextCrfId ∧
    (updateBranch db rid crf melted).backup = db.backup := by
  rw [updateBranch_eq]
  obtain ⟨r1, r2, r3, r4, r5⟩ := ubFold_rest rid
    ((((if statusIs45 melted crf then setRowVerified db rid
        else db)).crf_data.filter (fun d => d.id_crf == rid)).map
      (fun d => d.redcap_variable)) melted
    (if statusIs45 melted crf then setRowVerified db rid else db)
  have e1 : (if statusIs45 melted crf then setRowVerified db rid else db).patients
      = db.patients := by split <;> rfl
  have e2 : (if statusIs45 melted crf then setRowVerified db rid else db).nextPatientId
      = db.nextPatientId := by split <;> rfl
  have e3 : (if statusIs45 melted crf then setRowVerified db rid else db).nextCrfId
      = db.nextCrfId := by split <;> rfl
  have e4 : (if statusIs45 melted crf then setRowVerified db rid else db).backup
      = db.backup := by split <;> rfl
  exact ⟨r1.trans e1, r2.trans e2, r4.trans e3, r5.trans e4⟩

theorem step_establish_resolved {P : ProjectModel} {fmap : FieldMap} {rep : List (List Char)}
    {log : RawLog} {db : DB} {L : REDCapLogObj} {crf : List Char}
    (hP : SnapWF P) (hInv : DBInv db)
    (hne : log.details.isEmpty = false)
    (hinit : redcap_log_init log.action log.timestamp log.details = .ok L)
    (hndel : get_action L.action ≠ some Op.DELETE)
    (hcn : get_crf_name L.varNames fmap = some crf)
    (hcneF : crf.isEmpty = false) :
    ∃ db2 o, processLog P fmap rep log db = (db2, .ok o) ∧ DBInv db2 ∧
      LogReady P fmap rep log db2 ∧
      (∀ log2, LogReady P fmap rep log2 db → LogReady P fmap rep log2 db2) := by
  have hpl := @processLog_resolved2 P fmap rep log db L crf hP hne hinit hndel hcn hcneF
  set IN := (if (get_instance L.details).isNone && rep.any (fun r => r == crf) then some 1
    else get_instance L.details) with hIN
  set PID := (upsertPatient db L.patient_name).1 with hPID
  set DB1 := (upsertPatient db L.patient_name).2 with hDB1
  set WR2 := (export_records_wrapper P L crf IN DB1).2 with hWR2
  set RWS := wrapperRows P L.patient_name crf IN with hRWS
  set CRWS := activeCrfRows DB1 PID crf IN with hCRWS
  have hInv1 : DBInv DB1 := upsertPatient_inv hInv L.patient_name
  have hmirw : mir WR2 = mir DB1 := (wrapper_ok hP L crf IN DB1).2
  obtain ⟨e1, e2, e3, e4, e5⟩ := mir_eq_components hmirw
  have hInv2 : DBInv WR2 := DBInv_of_mir hmirw hInv1
  have hInv2b := hInv2
  obtain ⟨g1, g2, g3, g4, g5, g6, g7, g8⟩ := hInv2b
  have hpidself : patientIdOf DB1 L.patient_name = some PID :=
    patientIdOf_upsert_self db L.patient_name
  have hpid2 : patientIdOf WR2 L.patient_name = some PID := by
    rw [patientIdOf_congr e1]
    exact hpidself
  have hactlen : CRWS.length ≤ 1 := hInv1.2.2.2.2.2.1 PID crf IN
  have hrwslen : RWS.length ≤ 1 := wrapperRows_len hP L.patient_name crf IN
  have hactW : activeCrfRows WR2 PID crf IN = CRWS := activeCrfRows_eq_of_crf e3 PID crf IN
  have hcompose : ∀ dbX : DB, dbX.patients = WR2.patients →
      (∀ n pid crf2 inst2, patientIdOf WR2 n = some pid →
        TripleConv WR2 pid crf2 inst2 (wrapperRows P n crf2 inst2) →
        TripleConv dbX pid crf2 inst2 (wrapperRows P n crf2 inst2)) →
      ∀ log2, LogReady P fmap rep log2 db → LogReady P fmap rep log2 dbX := by
    intro dbX hpat hTC log2 h
    exact LogReady_step hpat hTC (LogReady_of_mir hmirw (LogReady_upsert L.patient_name h))
  have hmkready : ∀ dbX : DB, patientIdOf dbX L.patient_name = some PID →
      TripleConv dbX PID crf IN RWS → LogReady P fmap rep log dbX := by
    intro dbX hpidX hTC
    refine Or.inr ⟨L, hinit, hndel, by rw [hpidX]; exact fun h => Option.noConfusion h, ?_⟩
    intro crf2 hcrf2 hcne2 pid hp
    rw [hcn] at hcrf2
    have hc2 : crf2 = crf := (Option.some_inj.mp hcrf2).symm
    subst hc2
    rw [hpidX] at hp
    have hpp : pid = PID := (Option.some_inj.mp hp).symm
    subst hpp
    exact hTC
  rcases hrows : RWS with _ | ⟨r0, t⟩
  · rw [hrows] at hpl
    rcases hcr : CRWS with _ | ⟨r, t2⟩
    · rw [hcr] at hpl
      have hstep : processLog P fmap rep log db = (WR2, .ok none) := by
        rw [hpl]
        rfl
      have hTCW : TripleConv WR2 PID crf IN ([] : List SnapRow) := by
        show activeCrfRows WR2 PID crf IN = []
        rw [hactW]
        exact hcr
      refine ⟨WR2, none, hstep, hInv2, ?_, ?_⟩
      · refine hmkready WR2 hpid2 ?_
        rw [hrows]
        exact hTCW
      · refine hcompose WR2 rfl ?_
        intro n pid crf2 inst2 hpn hTCa
        exact hTCa
    · rw [hcr] at hpl hactlen
      have ht2 : t2 = [] := by
        cases t2 with
        | nil => rfl
        | cons b t3 => simp at hactlen
      subst ht2
      have hstep : processLog P fmap rep log db = (setRowDeleted WR2 r.id, .ok none) := by
        rw [hpl]
        rfl
      have haW : activeCrfRows WR2 PID crf IN = [r] := by
        rw [hactW]
        exact hcr
      have hrmem : r ∈ activeCrfRows WR2 PID crf IN := by
        rw [haW]
        exact List.mem_singleton_self r
      have hdel : activeCrfRows (setRowDeleted WR2 r.id) PID crf IN = [] :=
        active_after_delete haW
      refine ⟨setRowDeleted WR2 r.id, none, hstep, setRowDeleted_inv hInv2 r.id, ?_, ?_⟩
      · refine hmkready (setRowDeleted WR2 r.id)
          ((patientIdOf_congr rfl L.patient_name).trans hpid2) ?_
        rw [hrows]
        show activeCrfRows (setRowDeleted WR2 r.id) PID crf IN = []
        exact hdel
      · refine hcompose (setRowDeleted WR2 r.id) rfl ?_
        intro n pid2 crf2 inst2 hpn hTCa
        by_cases haddr : pid2 = PID ∧ crf2 = crf ∧ inst2 = IN
        · obtain ⟨h1x, h2x, h3x⟩ := haddr
          rw [h1x] at hpn
          rw [h1x, h2x, h3x]
          have hn : n = L.patient_name := patientIdOf_inj g2 hpn hpid2
          subst hn
          rw [← hRWS, hrows]
          show activeCrfRows (setRowDeleted WR2 r.id) PID crf IN = []
          exact hdel
        · refine TripleConv_setRowDeleted ?_ hTCa
          intro r0' hr0' hid
          obtain ⟨a1, a2, a3⟩ := active_addr_unique g4 hrmem hr0' hid
          exact haddr ⟨a1, a2, a3⟩
  · rw [hrows] at hpl hrwslen
    have ht : t = [] := by
      cases t with
      | nil => rfl
      | cons b t3 => simp at hrwslen
    subst ht
    have hr0in : r0 ∈ RWS := by
      rw [hrows]
      exact List.mem_singleton_self r0
    have hr0mem : r0 ∈ (P.records L.patient_name crf).rows :=
      @wrapperRows_mem P L.patient_name crf IN r0 hr0in
    have hnd0 : (r0.fields.map Prod.fst).Nodup := ((hP L.patient_name crf).2.2 r0 hr0mem).2
    have hndm : ((melt (r0 :: ([] : List SnapRow))).map Prod.fst).Nodup := by
      rw [melt_single hnd0]
      exact hnd0
    rcases hcr : CRWS with _ | ⟨r, t2⟩
    · rw [hcr] at hpl
      have hstep : processLog P fmap rep log db =
          (insertBranch WR2 PID crf IN (melt (r0 :: [])), .ok none) := by
        rw [hpl]
        rfl
      have hactW0 : activeCrfRows WR2 PID crf IN = [] := by
        rw [hactW]
        exact hcr
      have hTCins := TripleConv_insert_self hactW0 hndm g8
      refine ⟨insertBranch WR2 PID crf IN (melt (r0 :: [])), none, hstep,
        insertBranch_inv hndm hInv2 hactW0, ?_, ?_⟩
      · refine hmkready _ ((patientIdOf_congr
          (insertBranch_rest WR2 PID crf IN (melt (r0 :: []))).1 L.patient_name).trans hpid2) ?_
        rw [hrows]
        exact hTCins
      · refine hcompose _ (insertBranch_rest WR2 PID crf IN (melt (r0 :: []))).1 ?_
        intro n pid2 crf2 inst2 hpn hTCa
        by_cases haddr : pid2 = PID ∧ crf2 = crf ∧ inst2 = IN
        · obtain ⟨h1x, h2x, h3x⟩ := haddr
          rw [h1x] at hpn
          rw [h1x, h2x, h3x]
          have hn : n = L.patient_name := patientIdOf_inj g2 hpn hpid2
          subst hn
          rw [← hRWS, hrows]
          exact hTCins
        · refine TripleConv_insertBranch hndm g8 g5 ?_ hTCa
          rintro ⟨b1, b2, b3⟩
          exact haddr ⟨b1.symm, b2.symm, b3.symm⟩
    · rw [hcr] at hpl hactlen
      have ht2 : t2 = [] := by
        cases t2 with
        | nil => rfl
        | cons b t3 => simp at hactlen
      subst ht2
      have hstep : processLog P fmap rep log db =
          (updateBranch WR2 r.id crf (melt (r0 :: [])), .ok none) := by
        rw [hpl]
        rfl
      have haW : activeCrfRows WR2 PID crf IN = [r] := by
        rw [hactW]
        exact hcr
      have hrmem : r ∈ activeCrfRows WR2 PID crf IN := by
        rw [haW]
        exact List.mem_singleton_self r
      have hrlt : r.id < WR2.nextCrfId := g5 r (active_mem hrmem).1
      have hTCupd := TripleConv_update_self haW hndm (fun v => g7 r.id v)
      refine ⟨updateBranch WR2 r.id crf (melt (r0 :: [])), none, hstep,
        updateBranch_inv hndm hInv2 hrlt, ?_, ?_⟩
      · refine hmkready _ ((patientIdOf_congr
          (updateBranch_rest WR2 r.id crf (melt (r0 :: []))).1 L.patient_name).trans hpid2) ?_
        rw [hrows]
        exact hTCupd
      · refine hcompose _ (updateBranch_rest WR2 r.id crf (melt (r0 :: []))).1 ?_
        intro n pid2 crf2 inst2 hpn hTCa
        by_cases haddr : pid2 = PID ∧ crf2 = crf ∧ inst2 = IN
        · obtain ⟨h1x, h2x, h3x⟩ := haddr
          rw [h1x] at hpn
          rw [h1x, h2x, h3x]
          have hn : n = L.patient_name := patientIdOf_inj g2 hpn hpid2
          subst hn
          rw [← hRWS, hrows]
          exact hTCupd
        · refine TripleConv_updateBranch hndm (fun v => g7 r.id v) ?_ hTCa
          intro r0' hr0' hid
          obtain ⟨a1, a2, a3⟩ := active_addr_unique g4 hrmem hr0' hid
          exact haddr ⟨a1, a2, a3⟩

theorem step_establish {P : ProjectModel} {fmap : FieldMap} {rep : List (List Char)}
    {log : RawLog} {db : DB} (hP : SnapWF P) (hInv : DBInv db) (hGood : GoodLog log) :
    ∃ db2 o, processLog P fmap rep log db = (db2, .ok o) ∧ DBInv db2 ∧
      LogReady P fmap rep log db2 ∧
      (∀ log2, LogReady P fmap rep log2 db → LogReady P fmap rep log2 db2) := by
  by_cases hdet : log.details.isEmpty = true
  · exact ⟨db, none, processLog_skip db hdet, hInv, Or.inl hdet, fun log2 h => h⟩
  · have hne : log.details.isEmpty = false := by
      cases hb : log.details.isEmpty
      · rfl
      · exact absurd hb hdet
    rcases hGood with hemp | ⟨L, hinit, hndel⟩
    · exact absurd hemp hdet
    · rcases hcn : get_crf_name L.varNames fmap with _ | crf
      · refine ⟨(upsertPatient db L.patient_name).2, some L,
          processLog_unresolved_none db hne hinit hndel hcn,
          upsertPatient_inv hInv L.patient_name, ?_, fun log2 h => LogReady_upsert L.patient_name h⟩
        refine Or.inr ⟨L, hinit, hndel, ?_, ?_⟩
        · rw [patientIdOf_upsert_self db L.patient_name]
          exact fun h => Option.noConfusion h
        · intro crf2 hcrf2 hcne2 pid hp
          rw [hcn] at hcrf2
          cases hcrf2
      · by_cases hce : crf.isEmpty = true
        · refine ⟨(upsertPatient db L.patient_name).2, some L,
            processLog_unresolved_empty db hne hinit hndel hcn hce,
            upsertPatient_inv hInv L.patient_name, ?_, fun log2 h => LogReady_upsert L.patient_name h⟩
          refine Or.inr ⟨L, hinit, hndel, ?_, ?_⟩
          · rw [patientIdOf_upsert_self db L.patient_name]
            exact fun h => Option.noConfusion h
          · intro crf2 hcrf2 hcne2 pid hp
            rw [hcn] at hcrf2
            have hc2 : crf2 = crf := (Option.some_inj.mp hcrf2).symm
            rw [hc2] at hcne2
            rw [hcne2] at hce
            cases hce
        · have hcneF : crf.isEmpty = false := by
            cases hb : crf.isEmpty
            · rfl
            · exact absurd hb hce
          exact step_establish_resolved hP hInv hne hinit hndel hcn hcneF

theorem step_idemp {P : ProjectModel} {fmap : FieldMap} {rep : List (List Char)}
    {log : RawLog} {db : DB} (hP : SnapWF P) (hInv : DBInv db)
    (hReady : LogReady P fmap rep log db) :
    ∃ E o, processLog P fmap rep log db = ({ db with events := E }, .ok o) := by
  rcases hReady with hemp | ⟨L, hinit, hndel, hpid, hcond⟩
  · exact ⟨db.events, none, processLog_skip db hemp⟩
  · by_cases hdet : log.details.isEmpty = true
    · exact ⟨db.events, none, processLog_skip db hdet⟩
    · have hne : log.details.isEmpty = false := by
        cases hb : log.details.isEmpty
        · rfl
        · exact absurd hb hdet
      rcases hq : patientIdOf db L.patient_name with _ | pid0
      · exact absurd hq hpid
      have hup : upsertPatient db L.patient_name = (pid0, db) := upsertPatient_present hq
      rcases hcn : get_crf_name L.varNames fmap with _ | crf
      · refine ⟨db.events, some L, ?_⟩
        rw [processLog_unresolved_none db hne hinit hndel hcn, hup]
      · by_cases hce : crf.isEmpty = true
        · refine ⟨db.events, some L, ?_⟩
          rw [processLog_unresolved_empty db hne hinit hndel hcn hce, hup]
        · have hcneF : crf.isEmpty = false := by
            cases hb : crf.isEmpty
            · rfl
            · exact absurd hb hce
          have hpl := @processLog_resolved2 P fmap rep log db L crf hP hne hinit hndel hcn hcneF
          set IN := (if (get_instance L.details).isNone && rep.any (fun r => r == crf) then some 1
            else get_instance L.details) with hIN
          set RWS := wrapperRows P L.patient_name crf IN with hRWS
          have hup1 : (upsertPatient db L.patient_name).1 = pid0 := by rw [hup]
          have hup2 : (upsertPatient db L.patient_name).2 = db := by rw [hup]
          rw [hup1, hup2] at hpl
          obtain ⟨E, hwr⟩ := wrapper_shape P L crf IN db
          have hTC : TripleConv db pid0 crf IN RWS := hcond crf hcn hcneF pid0 hq
          rcases hrows : RWS with _ | ⟨r0, t⟩
          · rw [hrows] at hTC
            have hTCnil : activeCrfRows db pid0 crf IN = [] := hTC
            rw [hrows, hTCnil] at hpl
            refine ⟨E, none, ?_⟩
            rw [hpl]
            show ((export_records_wrapper P L crf IN db).2, StepOut.ok none)
              = ({ db with events := E }, StepOut.ok none)
            rw [hwr]
          · rw [hrows] at hTC
            obtain ⟨row, harow, hver, hdata⟩ := hTC
            rw [hrows, harow] at hpl
            have hvals : ∀ pr ∈ melt (r0 :: t),
                dataVals (export_records_wrapper P L crf IN db).2 row.id pr.1 = [pr.2] := by
              intro pr hpr
              rw [hwr]
              exact hdata pr hpr
            have hverall : statusIs45 (melt (r0 :: t)) crf = true →
                ∀ rr ∈ (export_records_wrapper P L crf IN db).2.crf, rr.id = row.id →
                  rr.verified = true := by
              intro hs rr hrr hid
              rw [hwr] at hrr
              have hrowdb : row ∈ db.crf := by
                have : row ∈ activeCrfRows db pid0 crf IN := by
                  rw [harow]
                  exact List.mem_singleton_self row
                exact (active_mem this).1
              have hrrdb : rr ∈ db.crf := hrr
              have : rr = row := map_nodup_inj hInv.2.2.2.1 hrrdb hrowdb hid
              rw [this]
              exact hver hs
            refine ⟨E, none, ?_⟩
            rw [hpl]
            show (updateBranch (export_records_wrapper P L crf IN db).2 row.id crf
                (melt (r0 :: t)), StepOut.ok none) = ({ db with events := E }, StepOut.ok none)
            rw [updateBranch_id hvals hverall, hwr]

theorem runLogs_establish {P : ProjectModel} {fmap : FieldMap} {rep : List (List Char)}
    (hP : SnapWF P) :
    ∀ (logs : List RawLog) (db : DB) (failed : List REDCapLogObj),
      DBInv db → (∀ log ∈ logs, GoodLog log) →
      ∃ db1 failed1, runLogs P fmap rep logs db failed = (db1, failed1, none) ∧
        DBInv db1 ∧ (∀ log ∈ logs, LogReady P fmap rep log db1) ∧
        (∀ log2, LogReady P fmap rep log2 db → LogReady P fmap rep log2 db1) := by
  intro logs
  induction logs with
  | nil =>
      intro db failed hInv _
      exact ⟨db, failed, rfl, hInv, fun log h => absurd h (List.not_mem_nil log),
        fun log2 h => h⟩
  | cons log rest ih =>
      intro db failed hInv hGood
      obtain ⟨db2, o, hstep, hInv2, hready, hpres⟩ :=
        step_establish hP hInv (hGood log (List.mem_cons_self log rest))
      rcases o with _ | L
      · obtain ⟨db1, failed1, hrun, hInv1, hreadyAll, hpresAll⟩ :=
          ih db2 failed hInv2 (fun l hl => hGood l (List.mem_cons_of_mem log hl))
        refine ⟨db1, failed1, ?_, hInv1, ?_, fun log2 h => hpresAll log2 (hpres log2 h)⟩
        · have hredex : runLogs P fmap rep (log :: rest) db failed
              = runLogs P fmap rep rest db2 failed := by
            show (match processLog P fmap rep log db with
              | (db1, .ok none) => runLogs P fmap rep rest db1 failed
              | (db1, .ok (some L)) => runLogs P fmap rep rest db1 (failed ++ [L])
              | (db1, .fatal e) => (db1, failed, some e)) = _
            rw [hstep]
          rw [hredex]
          exact hrun
        · intro l hl
          rcases List.mem_cons.mp hl with rfl | hlr
          · exact hpresAll l hready
          · exact hreadyAll l hlr
      · obtain ⟨db1, failed1, hrun, hInv1, hreadyAll, hpresAll⟩ :=
          ih db2 (failed ++ [L]) hInv2 (fun l hl => hGood l (List.mem_cons_of_mem log hl))
        refine ⟨db1, failed1, ?_, hInv1, ?_, fun log2 h => hpresAll log2 (hpres log2 h)⟩
        · have hredex : runLogs P fmap rep (log :: rest) db failed
              = runLogs P fmap rep rest db2 (failed ++ [L]) := by
            show (match processLog P fmap rep log db with
              | (db1, .ok none) => runLogs P fmap rep rest db1 failed
              | (db1, .ok (some L)) => runLogs P fmap rep rest db1 (failed ++ [L])
              | (db1, .fatal e) => (db1, failed, some e)) = _
            rw [hstep]
          rw [hredex]
          exact hrun
        · intro l hl
          rcases List.mem_cons.mp hl with rfl | hlr
          · exact hpresAll l hready
          · exact hreadyAll l hlr

theorem runLogs_idemp {P : ProjectModel} {fmap : FieldMap} {rep : List (List Char)}
    (hP : SnapWF P) :
    ∀ (logs : List RawLog) (db : DB) (failed : List REDCapLogObj),
      DBInv db → (∀ log ∈ logs, LogReady P fmap rep log db) →
      ∃ E failed1, runLogs P fmap rep logs db failed
        = ({ db with events := E }, failed1, none) := by
  intro logs
  induction logs with
  | nil =>
      intro db failed _ _
      exact ⟨db.events, failed, rfl⟩
  | cons log rest ih =>
      intro db failed hInv hready
      obtain ⟨E, o, hstep⟩ := step_idemp hP hInv (hready log (List.mem_cons_self log rest))
      have hInv2 : DBInv ({ db with events := E }) := hInv
      have hready2 : ∀ l ∈ rest, LogReady P fmap rep l ({ db with events := E }) :=
        fun l hl => hready l (List.mem_cons_of_mem log hl)
      rcases o with _ | L
      · obtain ⟨E1, failed1, hrun⟩ := ih { db with events := E } failed hInv2 hready2
        refine ⟨E1, failed1, ?_⟩
        have hredex : runLogs P fmap rep (log :: rest) db failed
            = runLogs P fmap rep rest { db with events := E } failed := by
          show (match processLog P fmap rep log db with
            | (db1, .ok none) => runLogs P fmap rep rest db1 failed
            | (db1, .ok (some L)) => runLogs P fmap rep rest db1 (failed ++ [L])
            | (db1, .fatal e) => (db1, failed, some e)) = _
          rw [hstep]
        rw [hredex]
        exact hrun
      · obtain ⟨E1, failed1, hrun⟩ := ih { db with events := E } (failed ++ [L]) hInv2 hready2
        refine ⟨E1, failed1, ?_⟩
        have hredex : runLogs P fmap rep (log :: rest) db failed
            = runLogs P fmap rep rest { db with events := E } (failed ++ [L]) := by
          show (match processLog P fmap rep log db with
            | (db1, .ok none) => runLogs P fmap rep rest db1 failed
            | (db1, .ok (some L)) => runLogs P fmap rep rest db1 (failed ++ [L])
            | (db1, .fatal e) => (db1, failed, some e)) = _
          rw [hstep]
        rw [hredex]
        exact hrun

theorem pdtd_shape {P : ProjectModel} {logs : List RawLog} {now : Ts5} {db db1 : DB}
    {failed1 : List REDCapLogObj}
    (hrun : runLogs P (get_project_instru_field_map P.metadata)
      (get_repeating_instru P (get_project_instru_field_map P.metadata)) logs db []
      = (db1, failed1, none)) :
    ∃ E B, project_data_to_db P logs now db = ({ db1 with events := E, backup := B }, none) := by
  simp only [project_data_to_db]
  rw [hrun]
  exact ⟨_, _, rfl⟩

theorem C2_counterexample :
    (project_data_to_db
        ⟨[(lc "q9", lc "formx")], false, [],
          fun _ _ => ⟨true, [⟨none, [(lc "formx_status", lc "5"), (lc "formx_complete", lc "2"), (lc "q9", lc "checked")]⟩]⟩,
          lc "proj"⟩
        [⟨lc "Delete record 7 (Arm 1: Arm 1)", lc "2024-01-01 10:00", lc "record_id = " ++ [sqc] ++ lc "7" ++ [sqc]⟩,
         ⟨lc "Create record 7 (Arm 1: Arm 1)", lc "2024-01-01 10:01", lc "q9 = checked"⟩]
        (2024, 1, 1, 10, 5) ⟨[], 0, [], 0, [], [], []⟩).2 = none ∧
    (project_data_to_db
        ⟨[(lc "q9", lc "formx")], false, [],
          fun _ _ => ⟨true, [⟨none, [(lc "formx_status", lc "5"), (lc "formx_complete", lc "2"), (lc "q9", lc "checked")]⟩]⟩,
          lc "proj"⟩
        [⟨lc "Delete record 7 (Arm 1: Arm 1)", lc "2024-01-01 10:00", lc "record_id = " ++ [sqc] ++ lc "7" ++ [sqc]⟩,
         ⟨lc "Create record 7 (Arm 1: Arm 1)", lc "2024-01-01 10:01", lc "q9 = checked"⟩]
        (2024, 1, 1, 10, 5)
        (project_data_to_db
          ⟨[(lc "q9", lc "formx")], false, [],
            fun _ _ => ⟨true, [⟨none, [(lc "formx_status", lc "5"), (lc "formx_complete", lc "2"), (lc "q9", lc "checked")]⟩]⟩,
            lc "proj"⟩
          [⟨lc "Delete record 7 (Arm 1: Arm 1)", lc "2024-01-01 10:00", lc "record_id = " ++ [sqc] ++ lc "7" ++ [sqc]⟩,
           ⟨lc "Create record 7 (Arm 1: Arm 1)", lc "2024-01-01 10:01", lc "q9 = checked"⟩]
          (2024, 1, 1, 10, 5) ⟨[], 0, [], 0, [], [], []⟩).1).1.crf.length = 2 ∧
    (project_data_to_db
        ⟨[(lc "q9", lc "formx")], false, [],
          fun _ _ => ⟨true, [⟨none, [(lc "formx_status", lc "5"), (lc "formx_complete", lc "2"), (lc "q9", lc "checked")]⟩]⟩,
          lc "proj"⟩
        [⟨lc "Delete record 7 (Arm 1: Arm 1)", lc "2024-01-01 10:00", lc "record_id = " ++ [sqc] ++ lc "7" ++ [sqc]⟩,
         ⟨lc "Create record 7 (Arm 1: Arm 1)", lc "2024-01-01 10:01", lc "q9 = checked"⟩]
        (2024, 1, 1, 10, 5) ⟨[], 0, [], 0, [], [], []⟩).1.crf.length = 1 := by
  decide

/-- C2: amended idempotence of reconciliation.  As stated the claim is false:
a DELETE-then-CREATE window re-inserts a fresh CRF_RedCap row on replay (the
insert branch of step 6 is a raw insert gated on the active-rows lookup, so a
second run soft-deletes the first row and inserts a duplicate) - see
C2_counterexample.  The amended property: for a window none of whose entries
classifies as DELETE, with per-(record, form) snapshots of at most one
well-formed row and a mirror satisfying the schema's uniqueness invariants,
replaying the window a second time leaves the mirror tables (patients with
their counter, CRF_RedCap with its counter, CRF_Data_RedCap) exactly as the
first run left them, and both runs finish without a fatal error. -/
theorem C2_idempotent (P : ProjectModel) (logs : List RawLog) (now : Ts5) (db : DB)
    (hP : SnapWF P) (hInv : DBInv db)
    (hGood : ∀ log ∈ logs, GoodLog log) :
    (project_data_to_db P logs now db).2 = none ∧
    (project_data_to_db P logs now (project_data_to_db P logs now db).1).2 = none ∧
    mir (project_data_to_db P logs now (project_data_to_db P logs now db).1).1
      = mir (project_data_to_db P logs now db).1 := by
  obtain ⟨db1, failed1, hrun, hInv1, hready, hpres⟩ :=
    @runLogs_establish P (get_project_instru_field_map P.metadata)
      (get_repeating_instru P (get_project_instru_field_map P.metadata)) hP logs db [] hInv hGood
  obtain ⟨E, B, hshape⟩ := @pdtd_shape P logs now db db1 failed1 hrun
  have hInvS1 : DBInv ({ db1 with events := E, backup := B }) := hInv1
  have hreadyS1 : ∀ log ∈ logs, LogReady P (get_project_instru_field_map P.metadata)
      (get_repeating_instru P (get_project_instru_field_map P.metadata)) log
      ({ db1 with events := E, backup := B }) := fun log hl => hready log hl
  obtain ⟨E2, failed2, hrun2⟩ :=
    @runLogs_idemp P (get_project_instru_field_map P.metadata)
      (get_repeating_instru P (get_project_instru_field_map P.metadata)) hP logs
      ({ db1 with events := E, backup := B }) [] hInvS1 hreadyS1
  obtain ⟨E3, B3, hshape2⟩ := @pdtd_shape P logs now ({ db1 with events := E, backup := B })
    ({ { db1 with events := E, backup := B } with events := E2 }) failed2 hrun2
  refine ⟨?_, ?_, ?_⟩
  · rw [hshape]
  · rw [hshape]
    show (project_data_to_db P logs now ({ db1 with events := E, backup := B })).2 = none
    rw [hshape2]
  · rw [hshape]
    show mir (project_data_to_db P logs now ({ db1 with events := E, backup := B })).1
      = mir ({ db1 with events := E, backup := B })
    rw [hshape2]
    rfl

theorem C2_idempotent_witness :
    (project_data_to_db ⟨[], false, [], fun _ _ => ⟨true, []⟩, []⟩
        [⟨lc "a", lc "b", []⟩] (2024, 1, 1, 0, 0) ⟨[], 0, [], 0, [], [], []⟩).2 = none ∧
    (project_data_to_db ⟨[], false, [], fun _ _ => ⟨true, []⟩, []⟩
        [⟨lc "a", lc "b", []⟩] (2024, 1, 1, 0, 0)
        (project_data_to_db ⟨[], false, [], fun _ _ => ⟨true, []⟩, []⟩
          [⟨lc "a", lc "b", []⟩] (2024, 1, 1, 0, 0) ⟨[], 0, [], 0, [], [], []⟩).1).2 = none ∧
    mir (project_data_to_db ⟨[], false, [], fun _ _ => ⟨true, []⟩, []⟩
        [⟨lc "a", lc "b", []⟩] (2024, 1, 1, 0, 0)
        (project_data_to_db ⟨[], false, [], fun _ _ => ⟨true, []⟩, []⟩
          [⟨lc "a", lc "b", []⟩] (2024, 1, 1, 0, 0) ⟨[], 0, [], 0, [], [], []⟩).1).1
      = mir (project_data_to_db ⟨[], false, [], fun _ _ => ⟨true, []⟩, []⟩
          [⟨lc "a", lc "b", []⟩] (2024, 1, 1, 0, 0) ⟨[], 0, [], 0, [], [], []⟩).1 := by
  refine C2_idempotent ⟨[], false, [], fun _ _ => ⟨true, []⟩, []⟩
    [⟨lc "a", lc "b", []⟩] (2024, 1, 1, 0, 0) ⟨[], 0, [], 0, [], [], []⟩ ?_ ?_ ?_
  · intro name crf
    exact ⟨rfl, Nat.zero_le 1, fun r hr => absurd hr (List.not_mem_nil r)⟩
  · refine ⟨by decide, by decide, ?_, by decide, ?_, ?_, ?_, ?_⟩
    · intro p hp
      exact absurd hp (List.not_mem_nil p)
    · intro r hr
      exact absurd hr (List.not_mem_nil r)
    · intro pid crf inst
      exact Nat.zero_le 1
    · intro rid v
      exact Nat.zero_le 1
    · intro d hd
      exact absurd hd (List.not_mem_nil d)
  · intro log hl
    rw [List.mem_singleton.mp hl]
    exact Or.inl rfl
